import Mathlib

/-!
# libselnm: `Matrix<T>` and `MappedList<T>`

A shallow embedding of `src/libselnm/matrix.hpp` and `src/libselnm/mapped_list.hpp`.

Conventions of the embedding

* `std::size_t` is a natural number; every arithmetic operation the source performs on
  `std::size_t` values is reduced modulo `SIZE_MOD = 2 ^ 64`.
* `std::vector<T>` is a `List T`; the checked accessor `vector::at` throws `out_of_range`,
  the unchecked `vector::operator[]` has undefined behaviour outside the bounds.
* A call ends in one of three ways: it returns, it throws a C++ exception, or its behaviour is
  undefined.  Mutating members also report the state of the object after a throw.
* `for (std::size_t i = 0; i < n; ++i)` is `forLoop n`, a fold over `0, 1, ..., n - 1` whose body
  may continue, return from the enclosing function, or hit undefined behaviour.
-/

namespace libselnm

/-- Number of distinct values of `std::size_t` (64-bit target). -/
def SIZE_MOD : Nat := 2 ^ 64

/-- The exceptions thrown by the library. -/
inductive Exn where
  | out_of_range
  | invalid_argument
  | runtime_error
  deriving DecidableEq, Repr

/-- Result of a call of a `const` member or free function. -/
inductive Res (ρ : Type) where
  | ok (r : ρ)
  | throws (e : Exn)
  | undefined
  deriving DecidableEq, Repr

/-- Result of a call of a mutating member on an object of type `σ`: the object after a normal
return, or the exception together with the object as the throw leaves it. -/
inductive Mut (σ : Type) where
  | done (s : σ)
  | throws (e : Exn) (s : σ)
  | undefined
  deriving DecidableEq, Repr

/-- The object after a mutating call, when the call has defined behaviour. -/
def Mut.after {σ : Type} : Mut σ → Option σ
  | .done s => some s
  | .throws _ s => some s
  | .undefined => none

/-- What one iteration of a loop body does: go on with a new state, `return r` from the
enclosing function, or undefined behaviour. -/
inductive Ctl (σ ρ : Type) where
  | next (s : σ)
  | ret (r : ρ)
  | undefined
  deriving DecidableEq, Repr

/-- Run `body` for each index of the list, in order. -/
def forRange {σ ρ : Type} (body : Nat → σ → Ctl σ ρ) : List Nat → σ → Ctl σ ρ
  | [], s => .next s
  | i :: is, s =>
    match body i s with
    | .next s' => forRange body is s'
    | .ret r => .ret r
    | .undefined => .undefined

/-- The loop `for (std::size_t i = 0; i < n; ++i) body`. -/
def forLoop {σ ρ : Type} (n : Nat) (body : Nat → σ → Ctl σ ρ) (s : σ) : Ctl σ ρ :=
  forRange body (List.range n) s

/-- `std::vector<T>::at(i)`. -/
def vector_at {T : Type} (d : List T) (i : Nat) : Res T :=
  match d[i]? with
  | some x => .ok x
  | none => .throws .out_of_range

/-- `std::vector<T>::operator[](i)`. -/
def vector_index {T : Type} (d : List T) (i : Nat) : Res T :=
  match d[i]? with
  | some x => .ok x
  | none => .undefined

/-- `std::vector<T>::assign(v)`: the old contents are dropped and replaced by `v`. -/
def vector_assign {T : Type} (_old : List T) (v : List T) : List T := v

/-- The class `Matrix<T>`: its three data members. -/
structure Matrix (T : Type) where
  num_rows_ : Nat
  num_cols_ : Nat
  data_ : List T
  deriving DecidableEq, Repr

namespace Matrix

variable {T : Type}

/-- `Matrix(r, c, v)`, matrix.hpp:15: `data_(r * c, v)` with the product taken in `std::size_t`. -/
def fill (r c : Nat) (v : T) : Matrix T :=
  { num_rows_ := r, num_cols_ := c, data_ := List.replicate (r * c % SIZE_MOD) v }

/-- `Matrix(r, c, initializer_list)`, matrix.hpp:17: `data_(r * c)` value-initialised, then
`data_.assign(v)`. -/
def ofList [Zero T] (r c : Nat) (v : List T) : Matrix T :=
  { num_rows_ := r, num_cols_ := c,
    data_ := vector_assign (List.replicate (r * c % SIZE_MOD) (0 : T)) v }

/-- `columns()`. -/
def columns (m : Matrix T) : Nat := m.num_cols_

/-- `rows()`. -/
def rows (m : Matrix T) : Nat := m.num_rows_

/-- `Flatten(i, j)`, matrix.hpp:162: `i * num_cols_ + j` in `std::size_t`. -/
def Flatten (m : Matrix T) (i j : Nat) : Nat := (i * m.num_cols_ + j) % SIZE_MOD

/-- `at(i)` read, matrix.hpp:26. -/
def at_flat (m : Matrix T) (i : Nat) : Res T := vector_at m.data_ i

/-- `at(i, j)` read, matrix.hpp:29; `i < 0` and `j < 0` are never true of a `std::size_t`. -/
def at_ij (m : Matrix T) (i j : Nat) : Res T :=
  if i ≥ m.rows ∨ j ≥ m.columns then .throws .out_of_range
  else vector_at m.data_ (m.Flatten i j)

/-- `operator[](i)` read, matrix.hpp:48. -/
def index (m : Matrix T) (i : Nat) : Res T := vector_index m.data_ i

/-- `operator()(i, j)` read, matrix.hpp:51. -/
def call (m : Matrix T) (i j : Nat) : Res T := vector_index m.data_ (m.Flatten i j)

/-- Store through the reference returned by `data_.at(k)`. -/
def store_at (m : Matrix T) (k : Nat) (v : T) : Mut (Matrix T) :=
  if k < m.data_.length then .done { m with data_ := m.data_.set k v }
  else .throws .out_of_range m

/-- Store through the reference returned by `data_[k]`. -/
def store_index (m : Matrix T) (k : Nat) (v : T) : Mut (Matrix T) :=
  if k < m.data_.length then .done { m with data_ := m.data_.set k v }
  else .undefined

/-- The statement `m.at(i) = v`. -/
def set_at_flat (m : Matrix T) (i : Nat) (v : T) : Mut (Matrix T) := m.store_at i v

/-- The statement `m.at(i, j) = v`. -/
def set_at_ij (m : Matrix T) (i j : Nat) (v : T) : Mut (Matrix T) :=
  if i ≥ m.rows ∨ j ≥ m.columns then .throws .out_of_range m
  else m.store_at (m.Flatten i j) v

/-- The statement `m[i] = v`. -/
def set_index (m : Matrix T) (i : Nat) (v : T) : Mut (Matrix T) := m.store_index i v

/-- The statement `m(i, j) = v`. -/
def set_call (m : Matrix T) (i j : Nat) (v : T) : Mut (Matrix T) :=
  m.store_index (m.Flatten i j) v

/-- The statement `m(i, j) += x`, as a loop step. -/
def add_to_cell [Add T] {ρ : Type} (m : Matrix T) (i j : Nat) (x : T) : Ctl (Matrix T) ρ :=
  match m.data_[m.Flatten i j]? with
  | some a => .next { m with data_ := m.data_.set (m.Flatten i j) (a + x) }
  | none => .undefined

/-- The comparison of one pair of cells, matrix.hpp:66-70: `a == b` when
`tolerance <= static_cast<T>(0)`, else `std::abs(a - b) <= tolerance`. -/
def cell_test [LinearOrderedRing T] (tolerance : T) (a b : T) : Bool :=
  if tolerance ≤ 0 then decide (a = b) else decide (|a - b| ≤ tolerance)

/-- One evaluation of `result = result && cmp` followed by `if (!result) return result;`
(matrix.hpp:66-71); `&&` evaluates its right operand only when `result` holds. -/
def equal_cell [LinearOrderedRing T] (lhs rhs : Matrix T) (tolerance : T) (i j : Nat)
    (result : Bool) : Ctl Bool Bool :=
  if result then
    match lhs.call i j, rhs.call i j with
    | .ok a, .ok b =>
      let result := cell_test tolerance a b
      if !result then .ret result else .next result
    | _, _ => .undefined
  else .ret false

/-- `equal(lhs, rhs, tolerance)`, matrix.hpp:59. -/
def equal [LinearOrderedRing T] (lhs rhs : Matrix T) (tolerance : T) : Res Bool :=
  let result := decide (lhs.columns = rhs.columns) && decide (lhs.rows = rhs.rows)
  if result then
    match forLoop lhs.rows (fun i result =>
        forLoop lhs.columns (fun j result => equal_cell lhs rhs tolerance i j result) result)
        result with
    | .next result => .ok result
    | .ret r => .ok r
    | .undefined => .undefined
  else .ok result

/-- `equal(lhs, rhs)` with the default `tolerance = static_cast<T>(-1)`. -/
def equal_default [LinearOrderedRing T] (lhs rhs : Matrix T) : Res Bool := equal lhs rhs (-1)

/-- `operator==`, matrix.hpp:77. -/
def op_eq [LinearOrderedRing T] (lhs rhs : Matrix T) : Res Bool := equal_default lhs rhs

/-- `operator!=`, matrix.hpp:80. -/
def op_ne [LinearOrderedRing T] (lhs rhs : Matrix T) : Res Bool :=
  match op_eq lhs rhs with
  | .ok b => .ok (!b)
  | .throws e => .throws e
  | .undefined => .undefined

/-- What a `const T &rhs` argument of a compound scalar operator refers to: an object outside
the storage of the matrix the operator is called on, with its value, or the cell at a flat
index of that matrix itself, as in `m += m(0, 0)`. -/
inductive ScalarRef (T : Type) where
  | outside (s : T)
  | cell (k : Nat)
  deriving DecidableEq, Repr

/-- The value read through the reference while the data of the matrix is `d`; a reference to
a cell outside `d` cannot be read. -/
def ScalarRef.read (d : List T) : ScalarRef T → Option T
  | .outside s => some s
  | .cell k => d[k]?

/-- One iteration of the loop `for (auto &&d : data_) d op= rhs;`, at the position `p`: `rhs`
is read through the reference at this iteration. -/
def scalar_cell (op : T → T → T) (rhs : ScalarRef T) (p : Nat) (d : List T) :
    Ctl (List T) Unit :=
  match d[p]?, rhs.read d with
  | some x, some s => .next (d.set p (op x s))
  | _, _ => .undefined

/-- The loop `for (auto &&d : data_) d op= rhs;`. -/
def for_each_cell (op : T → T → T) (rhs : ScalarRef T) (d : List T) : Ctl (List T) Unit :=
  forLoop d.length (fun p d => scalar_cell op rhs p d) d

/-- The matrix after the loop of a compound scalar operator. -/
def scalar_result (m : Matrix T) : Ctl (List T) Unit → Mut (Matrix T)
  | .next d => .done { m with data_ := d }
  | _ => .undefined

/-- What a binary operator returns: its by-value parameter `lhs` after the compound
operator. -/
def returned (r : Mut (Matrix T)) : Res (Matrix T) :=
  match r with
  | .done lhs => .ok lhs
  | .throws e _ => .throws e
  | .undefined => .undefined

/-- `operator+=(const T&)`, matrix.hpp:84. -/
def op_plus_eq_scalar [Add T] (m : Matrix T) (rhs : ScalarRef T) : Mut (Matrix T) :=
  scalar_result m (for_each_cell (fun d s => d + s) rhs m.data_)

/-- `operator+(Matrix<T>, const T&)`, matrix.hpp:88: `lhs` is a copy of the argument, so `rhs`
refers to an object outside the storage that `lhs += rhs` mutates. -/
def op_plus_scalar [Add T] (lhs : Matrix T) (rhs : T) : Res (Matrix T) :=
  returned (lhs.op_plus_eq_scalar (.outside rhs))

/-- `operator-=(const T&)`, matrix.hpp:93. -/
def op_minus_eq_scalar [Sub T] (m : Matrix T) (rhs : ScalarRef T) : Mut (Matrix T) :=
  scalar_result m (for_each_cell (fun d s => d - s) rhs m.data_)

/-- `operator-(Matrix<T>, const T&)`, matrix.hpp:97, on a copy `lhs` of the argument. -/
def op_minus_scalar [Sub T] (lhs : Matrix T) (rhs : T) : Res (Matrix T) :=
  returned (lhs.op_minus_eq_scalar (.outside rhs))

/-- `operator*=(const T&)`, matrix.hpp:102. -/
def op_times_eq_scalar [Mul T] (m : Matrix T) (rhs : ScalarRef T) : Mut (Matrix T) :=
  scalar_result m (for_each_cell (fun d s => d * s) rhs m.data_)

/-- `operator*(Matrix<T>, const T&)`, matrix.hpp:106, on a copy `lhs` of the argument. -/
def op_times_scalar [Mul T] (lhs : Matrix T) (rhs : T) : Res (Matrix T) :=
  returned (lhs.op_times_eq_scalar (.outside rhs))

/-- `operator/=(const T&)`, matrix.hpp:111. -/
def op_over_eq_scalar [Div T] (m : Matrix T) (rhs : ScalarRef T) : Mut (Matrix T) :=
  scalar_result m (for_each_cell (fun d s => d / s) rhs m.data_)

/-- `operator/(Matrix<T>, const T&)`, matrix.hpp:115, on a copy `lhs` of the argument. -/
def op_over_scalar [Div T] (lhs : Matrix T) (rhs : T) : Res (Matrix T) :=
  returned (lhs.op_over_eq_scalar (.outside rhs))

/-- The statement `data_[Flatten(i, j)] += rhs(i, j)` of matrix.hpp:129. -/
def plus_eq_cell [Add T] (self rhs : Matrix T) (i j : Nat) : Ctl (Matrix T) Unit :=
  match rhs.call i j with
  | .ok b => self.add_to_cell i j b
  | _ => .undefined

/-- `operator+=(const Matrix<T>&)`, matrix.hpp:120; the loop bounds `rows()` and `columns()`
read the `const` members `num_rows_` and `num_cols_`, which no iteration changes. -/
def op_plus_eq [Add T] (self rhs : Matrix T) : Mut (Matrix T) :=
  if self.rows ≠ rhs.rows ∨ self.columns ≠ rhs.columns then .throws .invalid_argument self
  else
    match forLoop self.rows (fun i s =>
        forLoop self.columns (fun j s => plus_eq_cell s rhs i j) s) self with
    | .next s => .done s
    | _ => .undefined

/-- `operator+(Matrix<T>, const Matrix<T>&)`, matrix.hpp:134: `lhs` is a copy of the argument,
which is returned when `+=` does not throw. -/
def op_plus [Add T] (lhs rhs : Matrix T) : Res (Matrix T) :=
  match lhs.op_plus_eq rhs with
  | .done lhs => .ok lhs
  | .throws e _ => .throws e
  | .undefined => .undefined

/-- The statement `result(i, j) += lhs(i, k) * rhs(k, j)` of matrix.hpp:154. -/
def mul_cell [Add T] [Mul T] (lhs rhs : Matrix T) (i j k : Nat) (result : Matrix T) :
    Ctl (Matrix T) Unit :=
  match lhs.call i k, rhs.call k j with
  | .ok a, .ok b => result.add_to_cell i j (a * b)
  | _, _ => .undefined

/-- `operator*(const Matrix<T>&, const Matrix<T>&)`, matrix.hpp:139. -/
def op_times [Zero T] [Add T] [Mul T] (lhs rhs : Matrix T) : Res (Matrix T) :=
  let m := lhs.rows
  let n := lhs.columns
  let p := rhs.rows
  let q := rhs.columns
  if n ≠ p then .throws .invalid_argument
  else
    let result : Matrix T := fill m q 0
    match forLoop m (fun i result =>
        forLoop q (fun j result =>
          forLoop p (fun k result => mul_cell lhs rhs i j k result) result) result) result with
    | .next result => .ok result
    | _ => .undefined

/-- The matrix holds exactly `rows × columns` cells; the cell count is a `std::size_t`. -/
def WellFormed (m : Matrix T) : Prop :=
  m.data_.length = m.num_rows_ * m.num_cols_ ∧ m.num_rows_ * m.num_cols_ < SIZE_MOD

instance (m : Matrix T) : Decidable m.WellFormed := by
  unfold WellFormed; infer_instance

/-- The shape and the number of cells of a matrix. -/
def Shaped (r c n : Nat) (m : Matrix T) : Prop :=
  m.num_rows_ = r ∧ m.num_cols_ = c ∧ m.data_.length = n

/-- One statement that mutates a matrix object in place: a store through one of the four
accessors, a compound scalar operator with a scalar outside the matrix or with one of its own
cells, or `+=` with a matrix.  A statement that throws leaves the object in the state reported
with the exception. -/
inductive Mutates [Add T] [Sub T] [Mul T] [Div T] : Matrix T → Matrix T → Prop where
  | set_at_flat {m m' : Matrix T} (i : Nat) (v : T) :
      (m.set_at_flat i v).after = some m' → Mutates m m'
  | set_at_ij {m m' : Matrix T} (i j : Nat) (v : T) :
      (m.set_at_ij i j v).after = some m' → Mutates m m'
  | set_index {m m' : Matrix T} (i : Nat) (v : T) :
      (m.set_index i v).after = some m' → Mutates m m'
  | set_call {m m' : Matrix T} (i j : Nat) (v : T) :
      (m.set_call i j v).after = some m' → Mutates m m'
  | plus_scalar {m m' : Matrix T} (rhs : ScalarRef T) :
      (m.op_plus_eq_scalar rhs).after = some m' → Mutates m m'
  | minus_scalar {m m' : Matrix T} (rhs : ScalarRef T) :
      (m.op_minus_eq_scalar rhs).after = some m' → Mutates m m'
  | times_scalar {m m' : Matrix T} (rhs : ScalarRef T) :
      (m.op_times_eq_scalar rhs).after = some m' → Mutates m m'
  | over_scalar {m m' : Matrix T} (rhs : ScalarRef T) :
      (m.op_over_eq_scalar rhs).after = some m' → Mutates m m'
  | plus_eq {m m' : Matrix T} (rhs : Matrix T) :
      (m.op_plus_eq rhs).after = some m' → Mutates m m'

/-- `Reachable r c m`: the matrix `m` is an object that was constructed with `r` rows and `c`
columns and has since been mutated in place.  Objects are constructed by the fill constructor
and by the list constructor with exactly `r * c` values, in both cases with `r * c` below
`2 ^ 64`; by `operator+`, which copies its left operand and applies `+=` to the copy; and by
`operator*`, which constructs its result with the rows of the left and the columns of the
right operand, their product being below `2 ^ 64`.  The binary scalar operators mutate a copy
of their operand. -/
inductive Reachable [Zero T] [Add T] [Sub T] [Mul T] [Div T] : Nat → Nat → Matrix T → Prop where
  | fill (r c : Nat) (v : T) : r * c < SIZE_MOD → Reachable r c (fill r c v)
  | ofList (r c : Nat) (vs : List T) :
      vs.length = r * c → vs.length < SIZE_MOD → Reachable r c (ofList r c vs)
  | mutate {r c : Nat} {m m' : Matrix T} : Reachable r c m → Mutates m m' → Reachable r c m'
  | sum {r c r' c' : Nat} {a b s : Matrix T} :
      Reachable r c a → Reachable r' c' b → op_plus a b = .ok s → Reachable r c s
  | product {r c r' c' : Nat} {a b p : Matrix T} :
      Reachable r c a → Reachable r' c' b → op_times a b = .ok p → r * c' < SIZE_MOD →
      Reachable r c' p

end Matrix

/-- The implicit conversions between `std::size_t` and the element type `T` that
`MappedList<T>` relies on: `indices_` is declared `std::map<std::string, T>`
(mapped_list.hpp:76), so `indices_.emplace(id, data_.size())` converts the position to `T`
and `data_.at(indices_.at(id))` converts the stored `T` back to `std::size_t`. -/
class SizeCast (T : Type) where
  of_size : Nat → T
  to_size : T → Nat

/-- `unsigned char`: the integers modulo `2 ^ 8`. -/
abbrev UChar : Type := Fin 256

/-- Conversions `std::size_t → unsigned char` (reduction modulo 256) and back (value kept). -/
instance : SizeCast UChar where
  of_size n := ⟨n % 256, Nat.mod_lt n (by decide)⟩
  to_size x := x.val % SIZE_MOD

/-- An exact stand-in for the floating-point element types of the tests on the values the
tests use: a `std::size_t` converts to the same number, and a value converts back by
truncation. -/
instance : SizeCast ℚ where
  of_size n := (n : ℚ)
  to_size x := x.floor.toNat % SIZE_MOD

/-- `std::map<K, V>::count(k)`; a map is the list of its entries, whose order the source never
observes. -/
def map_count {K V : Type} [DecidableEq K] (m : List (K × V)) (k : K) : Nat :=
  if (m.lookup k).isSome then 1 else 0

/-- `std::map<K, V>::emplace(k, v)`: nothing is inserted when the key is present. -/
def map_emplace {K V : Type} [DecidableEq K] (m : List (K × V)) (k : K) (v : V) :
    List (K × V) :=
  if (m.lookup k).isSome then m else m ++ [(k, v)]

/-- `std::map<K, V>::at(k)`. -/
def map_at {K V : Type} [DecidableEq K] (m : List (K × V)) (k : K) : Res V :=
  match m.lookup k with
  | some v => .ok v
  | none => .throws .out_of_range

/-- The class `MappedList<T>`: its data members, in declaration order. -/
structure MappedList (T : Type) where
  data_ : List T
  description_ : String
  ids_ : List String
  indices_ : List (String × T)
  max_id_width_ : Nat
  name_ : String
  deriving DecidableEq, Repr

namespace MappedList

variable {T : Type}

/-- `MappedList(name, description)`, mapped_list.hpp:16. -/
def new (name description : String) : MappedList T :=
  { data_ := [], description_ := description, ids_ := [], indices_ := [],
    max_id_width_ := 0, name_ := name }

/-- `add(id, value)`, mapped_list.hpp:19; `id.length()` counts bytes. -/
def add [SizeCast T] (l : MappedList T) (id : String) (value : T) : Mut (MappedList T) :=
  if map_count l.indices_ id > 0 then .throws .runtime_error l
  else
    let l := { l with indices_ := map_emplace l.indices_ id (SizeCast.of_size l.data_.length) }
    let l := { l with data_ := l.data_ ++ [value] }
    let l := { l with ids_ := l.ids_ ++ [id] }
    .done { l with max_id_width_ := max l.max_id_width_ id.utf8ByteSize }

/-- `id(i)`, mapped_list.hpp:32. -/
def id (l : MappedList T) (i : Nat) : Res String := vector_index l.ids_ i

/-- `description()`. -/
def description (l : MappedList T) : String := l.description_

/-- `name()`. -/
def name (l : MappedList T) : String := l.name_

/-- `size()`. -/
def size (l : MappedList T) : Nat := l.data_.length

/-- `at(i)` with a position, mapped_list.hpp:37. -/
def at_pos (l : MappedList T) (i : Nat) : Res T := vector_at l.data_ i

/-- `at(id)` with an identifier, mapped_list.hpp:39. -/
def at_id [SizeCast T] (l : MappedList T) (id : String) : Res T :=
  match map_at l.indices_ id with
  | .ok t => vector_at l.data_ (SizeCast.to_size t)
  | .throws e => .throws e
  | .undefined => .undefined

/-- `operator[](i)` with a position, mapped_list.hpp:44. -/
def index_pos (l : MappedList T) (i : Nat) : Res T := vector_index l.data_ i

/-- `operator[](id)` with an identifier, mapped_list.hpp:46. -/
def index_id [SizeCast T] (l : MappedList T) (id : String) : Res T :=
  match map_at l.indices_ id with
  | .ok t => vector_index l.data_ (SizeCast.to_size t)
  | .throws e => .throws e
  | .undefined => .undefined

/-- Calling `add` on each pair of the list in order; the run stops at the first throw. -/
def add_all [SizeCast T] (l : MappedList T) : List (String × T) → Mut (MappedList T)
  | [] => .done l
  | (id, value) :: rest =>
    match l.add id value with
    | .done l => add_all l rest
    | .throws e l => .throws e l
    | .undefined => .undefined

/-- `Reachable h l`: the collection `l` is what a program holds after constructing a
collection and then calling `add` (returning or throwing) and storing through the references
returned by `at(i)` and `operator[](i)`; `h` lists, in order, the identifiers of the `add`
calls that returned. -/
inductive Reachable [SizeCast T] : List String → MappedList T → Prop where
  | new (name description : String) : Reachable [] (new name description)
  | add_done {h : List String} {l l' : MappedList T} (id : String) (value : T) :
      Reachable h l → l.add id value = .done l' → Reachable (h ++ [id]) l'
  | add_throws {h : List String} {l l' : MappedList T} (id : String) (value : T) (e : Exn) :
      Reachable h l → l.add id value = .throws e l' → Reachable h l'
  | store {h : List String} {l : MappedList T} (i : Nat) (value : T) :
      Reachable h l → i < l.data_.length →
      Reachable h { l with data_ := l.data_.set i value }

/-- What the members of a collection look like after the identifiers `h` have been added:
`ids_` is `h`, without repetition, `data_` has one value for each, and `indices_` pairs the
identifier at position `k` with the conversion of `k` to `T`. -/
def Consistent [SizeCast T] (h : List String) (l : MappedList T) : Prop :=
  l.ids_ = h ∧ h.Nodup ∧ l.data_.length = h.length ∧
    l.indices_ = List.zipWith (fun id k => (id, (SizeCast.of_size k : T))) h
      (List.range' 0 h.length)

/-- The collection of the tests `MappedListTest.AddItem` and `AccessItem` after
`add("first thing", 0.0)` and `add("second thing", 1.0)`. -/
def test_list : MappedList ℚ :=
  { data_ := [0, 1], description_ := "Test Stuff", ids_ := ["first thing", "second thing"],
    indices_ := [("first thing", 0), ("second thing", 1)], max_id_width_ := 12,
    name_ := "test_list" }

/-- The identifier number `k` of the run of 257 `add` calls on a `MappedList<unsigned char>`:
`k + 1` letters `a`. -/
def wrap_id (k : Nat) : String := String.mk (List.replicate (k + 1) 'a')

/-- The run of 257 `add` calls on a `MappedList<unsigned char>`: the value is `0` at the
positions `0, ..., 255` and `1` at the position `256`. -/
def wrap_pairs : List (String × UChar) :=
  (List.range 257).map fun k => (wrap_id k, if k = 256 then 1 else 0)

/-- The `basefield` of a stream. -/
inductive Base where
  | dec
  | oct
  | hex
  deriving DecidableEq, Repr

/-- The radix in which a stream writes integers. -/
def Base.radix : Base → Nat
  | .dec => 10
  | .oct => 8
  | .hex => 16

/-- A `std::ostream`: the text written so far and the formatting state that the insertions of
`operator<<` read, which is whether `adjustfield` is `left`, the fill character and the
`basefield`.  The other flags and the locale are taken at their defaults. -/
structure OStream where
  text : String
  left : Bool
  fill : Char
  base : Base
  deriving DecidableEq, Repr

namespace OStream

/-- A stream in the default formatting state that holds `text`, such as a newly constructed
`std::stringstream`: right adjustment, fill character space, decimal base. -/
def fresh (text : String) : OStream :=
  { text := text, left := false, fill := ' ', base := .dec }

/-- An insertion with the width 0: the text is appended as it is.  This is `os << s` for a
string after an insertion has reset the width, and the line feed of `std::endl`. -/
def write (os : OStream) (s : String) : OStream :=
  { os with text := os.text ++ s }

/-- `os << std::setw(w) << s` for a string: `s` in a field of `w` bytes, padded with the fill
character after `s` when `adjustfield` is `left` and before it otherwise; a longer `s` is
written whole.  The width applies to this one insertion. -/
def put_string (os : OStream) (w : Nat) (s : String) : OStream :=
  if os.left then os.write (s ++ String.mk (List.replicate (w - s.utf8ByteSize) os.fill))
  else os.write (String.mk (List.replicate (w - s.utf8ByteSize) os.fill) ++ s)

/-- `os << std::setw(w) << n` for a `std::size_t`: the digits of `n` in the base of the
stream, padded like a string. -/
def put_size (os : OStream) (w : Nat) (n : Nat) : OStream :=
  os.put_string w (String.mk (Nat.toDigits os.base.radix n))

end OStream

/-- The statement of the loop of `operator<<`, mapped_list.hpp:66: one line for the position
`i`, read through the unchecked `id(i)` and `operator[](i)`; `text` is what `os << value`
writes for the element type. -/
def insert_row (text : T → String) (index_width id_width : Nat) (list : MappedList T)
    (i : Nat) (os : OStream) : Ctl OStream Unit :=
  match list.id i, list.index_pos i with
  | .ok id, .ok value =>
    .next ((((((os.put_size index_width i).write "  ").put_string id_width id).write "  ").write
      (text value)).write "\n")
  | _, _ => .undefined

/-- `operator<<(std::ostream&, const MappedList<T>&)`, mapped_list.hpp:51.  `largest_index` is
a new `std::stringstream`, in the default formatting state whatever the state of `os`;
`list.size() - 1` is taken in `std::size_t`, and `length()` counts bytes. -/
def op_insert (text : T → String) (os : OStream) (list : MappedList T) : Res OStream :=
  let header : String × String × String := ("Index", "ID", list.description)
  let largest_index := (OStream.fresh "").put_size 0 ((list.size + SIZE_MOD - 1) % SIZE_MOD)
  let index_width := max header.1.utf8ByteSize largest_index.text.utf8ByteSize
  let id_width := max header.2.1.utf8ByteSize list.max_id_width_
  let os := (((((os.put_string index_width header.1).write "  ").put_string id_width
    header.2.1).write "  ").write header.2.2).write "\n"
  match forLoop list.size (fun i os => insert_row text index_width id_width list i os) os with
  | .next os => .ok os
  | _ => .undefined

/-- Text form of the values of the tests under the default stream format: `0.0` is written
`0` and `1.0` is written `1`; the numerator of an integral value. -/
def test_text (q : ℚ) : String := toString q.num

/-- `signed char`: an integer from -128 to 127. -/
structure SChar where
  val : Int
  deriving DecidableEq, Repr

/-- Conversions `std::size_t → signed char` (reduction modulo 256 into the signed range) and
back (reduction modulo `2 ^ 64`, so that a negative value becomes a large position). -/
instance : SizeCast SChar where
  of_size n := ⟨((n : Int) + 128) % 256 - 128⟩
  to_size x := (x.val % (SIZE_MOD : Int)).toNat

/-- The run of 129 `add` calls on a `MappedList<signed char>`: the identifiers `wrap_id k` for
`k = 0, ..., 128`, each with the value 0. -/
def signed_pairs : List (String × SChar) :=
  (List.range 129).map fun k => (wrap_id k, ⟨0⟩)

end MappedList

end libselnm

/-! ## Loops and row-major indexing -/

namespace libselnm

section loops
variable {σ ρ : Type}

theorem forRange_append (body : Nat → σ → Ctl σ ρ) (l₁ l₂ : List Nat) (s : σ) :
    forRange body (l₁ ++ l₂) s =
      match forRange body l₁ s with
      | .next s' => forRange body l₂ s'
      | .ret r => .ret r
      | .undefined => .undefined := by
  induction l₁ generalizing s with
  | nil => simp [forRange]
  | cons i is ih =>
    simp only [List.cons_append, forRange]
    cases body i s with
    | next s' => simpa using ih s'
    | ret r => rfl
    | undefined => rfl

theorem forLoop_zero (body : Nat → σ → Ctl σ ρ) (s : σ) : forLoop 0 body s = .next s := by
  simp [forLoop, forRange]

theorem forLoop_succ (n : Nat) (body : Nat → σ → Ctl σ ρ) (s : σ) :
    forLoop (n + 1) body s =
      match forLoop n body s with
      | .next s' => body n s'
      | .ret r => .ret r
      | .undefined => .undefined := by
  unfold forLoop
  rw [List.range_succ, forRange_append]
  cases forRange body (List.range n) s with
  | next s' =>
    simp only [forRange]
    cases body n s' <;> rfl
  | ret r => rfl
  | undefined => rfl

/-- A loop whose body leaves the state alone leaves the state alone. -/
theorem forRange_skip (body : Nat → σ → Ctl σ ρ) (s : σ) (l : List Nat)
    (h : ∀ i ∈ l, body i s = .next s) : forRange body l s = .next s := by
  induction l with
  | nil => rfl
  | cons i is ih =>
    simp only [forRange, h i (List.mem_cons_self i is)]
    exact ih (fun k hk => h k (List.mem_cons_of_mem i hk))

/-- A loop whose first iteration has undefined behaviour has undefined behaviour. -/
theorem forLoop_undefined_first {σ ρ : Type} (n : Nat) (body : Nat → σ → Ctl σ ρ) (s : σ)
    (hn : 0 < n) (h : body 0 s = .undefined) : forLoop n body s = .undefined := by
  obtain ⟨m, rfl⟩ : ∃ m, n = m + 1 := ⟨n - 1, by omega⟩
  unfold forLoop
  rw [List.range_succ_eq_map]
  simp only [forRange, h]

end loops

theorem flat_lt {i r c j : Nat} (hi : i < r) (hj : j < c) : i * c + j < r * c := by
  have h : (i + 1) * c ≤ r * c := Nat.mul_le_mul_right c hi
  rw [Nat.add_mul, Nat.one_mul] at h
  omega

namespace Matrix
variable {T : Type}

theorem Flatten_eq (m : Matrix T) {i j : Nat} (hi : i < m.num_rows_) (hj : j < m.num_cols_)
    (hsz : m.num_rows_ * m.num_cols_ < SIZE_MOD) : m.Flatten i j = i * m.num_cols_ + j := by
  unfold Flatten
  exact Nat.mod_eq_of_lt (lt_trans (flat_lt hi hj) hsz)

/-- A doubly nested loop whose body at `(i, j)` rewrites the cell `(i, j)` by `g i j` rewrites
every cell of the row once: the row loop. -/
theorem cellwise_row {ρ : Type} (r c : Nat) (g : Nat → Nat → T → T) (M : Matrix T)
    (body : Nat → Nat → Matrix T → Ctl (Matrix T) ρ)
    (hbody : ∀ i j (d : List T) (x : T), i < r → j < c → d.length = r * c →
      d[i * c + j]? = some x →
      body i j { M with data_ := d } = .next { M with data_ := d.set (i * c + j) (g i j x) })
    (i : Nat) (hi : i < r) (d₀ : List T) (hlen : d₀.length = r * c) (n : Nat) (hn : n ≤ c) :
    ∃ d, forLoop n (fun j M => body i j M) { M with data_ := d₀ } = .next { M with data_ := d } ∧
      d.length = r * c ∧
      (∀ j, j < n → d[i * c + j]? = (d₀[i * c + j]?).map (g i j)) ∧
      (∀ k, (∀ j, j < n → k ≠ i * c + j) → d[k]? = d₀[k]?) := by
  induction n with
  | zero => exact ⟨d₀, by simp [forLoop_zero], hlen, by simp, by simp⟩
  | succ n ih =>
    obtain ⟨d, hd, hdl, hdone, hrest⟩ := ih (by omega)
    have hlt : i * c + n < d₀.length := by rw [hlen]; exact flat_lt hi (by omega)
    have hdn : d[i * c + n]? = some (d₀[i * c + n]) := by
      rw [hrest _ (by intro j hj; omega)]
      exact List.getElem?_eq_getElem hlt
    refine ⟨d.set (i * c + n) (g i n (d₀[i * c + n])), ?_, by simpa using hdl, ?_, ?_⟩
    · rw [forLoop_succ, hd]
      simpa using hbody i n d _ hi (by omega) hdl hdn
    · intro j hj
      by_cases hjn : j = n
      · subst hjn
        rw [List.getElem?_set_self (by rw [hdl, ← hlen]; exact hlt)]
        simp [List.getElem?_eq_getElem hlt]
      · rw [List.getElem?_set_ne (by omega)]
        exact hdone j (by omega)
    · intro k hk
      rw [List.getElem?_set_ne (by have := hk n (by omega); omega)]
      exact hrest k (fun j hj => hk j (by omega))

/-- The same for the whole grid: the loop over the rows. -/
theorem cellwise_grid {ρ : Type} (r c : Nat) (g : Nat → Nat → T → T) (M : Matrix T)
    (body : Nat → Nat → Matrix T → Ctl (Matrix T) ρ)
    (hbody : ∀ i j (d : List T) (x : T), i < r → j < c → d.length = r * c →
      d[i * c + j]? = some x →
      body i j { M with data_ := d } = .next { M with data_ := d.set (i * c + j) (g i j x) })
    (d₀ : List T) (hlen : d₀.length = r * c) (n : Nat) (hn : n ≤ r) :
    ∃ d, forLoop n (fun i M => forLoop c (fun j M => body i j M) M) { M with data_ := d₀ }
        = .next { M with data_ := d } ∧
      d.length = r * c ∧
      (∀ i j, i < n → j < c → d[i * c + j]? = (d₀[i * c + j]?).map (g i j)) ∧
      (∀ k, (∀ i j, i < n → j < c → k ≠ i * c + j) → d[k]? = d₀[k]?) := by
  induction n with
  | zero => exact ⟨d₀, by simp [forLoop_zero], hlen, by simp, by simp⟩
  | succ n ih =>
    obtain ⟨d, hd, hdl, hdone, hrest⟩ := ih (by omega)
    obtain ⟨d', hd', hdl', hrow, hother⟩ :=
      cellwise_row r c g M body hbody n (by omega) d hdl c (le_refl c)
    refine ⟨d', ?_, hdl', ?_, ?_⟩
    · rw [forLoop_succ, hd]
      simpa using hd'
    · intro i j hi hj
      by_cases hin : i = n
      · subst hin
        rw [hrow j hj]
        rw [hrest _ (fun i' j' hi' hj' => by have := flat_lt (r := i) hi' hj'; omega)]
      · have hlt : i < n := by omega
        rw [hother _ (fun j' hj' => by have := flat_lt (r := n) hlt hj; omega)]
        exact hdone i j hlt hj
    · intro k hk
      rw [hother k (fun j hj => hk n j (by omega) hj)]
      exact hrest k (fun i j hi hj => hk i j (by omega) hj)

/-- The accumulation loop over `k` of `operator*` at a fixed cell. -/
theorem mul_inner [Semiring T] (lhs rhs R : Matrix T) (A B : Nat → Nat → T) (i j idx : Nat)
    (x : T) (hidx : R.Flatten i j = idx) (hx : R.data_[idx]? = some x) (p : Nat)
    (hA : ∀ k, k < p → lhs.call i k = .ok (A i k))
    (hB : ∀ k, k < p → rhs.call k j = .ok (B k j)) :
    forLoop p (fun k R => mul_cell lhs rhs i j k R) R
      = (.next { R with data_ := R.data_.set idx (x + ∑ k in Finset.range p, A i k * B k j) } :
          Ctl (Matrix T) Unit) := by
  have hlt : idx < R.data_.length := by
    rcases List.getElem?_eq_some.mp hx with ⟨h, _⟩
    exact h
  induction p with
  | zero =>
    rw [forLoop_zero]
    congr 1
    cases R with
    | mk nr nc d =>
      simp only [Finset.range_zero, Finset.sum_empty, add_zero, Matrix.mk.injEq, true_and]
      apply List.ext_getElem? 
      intro k
      by_cases hk : k = idx
      · subst hk
        rw [List.getElem?_set_self hlt]
        exact hx
      · rw [List.getElem?_set_ne (Ne.symm hk)]
  | succ p ih =>
    rw [forLoop_succ, ih (fun k hk => hA k (by omega)) (fun k hk => hB k (by omega))]
    simp only [mul_cell, hA p (by omega), hB p (by omega), add_to_cell]
    have hF : Flatten { R with data_ := R.data_.set idx (x + ∑ k in Finset.range p, A i k * B k j) } i j = idx := hidx
    rw [hF]
    simp only [List.getElem?_set_self hlt, List.set_set, Finset.sum_range_succ, add_assoc]


theorem call_ok (m : Matrix T) (hwf : m.WellFormed) {i j : Nat} (hi : i < m.rows)
    (hj : j < m.columns) (dflt : T) :
    m.data_[i * m.num_cols_ + j]? = some (m.data_.getD (i * m.num_cols_ + j) dflt) ∧
      m.call i j = .ok (m.data_.getD (i * m.num_cols_ + j) dflt) := by
  have hlt : i * m.num_cols_ + j < m.data_.length := by
    rw [hwf.1]; exact flat_lt hi hj
  have h1 : m.data_[i * m.num_cols_ + j]? = some (m.data_.getD (i * m.num_cols_ + j) dflt) := by
    rw [List.getD_eq_getElem?_getD, List.getElem?_eq_getElem hlt]; rfl
  refine ⟨h1, ?_⟩
  unfold call vector_index
  rw [Flatten_eq m hi hj hwf.2, h1]

theorem op_times_throws_iff [Zero T] [Add T] [Mul T] (lhs rhs : Matrix T) :
    op_times lhs rhs = .throws .invalid_argument ↔ lhs.columns ≠ rhs.rows := by
  unfold op_times
  simp only
  split
  · simp_all
  · rename_i h
    constructor
    · intro h'
      split at h' <;> cases h'
    · intro h'
      exact absurd h' h

theorem op_times_cells [Semiring T] (lhs rhs : Matrix T) (hnp : lhs.columns = rhs.rows)
    (hmq : lhs.rows * rhs.columns < SIZE_MOD) (A B : Nat → Nat → T)
    (hA : ∀ i k, i < lhs.rows → k < lhs.columns → lhs.call i k = .ok (A i k))
    (hB : ∀ k j, k < rhs.rows → j < rhs.columns → rhs.call k j = .ok (B k j)) :
    ∃ r, op_times lhs rhs = .ok r ∧ r.rows = lhs.rows ∧ r.columns = rhs.columns ∧
      r.WellFormed ∧
      ∀ i j, i < lhs.rows → j < rhs.columns →
        r.call i j = .ok (∑ k in Finset.range lhs.columns, A i k * B k j) := by
  have hsz : lhs.rows * rhs.columns % SIZE_MOD = lhs.rows * rhs.columns := Nat.mod_eq_of_lt hmq
  obtain ⟨d, hd, hdl, hcells, -⟩ := cellwise_grid (ρ := Unit) lhs.rows rhs.columns
    (fun i j x => x + ∑ k in Finset.range rhs.rows, A i k * B k j)
    (fill lhs.rows rhs.columns (0 : T))
    (fun i j M => forLoop rhs.rows (fun k R => mul_cell lhs rhs i j k R) M)
    (by
      intro i j d x hi hj hlen hx
      refine mul_inner lhs rhs _ A B i j (i * rhs.columns + j) x ?_ hx rhs.rows
        (fun k hk => hA i k hi (by rw [hnp]; exact hk)) (fun k hk => hB k j hk hj)
      exact Nat.mod_eq_of_lt (lt_trans (flat_lt hi hj) hmq))
    (List.replicate (lhs.rows * rhs.columns) 0) (by simp) lhs.rows (le_refl _)
  refine ⟨{ fill lhs.rows rhs.columns (0 : T) with data_ := d }, ?_, rfl, rfl, ⟨hdl, hmq⟩, ?_⟩
  · unfold op_times
    simp only [hnp, ne_eq, not_true_eq_false, if_false]
    have hstart : fill lhs.rows rhs.columns (0 : T)
        = { fill lhs.rows rhs.columns (0 : T) with
            data_ := List.replicate (lhs.rows * rhs.columns) 0 } := by
      simp [fill, hsz]
    rw [hstart, hd]
  · intro i j hi hj
    have h := hcells i j hi hj
    rw [List.getElem?_replicate_of_lt (flat_lt hi hj)] at h
    simp only [Option.map_some', zero_add] at h
    unfold call vector_index
    have hF : Flatten { fill lhs.rows rhs.columns (0 : T) with data_ := d } i j
        = i * rhs.columns + j := Nat.mod_eq_of_lt (lt_trans (flat_lt hi hj) hmq)
    rw [hF, h, hnp]

/-! ## C1: matrix product -/

/-- With an inner dimension of zero `operator*` returns the freshly built `result`. -/
theorem op_times_inner_zero [Zero T] [Add T] [Mul T] (lhs rhs : Matrix T)
    (hn : lhs.columns = 0) (hp : rhs.rows = 0) :
    op_times lhs rhs = .ok (fill lhs.rows rhs.columns 0) := by
  unfold op_times
  simp only [hn, hp, ne_eq, not_true_eq_false, if_false]
  have h : forLoop lhs.rows (fun i result =>
      forLoop rhs.columns (fun j result =>
        forLoop 0 (fun k result => mul_cell lhs rhs i j k result) result) result)
      (fill lhs.rows rhs.columns (0 : T))
      = (.next (fill lhs.rows rhs.columns (0 : T)) : Ctl (Matrix T) Unit) := by
    apply forRange_skip
    intro i _
    apply forRange_skip
    intro j _
    exact forLoop_zero _ _
  rw [h]

/-- C1: `operator*(lhs, rhs)` on operands that each hold exactly rows × columns cells throws
`std::invalid_argument` exactly when `lhs.columns() != rhs.rows()`; when the inner dimensions
agree and the cell count `lhs.rows() * rhs.columns()` of the result fits `std::size_t`, it
returns a matrix of `lhs.rows()` rows and `rhs.columns()` columns, holding exactly that many
cells, whose cell `(i, j)` is the sum over `k < lhs.columns()` of `lhs(i, k) * rhs(k, j)`.
The operands are `const` references: the call is a function of their values. -/
theorem op_times_spec [Semiring T] (lhs rhs : Matrix T) (hl : lhs.WellFormed)
    (hr : rhs.WellFormed) :
    (op_times lhs rhs = .throws .invalid_argument ↔ lhs.columns ≠ rhs.rows) ∧
    (lhs.columns = rhs.rows → lhs.rows * rhs.columns < SIZE_MOD →
      ∃ (A B : Nat → Nat → T) (r : Matrix T),
        (∀ i k, i < lhs.rows → k < lhs.columns → lhs.call i k = .ok (A i k)) ∧
        (∀ k j, k < rhs.rows → j < rhs.columns → rhs.call k j = .ok (B k j)) ∧
        op_times lhs rhs = .ok r ∧ r.rows = lhs.rows ∧ r.columns = rhs.columns ∧
        r.WellFormed ∧
        ∀ i j, i < lhs.rows → j < rhs.columns →
          r.call i j = .ok (∑ k in Finset.range lhs.columns, A i k * B k j)) := by
  refine ⟨op_times_throws_iff lhs rhs, fun hnp hmq => ?_⟩
  have hA : ∀ i k, i < lhs.rows → k < lhs.columns →
      lhs.call i k = .ok (lhs.data_.getD (i * lhs.num_cols_ + k) 0) :=
    fun i k hi hk => (call_ok lhs hl hi hk 0).2
  have hB : ∀ k j, k < rhs.rows → j < rhs.columns →
      rhs.call k j = .ok (rhs.data_.getD (k * rhs.num_cols_ + j) 0) :=
    fun k j hk hj => (call_ok rhs hr hk hj 0).2
  obtain ⟨r, h⟩ := op_times_cells lhs rhs hnp hmq _ _ hA hB
  exact ⟨_, _, r, hA, hB, h⟩

/-- C1, the test `MatrixTest.MatrixMultiplication` read through `op_times_spec`. -/
theorem op_times_spec_witness :
    (ofList 2 3 [1, 2, 3, 4, 5, 6] : Matrix ℤ).WellFormed ∧
    (ofList 3 2 [1, 2, 3, 4, 5, 6] : Matrix ℤ).WellFormed ∧
    ((op_times (ofList 2 3 [1, 2, 3, 4, 5, 6] : Matrix ℤ) (ofList 3 2 [1, 2, 3, 4, 5, 6])
        = .throws .invalid_argument ↔
      (ofList 2 3 [1, 2, 3, 4, 5, 6] : Matrix ℤ).columns
        ≠ (ofList 3 2 [1, 2, 3, 4, 5, 6] : Matrix ℤ).rows) ∧
    ((ofList 2 3 [1, 2, 3, 4, 5, 6] : Matrix ℤ).columns
        = (ofList 3 2 [1, 2, 3, 4, 5, 6] : Matrix ℤ).rows →
      (ofList 2 3 [1, 2, 3, 4, 5, 6] : Matrix ℤ).rows
        * (ofList 3 2 [1, 2, 3, 4, 5, 6] : Matrix ℤ).columns < SIZE_MOD →
      ∃ (A B : Nat → Nat → ℤ) (r : Matrix ℤ),
        (∀ i k, i < (ofList 2 3 [1, 2, 3, 4, 5, 6] : Matrix ℤ).rows →
          k < (ofList 2 3 [1, 2, 3, 4, 5, 6] : Matrix ℤ).columns →
          (ofList 2 3 [1, 2, 3, 4, 5, 6] : Matrix ℤ).call i k = .ok (A i k)) ∧
        (∀ k j, k < (ofList 3 2 [1, 2, 3, 4, 5, 6] : Matrix ℤ).rows →
          j < (ofList 3 2 [1, 2, 3, 4, 5, 6] : Matrix ℤ).columns →
          (ofList 3 2 [1, 2, 3, 4, 5, 6] : Matrix ℤ).call k j = .ok (B k j)) ∧
        op_times (ofList 2 3 [1, 2, 3, 4, 5, 6] : Matrix ℤ) (ofList 3 2 [1, 2, 3, 4, 5, 6])
          = .ok r ∧
        r.rows = (ofList 2 3 [1, 2, 3, 4, 5, 6] : Matrix ℤ).rows ∧
        r.columns = (ofList 3 2 [1, 2, 3, 4, 5, 6] : Matrix ℤ).columns ∧
        r.WellFormed ∧
        ∀ i j, i < (ofList 2 3 [1, 2, 3, 4, 5, 6] : Matrix ℤ).rows →
          j < (ofList 3 2 [1, 2, 3, 4, 5, 6] : Matrix ℤ).columns →
          r.call i j = .ok (∑ k in Finset.range
            (ofList 2 3 [1, 2, 3, 4, 5, 6] : Matrix ℤ).columns, A i k * B k j))) :=
  ⟨by decide, by decide, op_times_spec _ _ (by decide) (by decide)⟩

/-- C1, the values of `MatrixTest.MatrixMultiplication`: `A * B`, `B * A`, and the throw of
`A * C`. -/
theorem op_times_test :
    op_times (ofList 2 3 [1, 2, 3, 4, 5, 6] : Matrix ℤ) (ofList 3 2 [1, 2, 3, 4, 5, 6])
      = .ok (ofList 2 2 [22, 28, 49, 64]) ∧
    op_times (ofList 3 2 [1, 2, 3, 4, 5, 6] : Matrix ℤ) (ofList 2 3 [1, 2, 3, 4, 5, 6])
      = .ok (ofList 3 3 [9, 12, 15, 19, 26, 33, 29, 40, 51]) ∧
    op_times (ofList 2 3 [1, 2, 3, 4, 5, 6] : Matrix ℤ) (ofList 2 2 [22, 28, 49, 64])
      = .throws .invalid_argument := by
  decide

/-- C1 as stated fails when the cell count of the result wraps: the operands
`Matrix(4294967296, 0, 0)` and `Matrix(0, 4294967296, 0)` hold exactly rows × columns = 0
cells and have equal inner dimensions, yet the product has `4294967296` rows and columns and no
cell at all (`4294967296 * 4294967296` is `0` in `std::size_t`), so its cell `(0, 0)` is not
the empty sum `0`. -/
theorem op_times_counterexample :
    (fill 4294967296 0 (0 : ℤ)).WellFormed ∧ (fill 0 4294967296 (0 : ℤ)).WellFormed ∧
    (fill 4294967296 0 (0 : ℤ)).columns = (fill 0 4294967296 (0 : ℤ)).rows ∧
    op_times (fill 4294967296 0 (0 : ℤ)) (fill 0 4294967296 0)
      = .ok { num_rows_ := 4294967296, num_cols_ := 4294967296, data_ := [] } ∧
    ¬ ∃ r : Matrix ℤ, op_times (fill 4294967296 0 (0 : ℤ)) (fill 0 4294967296 0) = .ok r ∧
        ∀ i j, i < 4294967296 → j < 4294967296 → r.call i j = .ok 0 := by
  have h : op_times (fill 4294967296 0 (0 : ℤ)) (fill 0 4294967296 0)
      = .ok { num_rows_ := 4294967296, num_cols_ := 4294967296, data_ := [] } := by
    rw [op_times_inner_zero (fill 4294967296 0 (0 : ℤ)) (fill 0 4294967296 0) rfl rfl]
    rfl
  refine ⟨by decide, by decide, rfl, h, ?_⟩
  rintro ⟨r, hr, hcell⟩
  rw [h] at hr
  cases hr
  have := hcell 0 0 (by decide) (by decide)
  simp [call, vector_index] at this

/-! ## C2: equality -/

theorem equal_cell_ok [LinearOrderedRing T] (lhs rhs : Matrix T) (tolerance : T) (i j : Nat)
    (a b : T) (ha : lhs.call i j = .ok a) (hb : rhs.call i j = .ok b) :
    equal_cell lhs rhs tolerance i j true
      = if cell_test tolerance a b then .next true else .ret false := by
  unfold equal_cell
  simp only [ha, hb, if_true]
  cases cell_test tolerance a b <;> simp

theorem equal_row [LinearOrderedRing T] (lhs rhs : Matrix T) (tolerance : T) (i : Nat)
    (A B : Nat → Nat → T) (n : Nat)
    (hA : ∀ j, j < n → lhs.call i j = .ok (A i j))
    (hB : ∀ j, j < n → rhs.call i j = .ok (B i j)) :
    forLoop n (fun j result => equal_cell lhs rhs tolerance i j result) true
      = if ∀ j, j < n → cell_test tolerance (A i j) (B i j) = true then .next true
        else .ret false := by
  induction n with
  | zero => simp [forLoop_zero]
  | succ n ih =>
    rw [forLoop_succ, ih (fun j hj => hA j (by omega)) (fun j hj => hB j (by omega))]
    by_cases hall : ∀ j, j < n → cell_test tolerance (A i j) (B i j) = true
    · rw [if_pos hall]
      simp only
      rw [equal_cell_ok lhs rhs tolerance i n _ _ (hA n (by omega)) (hB n (by omega))]
      by_cases hn : cell_test tolerance (A i n) (B i n) = true
      · rw [if_pos hn, if_pos]
        intro j hj
        by_cases hjn : j = n
        · subst hjn; exact hn
        · exact hall j (by omega)
      · rw [if_neg hn, if_neg]
        intro h
        exact hn (h n (by omega))
    · rw [if_neg hall, if_neg]
      intro h
      exact hall (fun j hj => h j (by omega))

theorem equal_grid [LinearOrderedRing T] (lhs rhs : Matrix T) (tolerance : T) (c : Nat)
    (A B : Nat → Nat → T) (n : Nat)
    (hA : ∀ i j, i < n → j < c → lhs.call i j = .ok (A i j))
    (hB : ∀ i j, i < n → j < c → rhs.call i j = .ok (B i j)) :
    forLoop n (fun i result =>
        forLoop c (fun j result => equal_cell lhs rhs tolerance i j result) result) true
      = if ∀ i, i < n → ∀ j, j < c → cell_test tolerance (A i j) (B i j) = true then .next true
        else .ret false := by
  induction n with
  | zero => simp [forLoop_zero]
  | succ n ih =>
    rw [forLoop_succ,
      ih (fun i j hi hj => hA i j (by omega) hj) (fun i j hi hj => hB i j (by omega) hj)]
    by_cases hall : ∀ i, i < n → ∀ j, j < c → cell_test tolerance (A i j) (B i j) = true
    · rw [if_pos hall]
      simp only
      rw [equal_row lhs rhs tolerance n A B c (fun j hj => hA n j (by omega) hj)
        (fun j hj => hB n j (by omega) hj)]
      by_cases hn : ∀ j, j < c → cell_test tolerance (A n j) (B n j) = true
      · rw [if_pos hn, if_pos]
        intro i hi j hj
        by_cases hin : i = n
        · subst hin; exact hn j hj
        · exact hall i (by omega) j hj
      · rw [if_neg hn, if_neg]
        intro h
        exact hn (fun j hj => h n (by omega) j hj)
    · rw [if_neg hall, if_neg]
      intro h
      exact hall (fun i hi j hj => h i (by omega) j hj)

/-- The value of `equal` on two matrices of one shape that hold all their cells. -/
theorem equal_same_shape [LinearOrderedRing T] (lhs rhs : Matrix T) (tolerance : T)
    (hl : lhs.WellFormed) (hr : rhs.WellFormed) (hrows : lhs.rows = rhs.rows)
    (hcols : lhs.columns = rhs.columns) :
    ∃ (A B : Nat → Nat → T) (b : Bool),
      (∀ i j, i < lhs.rows → j < lhs.columns → lhs.call i j = .ok (A i j)) ∧
      (∀ i j, i < lhs.rows → j < lhs.columns → rhs.call i j = .ok (B i j)) ∧
      equal lhs rhs tolerance = .ok b ∧
      (b = true ↔ ∀ i, i < lhs.rows → ∀ j, j < lhs.columns →
        cell_test tolerance (A i j) (B i j) = true) := by
  have hA : ∀ i j, i < lhs.rows → j < lhs.columns →
      lhs.call i j = .ok (lhs.data_.getD (i * lhs.num_cols_ + j) 0) :=
    fun i j hi hj => (call_ok lhs hl hi hj 0).2
  have hB : ∀ i j, i < lhs.rows → j < lhs.columns →
      rhs.call i j = .ok (rhs.data_.getD (i * rhs.num_cols_ + j) 0) :=
    fun i j hi hj => (call_ok rhs hr (hrows ▸ hi) (hcols ▸ hj) 0).2
  have hg := equal_grid lhs rhs tolerance lhs.columns _ _ lhs.rows hA hB
  refine ⟨_, _, decide (∀ i, i < lhs.rows → ∀ j, j < lhs.columns →
    cell_test tolerance (lhs.data_.getD (i * lhs.num_cols_ + j) 0)
      (rhs.data_.getD (i * rhs.num_cols_ + j) 0) = true), hA, hB, ?_, by simp⟩
  unfold equal
  simp only [hrows, hcols, decide_True, Bool.and_self, if_true]
  rw [hrows, hcols] at hg
  rw [hg]
  split
  · rename_i h
    split at h
    · rename_i hall
      cases h
      simp only [decide_eq_true hall]
    · cases h
  · rename_i h
    split at h
    · cases h
    · rename_i hall
      cases h
      simp only [decide_eq_false hall]
  · rename_i h
    split at h <;> cases h


/-- `equal` has undefined behaviour when the cell `(0, 0)` of its left argument is outside
the data. -/
theorem equal_undefined [LinearOrderedRing T] (lhs rhs : Matrix T) (tolerance : T)
    (hrows : lhs.rows = rhs.rows) (hcols : lhs.columns = rhs.columns) (hm : 0 < lhs.rows)
    (hc : 0 < lhs.columns) (h0 : lhs.call 0 0 = .undefined) :
    equal lhs rhs tolerance = .undefined := by
  unfold equal
  simp only [hrows, hcols, decide_True, Bool.and_self, if_true]
  rw [← hrows, ← hcols, forLoop_undefined_first _ _ _ hm]
  rw [forLoop_undefined_first _ _ _ hc]
  simp only [equal_cell, h0, if_true]

/-- C2: `equal(lhs, rhs, tolerance)` on matrices that hold exactly rows × columns cells.
If rows or columns differ the result is `false` whatever the tolerance.  If the shapes match
the call returns a boolean which, when `tolerance <= 0`, is `true` exactly when
`lhs(i, j) = rhs(i, j)` for every cell, and, when `tolerance > 0`, is `true` exactly when
`|lhs(i, j) - rhs(i, j)| <= tolerance` for every cell.  The default tolerance is `-1`,
`operator==` is `equal` with the default tolerance and `operator!=` is its negation. -/
theorem equal_spec [LinearOrderedRing T] (lhs rhs : Matrix T) (tolerance : T)
    (hl : lhs.WellFormed) (hr : rhs.WellFormed) :
    ((lhs.rows ≠ rhs.rows ∨ lhs.columns ≠ rhs.columns) →
      equal lhs rhs tolerance = .ok false) ∧
    (lhs.rows = rhs.rows → lhs.columns = rhs.columns →
      ∃ (A B : Nat → Nat → T) (b : Bool),
        (∀ i j, i < lhs.rows → j < lhs.columns → lhs.call i j = .ok (A i j)) ∧
        (∀ i j, i < lhs.rows → j < lhs.columns → rhs.call i j = .ok (B i j)) ∧
        equal lhs rhs tolerance = .ok b ∧
        (tolerance ≤ 0 →
          (b = true ↔ ∀ i j, i < lhs.rows → j < lhs.columns → A i j = B i j)) ∧
        (0 < tolerance →
          (b = true ↔ ∀ i j, i < lhs.rows → j < lhs.columns →
            |A i j - B i j| ≤ tolerance))) ∧
    equal_default lhs rhs = equal lhs rhs (-1) ∧
    op_eq lhs rhs = equal_default lhs rhs ∧
    (∀ b, op_eq lhs rhs = .ok b → op_ne lhs rhs = .ok (!b)) := by
  refine ⟨?_, ?_, rfl, rfl, ?_⟩
  · intro h
    unfold equal
    rcases h with h | h
    · simp [h]
    · simp [h]
  · intro hrows hcols
    obtain ⟨A, B, b, hA, hB, hb, hiff⟩ := equal_same_shape lhs rhs tolerance hl hr hrows hcols
    refine ⟨A, B, b, hA, hB, hb, ?_, ?_⟩
    · intro ht
      rw [hiff]
      simp only [cell_test, if_pos ht, decide_eq_true_eq]
      exact ⟨fun h i j hi hj => h i hi j hj, fun h i hi j hj => h i j hi hj⟩
    · intro ht
      rw [hiff]
      simp only [cell_test, if_neg (not_le.mpr ht), decide_eq_true_eq]
      exact ⟨fun h i j hi hj => h i hi j hj, fun h i hi j hj => h i j hi hj⟩
  · intro b hb
    unfold op_ne
    rw [hb]

/-- C2, the test `MatrixTest.Equality` read through `equal_spec`: the 5 × 7 zero matrix `m`
and the matrix `q` that differs from it by `q(0, 0) = 1`, compared with tolerance `1`. -/
theorem equal_spec_witness :
    (fill 5 7 (0 : ℤ)).WellFormed ∧ (ofList 5 7 ((1 : ℤ) :: List.replicate 34 0)).WellFormed ∧
    (((fill 5 7 (0 : ℤ)).rows ≠ (ofList 5 7 ((1 : ℤ) :: List.replicate 34 0)).rows ∨
        (fill 5 7 (0 : ℤ)).columns ≠ (ofList 5 7 ((1 : ℤ) :: List.replicate 34 0)).columns) →
      equal (fill 5 7 (0 : ℤ)) (ofList 5 7 ((1 : ℤ) :: List.replicate 34 0)) 1 = .ok false) ∧
    ((fill 5 7 (0 : ℤ)).rows = (ofList 5 7 ((1 : ℤ) :: List.replicate 34 0)).rows →
      (fill 5 7 (0 : ℤ)).columns = (ofList 5 7 ((1 : ℤ) :: List.replicate 34 0)).columns →
      ∃ (A B : Nat → Nat → ℤ) (b : Bool),
        (∀ i j, i < (fill 5 7 (0 : ℤ)).rows → j < (fill 5 7 (0 : ℤ)).columns →
          (fill 5 7 (0 : ℤ)).call i j = .ok (A i j)) ∧
        (∀ i j, i < (fill 5 7 (0 : ℤ)).rows → j < (fill 5 7 (0 : ℤ)).columns →
          (ofList 5 7 ((1 : ℤ) :: List.replicate 34 0)).call i j = .ok (B i j)) ∧
        equal (fill 5 7 (0 : ℤ)) (ofList 5 7 ((1 : ℤ) :: List.replicate 34 0)) 1 = .ok b ∧
        ((1 : ℤ) ≤ 0 →
          (b = true ↔ ∀ i j, i < (fill 5 7 (0 : ℤ)).rows → j < (fill 5 7 (0 : ℤ)).columns →
            A i j = B i j)) ∧
        ((0 : ℤ) < 1 →
          (b = true ↔ ∀ i j, i < (fill 5 7 (0 : ℤ)).rows → j < (fill 5 7 (0 : ℤ)).columns →
            |A i j - B i j| ≤ 1))) ∧
    equal_default (fill 5 7 (0 : ℤ)) (ofList 5 7 ((1 : ℤ) :: List.replicate 34 0))
      = equal (fill 5 7 (0 : ℤ)) (ofList 5 7 ((1 : ℤ) :: List.replicate 34 0)) (-1) ∧
    op_eq (fill 5 7 (0 : ℤ)) (ofList 5 7 ((1 : ℤ) :: List.replicate 34 0))
      = equal_default (fill 5 7 (0 : ℤ)) (ofList 5 7 ((1 : ℤ) :: List.replicate 34 0)) ∧
    (∀ b, op_eq (fill 5 7 (0 : ℤ)) (ofList 5 7 ((1 : ℤ) :: List.replicate 34 0)) = .ok b →
      op_ne (fill 5 7 (0 : ℤ)) (ofList 5 7 ((1 : ℤ) :: List.replicate 34 0)) = .ok (!b)) :=
  ⟨by decide, by decide, equal_spec _ _ 1 (by decide) (by decide)⟩

/-- C2, the values of `MatrixTest.Equality`: `m`, `n` are 5 × 7 zero matrices, `o` is 6 × 7,
`p` is 5 × 8, and `q` is `m` with `q(0, 0) = 1`. -/
theorem equal_test :
    equal_default (fill 5 7 (0 : ℤ)) (fill 5 7 0) = .ok true ∧
    op_eq (fill 5 7 (0 : ℤ)) (fill 5 7 0) = .ok true ∧
    op_ne (fill 5 7 (0 : ℤ)) (fill 5 7 0) = .ok false ∧
    equal_default (fill 5 7 (0 : ℤ)) (fill 6 7 0) = .ok false ∧
    op_ne (fill 5 7 (0 : ℤ)) (fill 6 7 0) = .ok true ∧
    equal_default (fill 5 7 (0 : ℤ)) (fill 5 8 0) = .ok false ∧
    op_ne (fill 5 7 (0 : ℤ)) (fill 5 8 0) = .ok true ∧
    set_call (fill 5 7 (0 : ℤ)) 0 0 1 = .done (ofList 5 7 ((1 : ℤ) :: List.replicate 34 0)) ∧
    equal (fill 5 7 (0 : ℤ)) (ofList 5 7 ((1 : ℤ) :: List.replicate 34 0)) 1 = .ok true ∧
    equal_default (fill 5 7 (0 : ℤ)) (ofList 5 7 ((1 : ℤ) :: List.replicate 34 0))
      = .ok false ∧
    op_eq (fill 5 7 (0 : ℤ)) (ofList 5 7 ((1 : ℤ) :: List.replicate 34 0)) = .ok false ∧
    op_ne (fill 5 7 (0 : ℤ)) (ofList 5 7 ((1 : ℤ) :: List.replicate 34 0)) = .ok true := by
  decide

/-- C2 as stated fails on matrices that do not hold rows × columns cells.
`Matrix(4294967296, 4294967296, 0)` holds no cell, the product of the constructor wrapping to
0; compared with itself, with tolerance `-1` or `1`, `equal` reads the cell `(0, 0)` through
the unchecked `operator()` and returns neither `true` nor `false`.  The same happens at the
cell `(0, 1)` of `Matrix(2, 2, {1})`. -/
theorem equal_counterexample :
    (fill 4294967296 4294967296 (0 : ℤ)).data_ = [] ∧
    equal (fill 4294967296 4294967296 (0 : ℤ)) (fill 4294967296 4294967296 0) (-1)
      = .undefined ∧
    equal (fill 4294967296 4294967296 (0 : ℤ)) (fill 4294967296 4294967296 0) 1
      = .undefined ∧
    equal (ofList 2 2 [1] : Matrix ℤ) (ofList 2 2 [1]) (-1) = .undefined ∧
    ¬ ∃ b, equal (fill 4294967296 4294967296 (0 : ℤ)) (fill 4294967296 4294967296 0) (-1)
      = .ok b := by
  have h := equal_undefined (fill 4294967296 4294967296 (0 : ℤ))
    (fill 4294967296 4294967296 0) (-1) rfl rfl (by decide) (by decide) (by decide)
  have h1 := equal_undefined (fill 4294967296 4294967296 (0 : ℤ))
    (fill 4294967296 4294967296 0) 1 rfl rfl (by decide) (by decide) (by decide)
  refine ⟨by decide, h, h1, by decide, ?_⟩
  rintro ⟨b, hb⟩
  rw [h] at hb
  cases hb

/-! ## C3: matrix addition -/

theorem op_plus_eq_throws_iff [Add T] (a b : Matrix T) :
    (∃ e s, op_plus_eq a b = .throws e s) ↔ (a.rows ≠ b.rows ∨ a.columns ≠ b.columns) := by
  unfold op_plus_eq
  constructor
  · rintro ⟨e, s, h⟩
    split at h
    · assumption
    · split at h <;> cases h
  · intro h
    exact ⟨.invalid_argument, a, by rw [if_pos h]⟩

theorem call_some (m : Matrix T) (hwf : m.WellFormed) {i j : Nat} (hi : i < m.rows)
    (hj : j < m.columns) :
    ∃ x, m.data_[i * m.num_cols_ + j]? = some x ∧ m.call i j = .ok x := by
  have hlt : i * m.num_cols_ + j < m.data_.length := by
    rw [hwf.1]; exact flat_lt hi hj
  refine ⟨m.data_[i * m.num_cols_ + j], List.getElem?_eq_getElem hlt, ?_⟩
  unfold call vector_index
  rw [Flatten_eq m hi hj hwf.2, List.getElem?_eq_getElem hlt]

theorem call_of_data (m : Matrix T) {i j : Nat} (hi : i < m.rows) (hj : j < m.columns)
    (hsz : m.num_rows_ * m.num_cols_ < SIZE_MOD) (x : T)
    (hx : m.data_[i * m.num_cols_ + j]? = some x) : m.call i j = .ok x := by
  unfold call vector_index
  rw [Flatten_eq m hi hj hsz, hx]

theorem op_plus_eq_cells [Add T] (a b : Matrix T) (ha : a.WellFormed) (hb : b.WellFormed)
    (hrows : a.rows = b.rows) (hcols : a.columns = b.columns) :
    ∃ d, op_plus_eq a b = .done { a with data_ := d } ∧ d.length = a.rows * a.columns ∧
      ∀ i j, i < a.rows → j < a.columns →
        ∃ x y, a.data_[i * a.columns + j]? = some x ∧ b.data_[i * a.columns + j]? = some y ∧
          d[i * a.columns + j]? = some (x + y) := by
  obtain ⟨d, hd, hdl, hcells, -⟩ := cellwise_grid (ρ := Unit) a.rows a.columns
    (fun i j x => (b.data_[i * a.columns + j]?).elim x (fun y => x + y)) a
    (fun i j M => plus_eq_cell M b i j)
    (by
      intro i j d x hi hj hlen hx
      have hF : Flatten { a with data_ := d } i j = i * a.columns + j :=
        Nat.mod_eq_of_lt (lt_trans (flat_lt hi hj) ha.2)
      obtain ⟨y, hy, hcall⟩ := call_some b hb (hrows ▸ hi) (hcols ▸ hj)
      have hy' : b.data_[i * a.columns + j]? = some y := by rw [hcols]; exact hy
      simp only [plus_eq_cell, hcall, add_to_cell, hF, hx, hy', Option.elim])
    a.data_ ha.1 a.rows (le_refl _)
  refine ⟨d, ?_, hdl, ?_⟩
  · unfold op_plus_eq
    rw [if_neg (by simp [hrows, hcols])]
    have hstart : a = { a with data_ := a.data_ } := rfl
    rw [hstart] at hd
    rw [hd]
  · intro i j hi hj
    obtain ⟨x, hx, -⟩ := call_some a ha hi hj
    obtain ⟨y, hy, -⟩ := call_some b hb (hrows ▸ hi) (hcols ▸ hj)
    have hy' : b.data_[i * a.columns + j]? = some y := by rw [hcols]; exact hy
    refine ⟨x, y, hx, hy', ?_⟩
    rw [hcells i j hi hj]
    have hx' : a.data_[i * a.columns + j]? = some x := hx
    simp only [hx', hy', Option.map_some', Option.elim]

/-- C3: `operator+=` and `operator+` between matrices that hold exactly rows × columns cells.
The call throws `std::invalid_argument` exactly when the rows or the columns differ, and the
throwing `+=` leaves its left operand as it was.  When the shapes agree, `a += b` and `a + b`
give the same matrix, of the shape of `a`, holding exactly rows × columns cells, whose cell
`(i, j)` is `a(i, j) + b(i, j)`.  `operator+` works on a copy of `a` and reads `b` through a
`const` reference: it is a function of the two values. -/
theorem op_plus_spec [Add T] (a b : Matrix T) (ha : a.WellFormed) (hb : b.WellFormed) :
    ((a.rows ≠ b.rows ∨ a.columns ≠ b.columns) ↔
      op_plus_eq a b = .throws .invalid_argument a) ∧
    ((a.rows ≠ b.rows ∨ a.columns ≠ b.columns) ↔ op_plus a b = .throws .invalid_argument) ∧
    (∀ e s, op_plus_eq a b = .throws e s → e = .invalid_argument ∧ s = a) ∧
    (a.rows = b.rows → a.columns = b.columns →
      ∃ r : Matrix T,
        op_plus_eq a b = .done r ∧ op_plus a b = .ok r ∧
        r.rows = a.rows ∧ r.columns = a.columns ∧ r.WellFormed ∧
        ∀ i j, i < a.rows → j < a.columns →
          ∃ x y, a.call i j = .ok x ∧ b.call i j = .ok y ∧ r.call i j = .ok (x + y)) := by
  have hthrow : (a.rows ≠ b.rows ∨ a.columns ≠ b.columns) →
      op_plus_eq a b = .throws .invalid_argument a := by
    intro h
    unfold op_plus_eq
    rw [if_pos h]
  refine ⟨⟨hthrow, fun h => (op_plus_eq_throws_iff a b).mp ⟨_, _, h⟩⟩, ⟨?_, ?_⟩, ?_, ?_⟩
  · intro h
    unfold op_plus
    rw [hthrow h]
  · intro h
    apply (op_plus_eq_throws_iff a b).mp
    unfold op_plus at h
    split at h
    · cases h
    · rename_i e s hes
      exact ⟨e, s, hes⟩
    · cases h
  · intro e s h
    have hs := hthrow ((op_plus_eq_throws_iff a b).mp ⟨e, s, h⟩)
    rw [hs] at h
    cases h
    exact ⟨rfl, rfl⟩
  · intro hrows hcols
    obtain ⟨d, hd, hdl, hcells⟩ := op_plus_eq_cells a b ha hb hrows hcols
    refine ⟨{ a with data_ := d }, hd, ?_, rfl, rfl, ⟨hdl, ha.2⟩, ?_⟩
    · unfold op_plus
      rw [hd]
    · intro i j hi hj
      obtain ⟨x, y, hx, hy, hxy⟩ := hcells i j hi hj
      refine ⟨x, y, call_of_data a hi hj ha.2 x hx, ?_, ?_⟩
      · refine call_of_data b (hrows ▸ hi) (hcols ▸ hj) hb.2 y ?_
        have hc : b.num_cols_ = a.columns := hcols.symm
        rw [hc]; exact hy
      · exact call_of_data { a with data_ := d } hi hj ha.2 _ hxy

/-- C3, the test `MatrixTest.MatrixAddition` read through `op_plus_spec`. -/
theorem op_plus_spec_witness :
    (fill 5 7 (2 : ℤ)).WellFormed ∧ (fill 5 7 (4 : ℤ)).WellFormed ∧
    (((fill 5 7 (2 : ℤ)).rows ≠ (fill 5 7 (4 : ℤ)).rows ∨
        (fill 5 7 (2 : ℤ)).columns ≠ (fill 5 7 (4 : ℤ)).columns) ↔
      op_plus_eq (fill 5 7 (2 : ℤ)) (fill 5 7 4)
        = .throws .invalid_argument (fill 5 7 (2 : ℤ))) ∧
    (((fill 5 7 (2 : ℤ)).rows ≠ (fill 5 7 (4 : ℤ)).rows ∨
        (fill 5 7 (2 : ℤ)).columns ≠ (fill 5 7 (4 : ℤ)).columns) ↔
      op_plus (fill 5 7 (2 : ℤ)) (fill 5 7 4) = .throws .invalid_argument) ∧
    (∀ e s, op_plus_eq (fill 5 7 (2 : ℤ)) (fill 5 7 4) = .throws e s →
      e = .invalid_argument ∧ s = fill 5 7 (2 : ℤ)) ∧
    ((fill 5 7 (2 : ℤ)).rows = (fill 5 7 (4 : ℤ)).rows →
      (fill 5 7 (2 : ℤ)).columns = (fill 5 7 (4 : ℤ)).columns →
      ∃ r : Matrix ℤ,
        op_plus_eq (fill 5 7 (2 : ℤ)) (fill 5 7 4) = .done r ∧
        op_plus (fill 5 7 (2 : ℤ)) (fill 5 7 4) = .ok r ∧
        r.rows = (fill 5 7 (2 : ℤ)).rows ∧ r.columns = (fill 5 7 (2 : ℤ)).columns ∧
        r.WellFormed ∧
        ∀ i j, i < (fill 5 7 (2 : ℤ)).rows → j < (fill 5 7 (2 : ℤ)).columns →
          ∃ x y, (fill 5 7 (2 : ℤ)).call i j = .ok x ∧ (fill 5 7 (4 : ℤ)).call i j = .ok y ∧
            r.call i j = .ok (x + y)) :=
  ⟨by decide, by decide, op_plus_spec _ _ (by decide) (by decide)⟩

/-- C3, the values of `MatrixTest.MatrixAddition`. -/
theorem op_plus_test :
    op_plus_eq (fill 5 7 (2 : ℤ)) (fill 5 7 4) = .done (fill 5 7 6) ∧
    op_plus (fill 5 7 (2 : ℤ)) (fill 5 7 4) = .ok (fill 5 7 6) ∧
    op_plus (fill 5 5 (0 : ℤ)) (fill 6 5 0) = .throws .invalid_argument ∧
    op_plus (fill 5 5 (0 : ℤ)) (fill 5 6 0) = .throws .invalid_argument ∧
    op_plus_eq (fill 5 5 (0 : ℤ)) (fill 6 5 0) = .throws .invalid_argument (fill 5 5 0) := by
  decide

/-! ## C4: checked access -/

theorem fill_wellFormed (r c : Nat) (v : T) (hsz : r * c < SIZE_MOD) :
    (fill r c v).WellFormed := by
  refine ⟨?_, hsz⟩
  simp [fill, Nat.mod_eq_of_lt hsz]

theorem ofList_wellFormed [Zero T] (r c : Nat) (vs : List T) (hlen : vs.length = r * c)
    (hsz : vs.length < SIZE_MOD) : (ofList r c vs).WellFormed :=
  ⟨hlen, hlen ▸ hsz⟩

theorem vector_at_throws_iff (d : List T) (k : Nat) :
    vector_at d k = .throws .out_of_range ↔ d.length ≤ k := by
  unfold vector_at
  cases h : d[k]? with
  | none => simpa using h
  | some x =>
    have : k < d.length := (List.getElem?_eq_some.mp h).1
    simp only [false_iff, not_le, reduceCtorEq]
    exact this

theorem at_ij_spec (m : Matrix T) (hm : m.WellFormed) (i j k : Nat) :
    (m.at_ij i j = .throws .out_of_range ↔ (i ≥ m.rows ∨ j ≥ m.columns)) ∧
    (i < m.rows → j < m.columns →
      ∃ x, m.data_[i * m.columns + j]? = some x ∧ m.at_ij i j = .ok x) ∧
    (m.at_flat k = .throws .out_of_range ↔ k ≥ m.rows * m.columns) ∧
    (k < m.rows * m.columns → ∃ x, m.data_[k]? = some x ∧ m.at_flat k = .ok x) := by
  have hin : i < m.rows → j < m.columns →
      ∃ x, m.data_[i * m.columns + j]? = some x ∧ m.at_ij i j = .ok x := by
    intro hi hj
    obtain ⟨x, hx, -⟩ := call_some m hm hi hj
    refine ⟨x, hx, ?_⟩
    unfold at_ij vector_at
    rw [if_neg (by omega), Flatten_eq m hi hj hm.2, hx]
  refine ⟨⟨?_, ?_⟩, hin, ?_, ?_⟩
  · intro h
    by_contra hne
    obtain ⟨x, -, hx⟩ := hin (by omega) (by omega)
    rw [hx] at h
    cases h
  · intro h
    unfold at_ij
    rw [if_pos h]
  · unfold at_flat
    rw [vector_at_throws_iff, hm.1]
    rfl
  · intro hk
    have hlt : k < m.data_.length := by rw [hm.1]; exact hk
    refine ⟨m.data_[k], List.getElem?_eq_getElem hlt, ?_⟩
    unfold at_flat vector_at
    rw [List.getElem?_eq_getElem hlt]

/-- C4: checked access on a matrix built by the fill constructor or by the list constructor
with exactly rows × columns values, when rows × columns is below `2 ^ 64` so that the product
`r * c` of the constructor does not wrap.  `at(row, col)` throws `std::out_of_range` exactly
when `row >= rows` or `col >= columns`, and else returns the cell stored at flat index
`row * columns + col`; `at(flatIndex)` throws `std::out_of_range` exactly when
`flatIndex >= rows * columns`, and else returns the cell stored there.  On every matrix,
`at(rows, 0)` and `at(0, columns)` throw `std::out_of_range`. -/
theorem at_checked_spec [Zero T] (r c : Nat) (m : Matrix T) (hsz : r * c < SIZE_MOD)
    (hm : (∃ v, m = fill r c v) ∨ (∃ vs : List T, vs.length = r * c ∧ m = ofList r c vs))
    (row col flatIndex : Nat) :
    m.rows = r ∧ m.columns = c ∧
    (m.at_ij row col = .throws .out_of_range ↔ (row ≥ r ∨ col ≥ c)) ∧
    (row < r → col < c →
      ∃ x, m.data_[row * c + col]? = some x ∧ m.at_ij row col = .ok x) ∧
    (m.at_flat flatIndex = .throws .out_of_range ↔ flatIndex ≥ r * c) ∧
    (flatIndex < r * c → ∃ x, m.data_[flatIndex]? = some x ∧ m.at_flat flatIndex = .ok x) ∧
    (∀ m' : Matrix T, m'.at_ij m'.rows 0 = .throws .out_of_range ∧
      m'.at_ij 0 m'.columns = .throws .out_of_range) := by
  have hwf : m.WellFormed ∧ m.rows = r ∧ m.columns = c := by
    rcases hm with ⟨v, rfl⟩ | ⟨vs, hvs, rfl⟩
    · exact ⟨fill_wellFormed r c v hsz, rfl, rfl⟩
    · exact ⟨ofList_wellFormed r c vs hvs (hvs ▸ hsz), rfl, rfl⟩
  obtain ⟨hwf, hr, hc⟩ := hwf
  have h := at_ij_spec m hwf row col flatIndex
  rw [hr, hc] at h
  refine ⟨hr, hc, h.1, h.2.1, h.2.2.1, h.2.2.2, ?_⟩
  intro m'
  constructor <;> simp [at_ij]

/-- C4, the test `MatrixTest.Accessors` on the 5 × 7 matrix, read through
`at_checked_spec` at `at(5, 6)` and `at(35)`. -/
theorem at_checked_spec_witness :
    5 * 7 < SIZE_MOD ∧
    (fill 5 7 (0 : ℤ)).rows = 5 ∧ (fill 5 7 (0 : ℤ)).columns = 7 ∧
    ((fill 5 7 (0 : ℤ)).at_ij 5 6 = .throws .out_of_range ↔ (5 ≥ 5 ∨ 6 ≥ 7)) ∧
    (5 < 5 → 6 < 7 →
      ∃ x, (fill 5 7 (0 : ℤ)).data_[5 * 7 + 6]? = some x ∧
        (fill 5 7 (0 : ℤ)).at_ij 5 6 = .ok x) ∧
    ((fill 5 7 (0 : ℤ)).at_flat 35 = .throws .out_of_range ↔ 35 ≥ 5 * 7) ∧
    (35 < 5 * 7 → ∃ x, (fill 5 7 (0 : ℤ)).data_[35]? = some x ∧
      (fill 5 7 (0 : ℤ)).at_flat 35 = .ok x) ∧
    (∀ m' : Matrix ℤ, m'.at_ij m'.rows 0 = .throws .out_of_range ∧
      m'.at_ij 0 m'.columns = .throws .out_of_range) :=
  ⟨by decide, at_checked_spec 5 7 (fill 5 7 (0 : ℤ)) (by decide) (Or.inl ⟨0, rfl⟩) 5 6 35⟩

/-- C4, the values of `MatrixTest.Accessors`: `at(5, 6)`, `at(4, 7)` and `at(35)` throw on
the 5 × 7 matrix and every `at(i, j)` with `i < 5`, `j < 7` returns the cell. -/
theorem at_checked_test :
    (fill 5 7 (0 : ℤ)).at_ij 5 6 = .throws .out_of_range ∧
    (fill 5 7 (0 : ℤ)).at_ij 4 7 = .throws .out_of_range ∧
    (fill 5 7 (0 : ℤ)).at_flat 35 = .throws .out_of_range ∧
    (∀ i, i < 5 → ∀ j, j < 7 → (fill 5 7 (0 : ℤ)).at_ij i j = .ok 0) := by
  decide

/-- C4 as stated fails on a matrix built by the fill constructor whose cell count wraps:
`Matrix(4294967296, 4294967296, 1)` stores `4294967296 * 4294967296 mod 2 ^ 64 = 0` cells, so
`at(0, 0)` passes the test on rows and columns and throws `std::out_of_range` from
`data_.at(0)`, and `at(0)` throws although `0 < rows * columns`. -/
theorem at_checked_counterexample :
    (fill 4294967296 4294967296 (1 : ℤ)).data_ = [] ∧
    (0 < (fill 4294967296 4294967296 (1 : ℤ)).rows ∧
      0 < (fill 4294967296 4294967296 (1 : ℤ)).columns) ∧
    (fill 4294967296 4294967296 (1 : ℤ)).at_ij 0 0 = .throws .out_of_range ∧
    ¬ ((fill 4294967296 4294967296 (1 : ℤ)).at_ij 0 0 = .throws .out_of_range ↔
      (0 ≥ (fill 4294967296 4294967296 (1 : ℤ)).rows ∨
        0 ≥ (fill 4294967296 4294967296 (1 : ℤ)).columns)) ∧
    ¬ ((fill 4294967296 4294967296 (1 : ℤ)).at_flat 0 = .throws .out_of_range ↔
      0 ≥ (fill 4294967296 4294967296 (1 : ℤ)).rows
        * (fill 4294967296 4294967296 (1 : ℤ)).columns) := by
  decide

/-! ## C5: scalar arithmetic -/

/-- The loop of a compound scalar operator with a scalar outside the matrix, after `k`
iterations: the first `k` cells are rewritten and the others are as before. -/
theorem scalar_loop_outside (op : T → T → T) (s : T) (d : List T) (k : Nat)
    (hk : k ≤ d.length) :
    ∃ d', forLoop k (fun p d => scalar_cell op (.outside s) p d) d = .next d' ∧
      d'.length = d.length ∧
      (∀ i, i < k → d'[i]? = (d[i]?).map (fun x => op x s)) ∧
      (∀ i, k ≤ i → d'[i]? = d[i]?) := by
  induction k with
  | zero => exact ⟨d, by simp [forLoop_zero], rfl, by simp, by simp⟩
  | succ k ih =>
    obtain ⟨d', hd, hdl, hdone, hrest⟩ := ih (by omega)
    have hlt : k < d.length := hk
    have hk' : d'[k]? = some (d[k]) := by
      rw [hrest k (le_refl k)]
      exact List.getElem?_eq_getElem hlt
    refine ⟨d'.set k (op (d[k]) s), ?_, by simpa using hdl, ?_, ?_⟩
    · rw [forLoop_succ, hd]
      simp only [scalar_cell, hk', ScalarRef.read]
    · intro i hi
      by_cases hik : i = k
      · subst hik
        rw [List.getElem?_set_self (by rw [hdl]; exact hlt)]
        simp [List.getElem?_eq_getElem hlt]
      · rw [List.getElem?_set_ne (fun e => hik e.symm)]
        exact hdone i (by omega)
    · intro i hi
      rw [List.getElem?_set_ne (by omega)]
      exact hrest i (by omega)

/-- With a scalar outside the matrix the loop rewrites every cell `x` to `op x s`. -/
theorem for_each_cell_outside (op : T → T → T) (s : T) (d : List T) :
    for_each_cell op (.outside s) d = .next (d.map (fun x => op x s)) := by
  obtain ⟨d', hd, hdl, hdone, -⟩ := scalar_loop_outside op s d d.length (le_refl _)
  unfold for_each_cell
  rw [hd]
  congr 1
  apply List.ext_getElem?
  intro i
  rw [List.getElem?_map]
  by_cases hi : i < d.length
  · exact hdone i hi
  · rw [List.getElem?_eq_none (by omega), List.getElem?_eq_none (by omega)]
    rfl

/-- A compound scalar operator with a scalar outside the matrix, and the binary operator:
the matrix returned, its shape and its cells. -/
theorem scalar_op_outside (op : T → T → T) (M : Matrix T) (s : T) :
    ∃ M' : Matrix T,
      scalar_result M (for_each_cell op (.outside s) M.data_) = .done M' ∧
      returned (scalar_result M (for_each_cell op (.outside s) M.data_)) = .ok M' ∧
      M'.rows = M.rows ∧ M'.columns = M.columns ∧
      M'.data_ = M.data_.map (fun x => op x s) ∧
      ∀ i j x, M.call i j = .ok x → M'.call i j = .ok (op x s) := by
  refine ⟨{ M with data_ := M.data_.map (fun x => op x s) }, ?_, ?_, rfl, rfl, rfl, ?_⟩
  · rw [for_each_cell_outside]; rfl
  · rw [for_each_cell_outside]; rfl
  · intro i j x h
    unfold call vector_index at *
    have hF : Flatten { M with data_ := M.data_.map (fun x => op x s) } i j = M.Flatten i j :=
      rfl
    rw [hF, List.getElem?_map]
    cases hx : M.data_[M.Flatten i j]? with
    | none => rw [hx] at h; cases h
    | some y =>
      rw [hx] at h
      cases h
      rfl

/-- C5: for each of `+`, `-`, `*`, `/`, every matrix `M` and every scalar `s` held outside the
storage of `M`, the compound operator returns `M` with rows and columns unchanged and every
cell `x` replaced by `x op s` (stated on the flat data and on what `operator()` reads); the
binary operator, which works on a by-value copy of its left operand, returns that same
matrix for every scalar. -/
theorem scalar_ops_spec [Add T] [Sub T] [Mul T] [Div T] (M : Matrix T) (s : T) :
    (∃ M' : Matrix T, M.op_plus_eq_scalar (.outside s) = .done M' ∧
      M.op_plus_scalar s = .ok M' ∧ M'.rows = M.rows ∧ M'.columns = M.columns ∧
      M'.data_ = M.data_.map (fun x => x + s) ∧
      ∀ i j x, M.call i j = .ok x → M'.call i j = .ok (x + s)) ∧
    (∃ M' : Matrix T, M.op_minus_eq_scalar (.outside s) = .done M' ∧
      M.op_minus_scalar s = .ok M' ∧ M'.rows = M.rows ∧ M'.columns = M.columns ∧
      M'.data_ = M.data_.map (fun x => x - s) ∧
      ∀ i j x, M.call i j = .ok x → M'.call i j = .ok (x - s)) ∧
    (∃ M' : Matrix T, M.op_times_eq_scalar (.outside s) = .done M' ∧
      M.op_times_scalar s = .ok M' ∧ M'.rows = M.rows ∧ M'.columns = M.columns ∧
      M'.data_ = M.data_.map (fun x => x * s) ∧
      ∀ i j x, M.call i j = .ok x → M'.call i j = .ok (x * s)) ∧
    (∃ M' : Matrix T, M.op_over_eq_scalar (.outside s) = .done M' ∧
      M.op_over_scalar s = .ok M' ∧ M'.rows = M.rows ∧ M'.columns = M.columns ∧
      M'.data_ = M.data_.map (fun x => x / s) ∧
      ∀ i j x, M.call i j = .ok x → M'.call i j = .ok (x / s)) :=
  ⟨scalar_op_outside (fun d s => d + s) M s, scalar_op_outside (fun d s => d - s) M s,
    scalar_op_outside (fun d s => d * s) M s, scalar_op_outside (fun d s => d / s) M s⟩

/-- C5, the values of the tests `MatrixTest.ScalarAddition`, `ScalarSubtraction`,
`ScalarMultiplication` and `ScalarDivision`: the 5 × 7 matrix of 2 and the scalar 4. -/
theorem scalar_ops_test :
    (fill 5 7 (2 : ℚ)).op_plus_eq_scalar (.outside 4) = .done (fill 5 7 6) ∧
    (fill 5 7 (2 : ℚ)).op_plus_scalar 4 = .ok (fill 5 7 6) ∧
    (fill 5 7 (2 : ℚ)).op_minus_eq_scalar (.outside 4) = .done (fill 5 7 (-2)) ∧
    (fill 5 7 (2 : ℚ)).op_minus_scalar 4 = .ok (fill 5 7 (-2)) ∧
    (fill 5 7 (2 : ℚ)).op_times_eq_scalar (.outside 4) = .done (fill 5 7 8) ∧
    (fill 5 7 (2 : ℚ)).op_times_scalar 4 = .ok (fill 5 7 8) ∧
    (fill 5 7 (2 : ℚ)).op_over_eq_scalar (.outside 4) = .done (fill 5 7 (1 / 2)) ∧
    (fill 5 7 (2 : ℚ)).op_over_scalar 4 = .ok (fill 5 7 (1 / 2)) := by
  simp only [op_plus_scalar, op_minus_scalar, op_times_scalar, op_over_scalar,
    op_plus_eq_scalar, op_minus_eq_scalar, op_times_eq_scalar, op_over_eq_scalar,
    for_each_cell_outside, scalar_result, returned, fill, List.map_replicate]
  norm_num

/-- C5 as stated fails when the scalar is a cell of the matrix itself: the operators take
`const T &rhs` and read it at every iteration.  On the 1 × 3 matrix `[1, 2, 3]`,
`m += m(0, 0)` gives `[2, 4, 5]`, not `[1 + 1, 2 + 1, 3 + 1]`; on `[2, 4, 6]`,
`m /= m(0, 0)` gives `[1, 4, 6]`, not `[2 / 2, 4 / 2, 6 / 2]`. -/
theorem scalar_ops_counterexample :
    (ofList 1 3 [1, 2, 3] : Matrix ℤ).call 0 0 = .ok 1 ∧
    (ofList 1 3 [1, 2, 3] : Matrix ℤ).op_plus_eq_scalar (.cell 0)
      = .done (ofList 1 3 [2, 4, 5]) ∧
    (ofList 1 3 [2, 4, 5] : Matrix ℤ).data_ ≠ [1 + 1, 2 + 1, 3 + 1] ∧
    (ofList 1 3 [2, 4, 6] : Matrix ℤ).call 0 0 = .ok 2 ∧
    (ofList 1 3 [2, 4, 6] : Matrix ℤ).op_over_eq_scalar (.cell 0)
      = .done (ofList 1 3 [1, 4, 6]) ∧
    (ofList 1 3 [1, 4, 6] : Matrix ℤ).data_ ≠ [2 / 2, 4 / 2, 6 / 2] := by
  decide

/-! ## C6: row-major layout of list construction -/

/-- C6: `Matrix(r, c, v)` with a list `v` of exactly `r * c` values (an initializer list, whose
length is a `std::size_t`) reports `rows() = r` and `columns() = c`, `m[k]` is `v[k]` for every
`k < r * c`, and `m(i, j)` is `v[i * c + j]` for every `i < r` and `j < c`. -/
theorem ofList_row_major [Zero T] (r c : Nat) (v : List T) (hlen : v.length = r * c)
    (hsz : v.length < SIZE_MOD) :
    (ofList r c v).rows = r ∧ (ofList r c v).columns = c ∧
    (∀ k, k < r * c → ∃ x, v[k]? = some x ∧ (ofList r c v).index k = .ok x) ∧
    (∀ i j, i < r → j < c → ∃ x, v[i * c + j]? = some x ∧ (ofList r c v).call i j = .ok x) := by
  refine ⟨rfl, rfl, ?_, ?_⟩
  · intro k hk
    have hlt : k < v.length := by rw [hlen]; exact hk
    refine ⟨v[k], List.getElem?_eq_getElem hlt, ?_⟩
    simp only [index, vector_index, ofList, vector_assign, List.getElem?_eq_getElem hlt]
  · intro i j hi hj
    obtain ⟨x, hx, hcall⟩ := call_some (ofList r c v) (ofList_wellFormed r c v hlen hsz)
      (i := i) (j := j) hi hj
    exact ⟨x, hx, hcall⟩

/-- C6, the test `MatrixTest.InitializeList` read through `ofList_row_major`. -/
theorem ofList_row_major_witness :
    ([1, 2, 3, 4, 5, 6] : List ℤ).length = 3 * 2 ∧
    ([1, 2, 3, 4, 5, 6] : List ℤ).length < SIZE_MOD ∧
    ((ofList 3 2 [1, 2, 3, 4, 5, 6] : Matrix ℤ).rows = 3 ∧
    (ofList 3 2 [1, 2, 3, 4, 5, 6] : Matrix ℤ).columns = 2 ∧
    (∀ k, k < 3 * 2 → ∃ x, ([1, 2, 3, 4, 5, 6] : List ℤ)[k]? = some x ∧
      (ofList 3 2 [1, 2, 3, 4, 5, 6] : Matrix ℤ).index k = .ok x) ∧
    (∀ i j, i < 3 → j < 2 → ∃ x, ([1, 2, 3, 4, 5, 6] : List ℤ)[i * 2 + j]? = some x ∧
      (ofList 3 2 [1, 2, 3, 4, 5, 6] : Matrix ℤ).call i j = .ok x)) :=
  ⟨by decide, by decide, ofList_row_major 3 2 [1, 2, 3, 4, 5, 6] (by decide) (by decide)⟩

/-- C6, the values of `MatrixTest.InitializeList`. -/
theorem ofList_row_major_test :
    (ofList 3 2 [1, 2, 3, 4, 5, 6] : Matrix ℤ).call 0 0 = .ok 1 ∧
    (ofList 3 2 [1, 2, 3, 4, 5, 6] : Matrix ℤ).call 0 1 = .ok 2 ∧
    (ofList 3 2 [1, 2, 3, 4, 5, 6] : Matrix ℤ).call 1 0 = .ok 3 ∧
    (ofList 3 2 [1, 2, 3, 4, 5, 6] : Matrix ℤ).call 1 1 = .ok 4 ∧
    (ofList 3 2 [1, 2, 3, 4, 5, 6] : Matrix ℤ).call 2 0 = .ok 5 ∧
    (ofList 3 2 [1, 2, 3, 4, 5, 6] : Matrix ℤ).call 2 1 = .ok 6 ∧
    (∀ k, k < 6 → (ofList 3 2 [1, 2, 3, 4, 5, 6] : Matrix ℤ).index k = .ok (k + 1 : ℤ)) := by
  decide

end Matrix

/-! ## C7: shape invariant -/

/-- A property kept by every iteration that continues is kept by the loop. -/
theorem forRange_invariant {σ ρ : Type} (body : Nat → σ → Ctl σ ρ) (P : σ → Prop)
    (hbody : ∀ i s s', P s → body i s = .next s' → P s') (l : List Nat) (s s' : σ)
    (hs : P s) (h : forRange body l s = .next s') : P s' := by
  induction l generalizing s with
  | nil =>
    simp only [forRange, Ctl.next.injEq] at h
    exact h ▸ hs
  | cons i is ih =>
    simp only [forRange] at h
    cases hb : body i s with
    | next s₁ =>
      rw [hb] at h
      exact ih s₁ (hbody i s s₁ hs hb) h
    | ret r => rw [hb] at h; cases h
    | undefined => rw [hb] at h; cases h

namespace Matrix
variable {T : Type}

theorem add_to_cell_shaped [Add T] {ρ : Type} (r c n : Nat) (m m' : Matrix T) (i j : Nat)
    (x : T) (hm : Shaped r c n m) (h : (m.add_to_cell i j x : Ctl (Matrix T) ρ) = .next m') :
    Shaped r c n m' := by
  unfold add_to_cell at h
  split at h
  · cases h
    exact ⟨hm.1, hm.2.1, by simpa using hm.2.2⟩
  · cases h

theorem store_at_shaped (r c n : Nat) (m m' : Matrix T) (k : Nat) (v : T)
    (hm : Shaped r c n m) (h : (m.store_at k v).after = some m') : Shaped r c n m' := by
  unfold store_at at h
  split at h
  · simp only [Mut.after, Option.some.injEq] at h
    subst h
    exact ⟨hm.1, hm.2.1, by simpa using hm.2.2⟩
  · simp only [Mut.after, Option.some.injEq] at h
    subst h
    exact hm

theorem store_index_shaped (r c n : Nat) (m m' : Matrix T) (k : Nat) (v : T)
    (hm : Shaped r c n m) (h : (m.store_index k v).after = some m') : Shaped r c n m' := by
  unfold store_index at h
  split at h
  · simp only [Mut.after, Option.some.injEq] at h
    subst h
    exact ⟨hm.1, hm.2.1, by simpa using hm.2.2⟩
  · simp [Mut.after] at h

theorem for_each_cell_length (op : T → T → T) (rhs : ScalarRef T) (d d' : List T)
    (h : for_each_cell op rhs d = .next d') : d'.length = d.length := by
  refine forRange_invariant _ (fun l : List T => l.length = d.length) ?_ _ d d' rfl h
  intro p l l' hl hstep
  unfold scalar_cell at hstep
  split at hstep
  · cases hstep
    simpa using hl
  · cases hstep

theorem scalar_result_shaped (r c n : Nat) (m m' : Matrix T) (op : T → T → T)
    (rhs : ScalarRef T) (hm : Shaped r c n m)
    (h : (scalar_result m (for_each_cell op rhs m.data_)).after = some m') :
    Shaped r c n m' := by
  cases hloop : for_each_cell op rhs m.data_ with
  | next d =>
    rw [hloop] at h
    simp only [scalar_result, Mut.after, Option.some.injEq] at h
    subst h
    exact ⟨hm.1, hm.2.1, by rw [← hm.2.2]; exact for_each_cell_length op rhs _ _ hloop⟩
  | ret x => rw [hloop] at h; simp [scalar_result, Mut.after] at h
  | undefined => rw [hloop] at h; simp [scalar_result, Mut.after] at h

theorem op_plus_eq_shaped [Add T] (r c n : Nat) (m m' rhs : Matrix T)
    (hm : Shaped r c n m) (h : (m.op_plus_eq rhs).after = some m') : Shaped r c n m' := by
  unfold op_plus_eq at h
  split at h
  · simp only [Mut.after, Option.some.injEq] at h
    subst h
    exact hm
  · split at h
    · rename_i s hs
      simp only [Mut.after, Option.some.injEq] at h
      subst h
      refine forRange_invariant _ (Shaped r c n) ?_ _ m _ hm hs
      intro i s₀ s₁ h₀ hloop
      refine forRange_invariant _ (Shaped r c n) ?_ _ s₀ _ h₀ hloop
      intro j s₂ s₃ h₂ hcell
      unfold plus_eq_cell at hcell
      split at hcell
      · exact add_to_cell_shaped r c n _ _ i j _ h₂ hcell
      · cases hcell
    · simp [Mut.after] at h

theorem op_times_shaped [Zero T] [Add T] [Mul T] (a b p : Matrix T)
    (h : op_times a b = .ok p) :
    Shaped a.rows b.columns ((a.rows * b.columns) % SIZE_MOD) p := by
  unfold op_times at h
  simp only at h
  split at h
  · cases h
  · split at h
    · rename_i s hs
      cases h
      refine forRange_invariant _ (Shaped a.rows b.columns ((a.rows * b.columns) % SIZE_MOD))
        ?_ _ (fill a.rows b.columns 0) _ ⟨rfl, rfl, by simp [fill]⟩ hs
      intro i s₀ s₁ h₀ hloop
      refine forRange_invariant _ _ ?_ _ s₀ _ h₀ hloop
      intro j s₂ s₃ h₂ hloop₂
      refine forRange_invariant _ _ ?_ _ s₂ _ h₂ hloop₂
      intro k s₄ s₅ h₄ hcell
      unfold mul_cell at hcell
      split at hcell
      · exact add_to_cell_shaped _ _ _ _ _ i j _ h₄ hcell
      · cases hcell
    · cases h

theorem mutates_shaped [Add T] [Sub T] [Mul T] [Div T] (r c n : Nat) (m m' : Matrix T)
    (hm : Shaped r c n m) (h : Mutates m m') : Shaped r c n m' := by
  cases h with
  | set_at_flat i v h => exact store_at_shaped r c n m m' i v hm h
  | set_at_ij i j v h =>
    unfold Matrix.set_at_ij at h
    split at h
    · simp only [Mut.after, Option.some.injEq] at h
      subst h
      exact hm
    · exact store_at_shaped r c n m m' _ v hm h
  | set_index i v h => exact store_index_shaped r c n m m' i v hm h
  | set_call i j v h => exact store_index_shaped r c n m m' _ v hm h
  | plus_scalar rhs h => exact scalar_result_shaped r c n m m' _ rhs hm h
  | minus_scalar rhs h => exact scalar_result_shaped r c n m m' _ rhs hm h
  | times_scalar rhs h => exact scalar_result_shaped r c n m m' _ rhs hm h
  | over_scalar rhs h => exact scalar_result_shaped r c n m m' _ rhs hm h
  | plus_eq rhs h => exact op_plus_eq_shaped r c n m m' rhs hm h

/-- C7: a matrix built by the fill constructor, or by the list constructor with exactly
rows × columns values, with rows × columns below `2 ^ 64`, and then subjected to any sequence
of element writes, scalar operations, matrix additions and matrix multiplications whose
results have a cell count below `2 ^ 64`, always holds exactly rows × columns cells, and its
rows and columns are those it was constructed with. -/
theorem shape_invariant [Zero T] [Add T] [Sub T] [Mul T] [Div T] (r c : Nat) (m : Matrix T)
    (h : Reachable r c m) :
    m.rows = r ∧ m.columns = c ∧ m.data_.length = m.rows * m.columns := by
  have key : Shaped r c (r * c) m := by
    induction h with
    | fill r c v hsz => exact ⟨rfl, rfl, by simp [Matrix.fill, Nat.mod_eq_of_lt hsz]⟩
    | ofList r c vs hlen _ => exact ⟨rfl, rfl, hlen⟩
    | mutate _ hmut ih => exact mutates_shaped _ _ _ _ _ ih hmut
    | @sum r c r' c' a b s _ _ hsum iha _ =>
      refine op_plus_eq_shaped r c (r * c) a s b iha ?_
      unfold op_plus at hsum
      split at hsum
      · rename_i s hs
        cases hsum
        rw [hs]; rfl
      · cases hsum
      · cases hsum
    | @product r c r' c' a b p _ _ hprod hsz iha ihb =>
      have hs := op_times_shaped a b p hprod
      rw [show Matrix.rows _ = _ from iha.1, show Matrix.columns _ = _ from ihb.2.1,
        Nat.mod_eq_of_lt hsz] at hs
      exact hs
  exact ⟨key.1, key.2.1, by rw [key.2.2]; simp [rows, columns, key.1, key.2.1]⟩


/-- C7, applied to the product of the test matrices `A` (2 × 3) and `B` (3 × 2), to which its
own cell `(0, 0)` is then added by `m += m(0, 0)`. -/
theorem shape_invariant_witness :
    Reachable 2 2 (ofList 2 2 [44, 72, 93, 108] : Matrix ℤ) ∧
    ((ofList 2 2 [44, 72, 93, 108] : Matrix ℤ).rows = 2 ∧
      (ofList 2 2 [44, 72, 93, 108] : Matrix ℤ).columns = 2 ∧
      (ofList 2 2 [44, 72, 93, 108] : Matrix ℤ).data_.length
        = (ofList 2 2 [44, 72, 93, 108] : Matrix ℤ).rows
          * (ofList 2 2 [44, 72, 93, 108] : Matrix ℤ).columns) :=
  have h : Reachable 2 2 (ofList 2 2 [44, 72, 93, 108] : Matrix ℤ) :=
    Reachable.mutate
      (Reachable.product (a := ofList 2 3 [1, 2, 3, 4, 5, 6]) (b := ofList 3 2 [1, 2, 3, 4, 5, 6])
        (p := ofList 2 2 [22, 28, 49, 64])
        (Reachable.ofList 2 3 [1, 2, 3, 4, 5, 6] (by decide) (by decide))
        (Reachable.ofList 3 2 [1, 2, 3, 4, 5, 6] (by decide) (by decide))
        (by decide) (by decide))
      (Mutates.plus_scalar (.cell 0) (by decide))
  ⟨h, shape_invariant 2 2 _ h⟩

/-- C7 as stated fails at both constructors.  The list constructor with a list whose length
is not rows × columns keeps the list as it is: `Matrix(2, 2, {1})` holds one cell, not four.
The fill constructor with a wrapping product holds `r * c mod 2 ^ 64` cells:
`Matrix(4294967296, 4294967296, 0)` holds none. -/
theorem shape_invariant_counterexample :
    (ofList 2 2 [1] : Matrix ℤ).data_.length = 1 ∧
    (ofList 2 2 [1] : Matrix ℤ).data_.length
      ≠ (ofList 2 2 [1] : Matrix ℤ).rows * (ofList 2 2 [1] : Matrix ℤ).columns ∧
    (fill 4294967296 4294967296 (0 : ℤ)).data_.length = 0 ∧
    (fill 4294967296 4294967296 (0 : ℤ)).data_.length
      ≠ (fill 4294967296 4294967296 (0 : ℤ)).rows
        * (fill 4294967296 4294967296 (0 : ℤ)).columns := by
  decide

end Matrix

/-! ## MappedList: the members after a run of `add` calls -/


section maps
variable {K V : Type} [DecidableEq K]

theorem lookup_zip_none (g : Nat → V) (h : List K) (s n : Nat) (id : K) (hid : id ∉ h) :
    (List.zipWith (fun id k => (id, g k)) h (List.range' s n)).lookup id = none := by
  induction h generalizing s n with
  | nil => simp
  | cons a h ih =>
    cases n with
    | zero => simp
    | succ n =>
      have hne : id ≠ a := fun e => hid (e ▸ List.mem_cons_self _ _)
      have hnot : id ∉ h := fun e => hid (List.mem_cons_of_mem _ e)
      rw [List.range'_succ, List.zipWith_cons_cons, List.lookup_cons]
      have hb : (id == a) = false := by simpa using hne
      rw [hb]
      exact ih (s + 1) n hnot

theorem lookup_zip_some (g : Nat → V) (h : List K) (hn : h.Nodup) (s n : Nat)
    (hlen : h.length ≤ n) (i : Nat) (id : K) (hi : h[i]? = some id) :
    (List.zipWith (fun id k => (id, g k)) h (List.range' s n)).lookup id = some (g (s + i)) := by
  induction h generalizing s n i with
  | nil => simp at hi
  | cons a h ih =>
    cases n with
    | zero => simp at hlen
    | succ n =>
      rw [List.range'_succ, List.zipWith_cons_cons, List.lookup_cons]
      cases i with
      | zero =>
        simp only [List.getElem?_cons_zero, Option.some.injEq] at hi
        subst hi
        simp
      | succ i =>
        simp only [List.getElem?_cons_succ] at hi
        have hmem : id ∈ h := List.getElem?_mem hi
        have hne : id ≠ a := by
          rintro rfl
          exact (List.nodup_cons.mp hn).1 hmem
        have hb : (id == a) = false := by simpa using hne
        rw [hb]
        have := ih (List.nodup_cons.mp hn).2 (s + 1) n (by simpa using hlen) i hi
        have e : s + 1 + i = s + (i + 1) := by omega
        rw [this, e]

theorem lookup_zip_isSome (g : Nat → V) (h : List K) (s n : Nat) (hlen : h.length ≤ n) (id : K)
    (hid : id ∈ h) :
    ((List.zipWith (fun id k => (id, g k)) h (List.range' s n)).lookup id).isSome = true := by
  induction h generalizing s n with
  | nil => simp at hid
  | cons a h ih =>
    cases n with
    | zero => simp at hlen
    | succ n =>
      rw [List.range'_succ, List.zipWith_cons_cons, List.lookup_cons]
      by_cases hb : id = a
      · subst hb; simp
      · have hb' : (id == a) = false := by simpa using hb
        rw [hb']
        rcases List.mem_cons.mp hid with h1 | h1
        · exact absurd h1 hb
        · exact ih (s + 1) n (by simpa using hlen) h1

end maps

namespace MappedList
variable {T : Type}

theorem consistent_new [SizeCast T] (name description : String) :
    Consistent [] (new name description : MappedList T) :=
  ⟨rfl, List.nodup_nil, rfl, rfl⟩

theorem consistent_count [SizeCast T] (h : List String) (l : MappedList T)
    (hc : Consistent h l) (id : String) : map_count l.indices_ id > 0 ↔ id ∈ h := by
  obtain ⟨-, -, -, hidx⟩ := hc
  unfold map_count
  rw [hidx]
  by_cases hid : id ∈ h
  · simp [lookup_zip_isSome _ h 0 h.length (le_refl _) id hid, hid]
  · rw [lookup_zip_none _ h 0 h.length id hid]
    simp [hid]

/-- What `add` does on a consistent collection. -/
theorem add_consistent [SizeCast T] (h : List String) (l : MappedList T)
    (hc : Consistent h l) (id : String) (value : T) :
    (id ∈ h → l.add id value = .throws .runtime_error l) ∧
    (id ∉ h → ∃ l', l.add id value = .done l' ∧ Consistent (h ++ [id]) l' ∧
      l'.data_ = l.data_ ++ [value] ∧ l'.ids_ = l.ids_ ++ [id] ∧
      l'.indices_ = l.indices_ ++ [(id, SizeCast.of_size l.data_.length)]) := by
  have hcount := consistent_count h l hc id
  obtain ⟨hids, hnd, hlen, hidx⟩ := hc
  constructor
  · intro hid
    unfold add
    rw [if_pos (hcount.mpr hid)]
  · intro hid
    have hnone : l.indices_.lookup id = none := by
      rw [hidx]; exact lookup_zip_none _ h 0 h.length id hid
    have hemp : map_emplace l.indices_ id (SizeCast.of_size l.data_.length : T)
        = l.indices_ ++ [(id, SizeCast.of_size l.data_.length)] := by
      unfold map_emplace
      rw [hnone]; rfl
    refine ⟨_, by unfold add; rw [if_neg (fun hpos => hid (hcount.mp hpos))], ?_, rfl, rfl, hemp⟩
    refine ⟨by simp [hids], ?_, by simp [hlen], ?_⟩
    · rw [List.nodup_append]
      refine ⟨hnd, List.nodup_singleton id, ?_⟩
      intro a ha hb
      rw [List.mem_singleton] at hb
      exact hid (hb ▸ ha)
    · simp only [hemp, List.length_append, List.length_singleton]
      rw [List.range'_1_concat, List.zipWith_append _ _ _ _ _ (by simp), hidx, hlen]
      simp

theorem reachable_consistent [SizeCast T] (h : List String) (l : MappedList T)
    (hr : Reachable h l) : Consistent h l := by
  induction hr with
  | new name description => exact consistent_new name description
  | @add_done h l l' id value _ hadd ih =>
    by_cases hid : id ∈ h
    · rw [(add_consistent h l ih id value).1 hid] at hadd
      cases hadd
    · obtain ⟨l₁, h₁, hc₁, -⟩ := (add_consistent h l ih id value).2 hid
      rw [h₁] at hadd
      cases hadd
      exact hc₁
  | @add_throws h l l' id value e _ hadd ih =>
    by_cases hid : id ∈ h
    · rw [(add_consistent h l ih id value).1 hid] at hadd
      cases hadd
      exact ih
    · obtain ⟨l₁, h₁, -⟩ := (add_consistent h l ih id value).2 hid
      rw [h₁] at hadd
      cases hadd
  | @store h l i value _ hi ih =>
    exact ⟨ih.1, ih.2.1, by simpa using ih.2.2.1, ih.2.2.2⟩


/-- A run of `add` calls with fresh, pairwise distinct identifiers returns each time. -/
theorem add_all_fresh [SizeCast T] (ps : List (String × T)) (h : List String)
    (l : MappedList T) (hr : Reachable h l) (hnd : (ps.map Prod.fst).Nodup)
    (hfresh : ∀ id, id ∈ ps.map Prod.fst → id ∉ h) :
    ∃ l', l.add_all ps = .done l' ∧ Reachable (h ++ ps.map Prod.fst) l' ∧
      l'.data_ = l.data_ ++ ps.map Prod.snd := by
  induction ps generalizing h l with
  | nil => exact ⟨l, rfl, by simpa using hr, by simp⟩
  | cons p ps ih =>
    obtain ⟨id, value⟩ := p
    simp only [List.map_cons, List.nodup_cons] at hnd
    have hid : id ∉ h := hfresh id (by simp)
    obtain ⟨l₁, h₁, -, hd₁, -⟩ :=
      (add_consistent h l (reachable_consistent h l hr) id value).2 hid
    have hr₁ : Reachable (h ++ [id]) l₁ := Reachable.add_done id value hr h₁
    obtain ⟨l', h', hr', hd'⟩ := ih (h ++ [id]) l₁ hr₁ hnd.2 (by
      intro x hx hmem
      rcases List.mem_append.mp hmem with hm | hm
      · exact hfresh x (by simp only [List.map_cons, List.mem_cons]; exact Or.inr hx) hm
      · rw [List.mem_singleton] at hm
        exact hnd.1 (hm ▸ hx))
    refine ⟨l', ?_, by simpa using hr', by simp [hd', hd₁]⟩
    simp only [add_all, h₁]
    exact h'

/-- Lookup by identifier on a consistent collection goes through the conversion of the
position to `T` and back. -/
theorem lookup_consistent [SizeCast T] (h : List String) (l : MappedList T)
    (hc : Consistent h l) (i : Nat) (id : String) (hi : h[i]? = some id) :
    map_at l.indices_ id = .ok (SizeCast.of_size i) ∧
    l.id i = .ok id ∧
    l.at_id id = vector_at l.data_ (SizeCast.to_size (SizeCast.of_size i : T)) ∧
    l.index_id id = vector_index l.data_ (SizeCast.to_size (SizeCast.of_size i : T)) := by
  obtain ⟨hids, hnd, hlen, hidx⟩ := hc
  have hlook : l.indices_.lookup id = some (SizeCast.of_size i : T) := by
    rw [hidx, lookup_zip_some _ h hnd 0 h.length (le_refl _) i id hi, Nat.zero_add]
  have hmap : map_at l.indices_ id = .ok (SizeCast.of_size i : T) := by
    unfold map_at; rw [hlook]
  refine ⟨hmap, ?_, ?_, ?_⟩
  · unfold MappedList.id vector_index
    rw [hids, hi]
  · unfold at_id; rw [hmap]
  · unfold index_id; rw [hmap]

theorem wrap_id_injective : Function.Injective wrap_id := by
  intro a b hab
  unfold wrap_id at hab
  have h := congrArg (fun s => s.data.length) hab
  simpa using h

theorem wrap_pairs_nodup : (wrap_pairs.map Prod.fst).Nodup := by
  have : wrap_pairs.map Prod.fst = (List.range 257).map wrap_id := by
    simp [wrap_pairs, Function.comp_def]
  rw [this]
  exact List.Nodup.map wrap_id_injective (List.nodup_range 257)

theorem wrap_pairs_run :
    ∃ l : MappedList UChar, (new "test_list" "Test Stuff").add_all wrap_pairs = .done l ∧
      Consistent (wrap_pairs.map Prod.fst) l ∧ l.data_ = wrap_pairs.map Prod.snd := by
  obtain ⟨l, hl, hr, hd⟩ := add_all_fresh wrap_pairs [] (new "test_list" "Test Stuff")
    (Reachable.new _ _) wrap_pairs_nodup (by simp)
  exact ⟨l, hl, by simpa using reachable_consistent _ _ hr, by simpa [new] using hd⟩

/-! ## The collection of the tests -/

theorem test_list_run :
    (new "test_list" "Test Stuff" : MappedList ℚ).add_all
      [("first thing", 0), ("second thing", 1)] = .done test_list := by
  decide

theorem test_list_reachable : Reachable ["first thing", "second thing"] test_list :=
  have h₁ : Reachable ["first thing"]
      ({ data_ := [0], description_ := "Test Stuff", ids_ := ["first thing"],
         indices_ := [("first thing", 0)], max_id_width_ := 11,
         name_ := "test_list" } : MappedList ℚ) :=
    Reachable.add_done "first thing" 0 (Reachable.new "test_list" "Test Stuff") (by decide)
  Reachable.add_done "second thing" 1 h₁ (by decide)


/-! ## C8: add/lookup round trip -/

/-- The round trip of C8 for an element type whose conversion from `std::size_t` and back is
the identity on the positions in use: after the `add` calls of a list of pairs with distinct
identifiers on a new collection, `size()` is the number of pairs and the pair `(id, v)` at
position `k` is found by `at(k)`, `operator[](k)`, `id(k)`, `at(id)` and `operator[](id)`. -/
theorem add_lookup_round_trip [SizeCast T] (name description : String)
    (ps : List (String × T)) (hnd : (ps.map Prod.fst).Nodup)
    (hconv : ∀ k, k < ps.length → SizeCast.to_size (SizeCast.of_size k : T) = k) :
    ∃ l : MappedList T, (new name description).add_all ps = .done l ∧ l.size = ps.length ∧
      ∀ k id v, ps[k]? = some (id, v) →
        l.at_pos k = .ok v ∧ l.index_pos k = .ok v ∧ l.id k = .ok id ∧
        l.at_id id = .ok v ∧ l.index_id id = .ok v := by
  obtain ⟨l, hl, hr, hd⟩ := add_all_fresh ps [] (new name description)
    (Reachable.new _ _) hnd (by simp)
  have hd' : l.data_ = ps.map Prod.snd := by simpa [new] using hd
  have hc : Consistent (ps.map Prod.fst) l := by simpa using reachable_consistent _ _ hr
  refine ⟨l, hl, by simp [size, hd'], ?_⟩
  intro k id v hk
  have hlt : k < ps.length := (List.getElem?_eq_some.mp hk).1
  have hv : l.data_[k]? = some v := by rw [hd', List.getElem?_map, hk]; rfl
  have hid : (ps.map Prod.fst)[k]? = some id := by rw [List.getElem?_map, hk]; rfl
  obtain ⟨-, h₂, h₃, h₄⟩ := lookup_consistent _ l hc k id hid
  rw [hconv k hlt] at h₃ h₄
  refine ⟨?_, ?_, h₂, ?_, ?_⟩
  · unfold at_pos vector_at; rw [hv]
  · unfold index_pos vector_index; rw [hv]
  · rw [h₃]; unfold vector_at; rw [hv]
  · rw [h₄]; unfold vector_index; rw [hv]

/-- C8, the test `MappedListTest.AccessItem` read through `add_lookup_round_trip`. -/
theorem add_lookup_round_trip_witness :
    (([("first thing", 0), ("second thing", 1)] : List (String × ℚ)).map Prod.fst).Nodup ∧
    (∀ k, k < ([("first thing", 0), ("second thing", 1)] : List (String × ℚ)).length →
      SizeCast.to_size (SizeCast.of_size k : ℚ) = k) ∧
    ∃ l : MappedList ℚ,
      (new "test_list" "Test Stuff").add_all [("first thing", 0), ("second thing", 1)]
        = .done l ∧
      l.size = ([("first thing", 0), ("second thing", 1)] : List (String × ℚ)).length ∧
      ∀ k id v, ([("first thing", 0), ("second thing", 1)] : List (String × ℚ))[k]?
          = some (id, v) →
        l.at_pos k = .ok v ∧ l.index_pos k = .ok v ∧ l.id k = .ok id ∧
        l.at_id id = .ok v ∧ l.index_id id = .ok v :=
  have hnd : (([("first thing", 0), ("second thing", 1)] :
      List (String × ℚ)).map Prod.fst).Nodup := by decide
  have hconv : ∀ k, k < ([("first thing", 0), ("second thing", 1)] :
      List (String × ℚ)).length → SizeCast.to_size (SizeCast.of_size k : ℚ) = k := by
    intro k hk
    simp only [List.length_cons, List.length_nil] at hk
    interval_cases k <;> decide
  ⟨hnd, hconv, add_lookup_round_trip "test_list" "Test Stuff" _ hnd hconv⟩

/-- C8, the values of `MappedListTest.AccessItem`. -/
theorem add_lookup_test :
    (new "test_list" "Test Stuff" : MappedList ℚ).add_all
      [("first thing", 0), ("second thing", 1)] = .done test_list ∧
    test_list.size = 2 ∧ test_list.at_pos 0 = .ok 0 ∧ test_list.at_pos 1 = .ok 1 ∧
    test_list.index_pos 0 = .ok 0 ∧ test_list.index_pos 1 = .ok 1 ∧
    test_list.at_id "first thing" = .ok 0 ∧ test_list.at_id "second thing" = .ok 1 := by
  decide

/-- C8 fails on the code for `MappedList<unsigned char>`: after 257 `add` calls with distinct
identifiers, the last with the value 1 and the others with the value 0, `size()` is 257,
`at(256)` is 1 and `id(256)` is the last identifier, but `at(id)` and `operator[](id)` with that
identifier return the value at position 0: the position 256 was stored in `indices_` as the
`unsigned char` 0. -/
theorem add_lookup_wraps :
    (wrap_pairs.map Prod.fst).Nodup ∧ wrap_pairs[256]? = some (wrap_id 256, 1) ∧
    ∃ l : MappedList UChar, (new "test_list" "Test Stuff").add_all wrap_pairs = .done l ∧
      l.size = 257 ∧ l.at_pos 256 = .ok 1 ∧ l.id 256 = .ok (wrap_id 256) ∧
      l.at_pos 0 = .ok 0 ∧
      l.at_id (wrap_id 256) = .ok 0 ∧ l.index_id (wrap_id 256) = .ok 0 := by
  have hp : wrap_pairs[256]? = some (wrap_id 256, 1) := by
    unfold wrap_pairs
    rw [List.getElem?_map, List.getElem?_range (by decide)]
    rfl
  have hp0 : wrap_pairs[0]? = some (wrap_id 0, 0) := by
    unfold wrap_pairs
    rw [List.getElem?_map, List.getElem?_range (by decide)]
    rfl
  obtain ⟨l, hl, hc, hd⟩ := wrap_pairs_run
  have hid : (wrap_pairs.map Prod.fst)[256]? = some (wrap_id 256) := by
    rw [List.getElem?_map, hp]; rfl
  have hv : l.data_[256]? = some 1 := by rw [hd, List.getElem?_map, hp]; rfl
  have hv0 : l.data_[0]? = some 0 := by rw [hd, List.getElem?_map, hp0]; rfl
  obtain ⟨-, h₂, h₃, h₄⟩ := lookup_consistent _ l hc 256 (wrap_id 256) hid
  have hwrap : SizeCast.to_size (SizeCast.of_size 256 : UChar) = 0 := by decide
  rw [hwrap] at h₃ h₄
  refine ⟨wrap_pairs_nodup, hp, l, hl, ?_, ?_, h₂, ?_, ?_, ?_⟩
  · rw [size, hd, List.length_map]
    simp [wrap_pairs]
  · unfold at_pos vector_at; rw [hv]
  · unfold at_pos vector_at; rw [hv0]
  · rw [h₃]; unfold vector_at; rw [hv0]
  · rw [h₄]; unfold vector_index; rw [hv0]

/-! ## C9: duplicate-add atomicity -/

/-- C9: on a collection reached by `add` calls and element stores, `h` being the identifiers
added so far, `add(id, value)` throws exactly when `id` was added before; the exception is
`std::runtime_error` and the collection after the throw is the collection before the call,
member for member (`data_`, `ids_`, `indices_`, `max_id_width_`, hence `size()` too); with a
new identifier the call returns. -/
theorem add_duplicate_atomic [SizeCast T] (h : List String) (l : MappedList T)
    (hr : Reachable h l) (id : String) (value : T) :
    ((∃ e l', l.add id value = .throws e l') ↔ id ∈ h) ∧
    (∀ e l', l.add id value = .throws e l' → e = .runtime_error ∧ l' = l) ∧
    (id ∉ h → ∃ l', l.add id value = .done l') := by
  have hc := add_consistent h l (reachable_consistent h l hr) id value
  refine ⟨⟨?_, fun hid => ⟨_, _, hc.1 hid⟩⟩, ?_, ?_⟩
  · rintro ⟨e, l', hthrow⟩
    by_contra hid
    obtain ⟨l₁, h₁, -⟩ := hc.2 hid
    rw [h₁] at hthrow
    cases hthrow
  · intro e l' hthrow
    by_cases hid : id ∈ h
    · rw [hc.1 hid] at hthrow
      cases hthrow
      exact ⟨rfl, rfl⟩
    · obtain ⟨l₁, h₁, -⟩ := hc.2 hid
      rw [h₁] at hthrow
      cases hthrow
  · intro hid
    obtain ⟨l₁, h₁, -⟩ := hc.2 hid
    exact ⟨l₁, h₁⟩

/-- C9, the test `MappedListTest.AddItem` read through `add_duplicate_atomic`: the call
`add("first thing", 2.0)` after the two `add` calls of the test. -/
theorem add_duplicate_atomic_witness :
    Reachable ["first thing", "second thing"] test_list ∧
    ((∃ e l', test_list.add "first thing" 2 = .throws e l') ↔
      "first thing" ∈ ["first thing", "second thing"]) ∧
    (∀ e l', test_list.add "first thing" 2 = .throws e l' →
      e = .runtime_error ∧ l' = test_list) ∧
    ("first thing" ∉ ["first thing", "second thing"] →
      ∃ l', test_list.add "first thing" 2 = .done l') :=
  ⟨test_list_reachable,
    add_duplicate_atomic ["first thing", "second thing"] test_list test_list_reachable
      "first thing" 2⟩

/-- C9, the values of `MappedListTest.AddItem`: both duplicate calls throw and leave the
collection, of size 2, as it was. -/
theorem add_duplicate_test :
    test_list.add "first thing" 2 = .throws .runtime_error test_list ∧
    test_list.add "second thing" 2 = .throws .runtime_error test_list ∧
    test_list.size = 2 := by
  decide

/-! ## C10: consistency invariant -/

/-- The part of C10 that holds for every element type: on every reachable collection the
stored identifiers are pairwise distinct; `data_`, `ids_` and `indices_` have the same number
of entries; `indices_` sends the identifier at position `i` to the conversion of `i` to `T`;
and an `add` call changes no value and no identifier at a position assigned before. -/
theorem consistency_invariant [SizeCast T] (h : List String) (l : MappedList T)
    (hr : Reachable h l) :
    l.ids_ = h ∧ l.ids_.Nodup ∧
    l.ids_.length = l.data_.length ∧ l.indices_.length = l.data_.length ∧
    (∀ i id, l.ids_[i]? = some id → map_at l.indices_ id = .ok (SizeCast.of_size i)) ∧
    (∀ id value l', l.add id value = .done l' →
      ∀ i, i < l.size → l'.data_[i]? = l.data_[i]? ∧ l'.ids_[i]? = l.ids_[i]?) ∧
    (∀ id value e l', l.add id value = .throws e l' → l' = l) := by
  have hc := reachable_consistent h l hr
  obtain ⟨hids, hnd, hlen, hidx⟩ := hc
  refine ⟨hids, hids ▸ hnd, by rw [hids, hlen], ?_, ?_, ?_, ?_⟩
  · rw [hidx, hlen]
    simp
  · intro i id hi
    rw [hids] at hi
    exact (lookup_consistent h l ⟨hids, hnd, hlen, hidx⟩ i id hi).1
  · intro id value l' hadd i hi
    by_cases hid : id ∈ h
    · rw [(add_consistent h l ⟨hids, hnd, hlen, hidx⟩ id value).1 hid] at hadd
      cases hadd
    · obtain ⟨l₁, h₁, -, hd, hi', -⟩ :=
        (add_consistent h l ⟨hids, hnd, hlen, hidx⟩ id value).2 hid
      rw [h₁] at hadd
      cases hadd
      rw [hd, hi']
      unfold size at hi
      exact ⟨List.getElem?_append_left hi,
        List.getElem?_append_left (by rw [hids, ← hlen]; exact hi)⟩
  · intro id value e l' hthrow
    by_cases hid : id ∈ h
    · rw [(add_consistent h l ⟨hids, hnd, hlen, hidx⟩ id value).1 hid] at hthrow
      cases hthrow
      rfl
    · obtain ⟨l₁, h₁, -⟩ := (add_consistent h l ⟨hids, hnd, hlen, hidx⟩ id value).2 hid
      rw [h₁] at hthrow
      cases hthrow

/-- C10 fails on the code for `MappedList<unsigned char>`: after the 257 `add` calls of
`wrap_pairs`, `indices_` sends the identifier at position 256 to the `unsigned char` 0, which
converts back to the position 0, the position of another identifier. -/
theorem index_map_wraps :
    ∃ l : MappedList UChar, (new "test_list" "Test Stuff").add_all wrap_pairs = .done l ∧
      l.size = 257 ∧ l.id 256 = .ok (wrap_id 256) ∧ l.id 0 = .ok (wrap_id 0) ∧
      wrap_id 0 ≠ wrap_id 256 ∧
      map_at l.indices_ (wrap_id 256) = .ok 0 ∧ map_at l.indices_ (wrap_id 0) = .ok 0 ∧
      SizeCast.to_size (0 : UChar) = 0 := by
  have hp : wrap_pairs[256]? = some (wrap_id 256, 1) := by
    unfold wrap_pairs
    rw [List.getElem?_map, List.getElem?_range (by decide)]
    rfl
  have hp0 : wrap_pairs[0]? = some (wrap_id 0, 0) := by
    unfold wrap_pairs
    rw [List.getElem?_map, List.getElem?_range (by decide)]
    rfl
  obtain ⟨l, hl, hc, hd⟩ := wrap_pairs_run
  have hid : (wrap_pairs.map Prod.fst)[256]? = some (wrap_id 256) := by
    rw [List.getElem?_map, hp]; rfl
  have hid0 : (wrap_pairs.map Prod.fst)[0]? = some (wrap_id 0) := by
    rw [List.getElem?_map, hp0]; rfl
  obtain ⟨h₁, h₂, -⟩ := lookup_consistent _ l hc 256 (wrap_id 256) hid
  obtain ⟨k₁, k₂, -⟩ := lookup_consistent _ l hc 0 (wrap_id 0) hid0
  refine ⟨l, hl, ?_, h₂, k₂, fun e => absurd (wrap_id_injective e) (by decide), h₁, k₁,
    by decide⟩
  rw [size, hd, List.length_map]
  simp [wrap_pairs]

end MappedList
end libselnm

/-! ## C12: associativity of the matrix product -/

namespace libselnm
namespace Matrix
variable {T : Type}

/-- Two results that are both `ok` carry the same value. -/
theorem Res_ok_inj {ρ : Type} {x y : ρ} {r : Res ρ} (hx : r = .ok x) (hy : r = .ok y) :
    x = y := by
  rw [hx] at hy
  cases hy
  rfl

/-- With the default tolerance `equal` returns `true` on two matrices of one shape whose cells
agree. -/
theorem equal_default_of_cells [LinearOrderedRing T] (lhs rhs : Matrix T)
    (hl : lhs.WellFormed) (hr : rhs.WellFormed) (hrows : lhs.rows = rhs.rows)
    (hcols : lhs.columns = rhs.columns)
    (hcells : ∀ i j, i < lhs.rows → j < lhs.columns →
      ∃ x, lhs.call i j = .ok x ∧ rhs.call i j = .ok x) :
    equal_default lhs rhs = .ok true := by
  obtain ⟨A, B, b, hA, hB, hb, hiff⟩ := equal_same_shape lhs rhs (-1) hl hr hrows hcols
  unfold equal_default
  rw [hb]
  congr 1
  rw [hiff]
  intro i hi j hj
  obtain ⟨x, hx, hy⟩ := hcells i j hi hj
  have h1 : A i j = x := Res_ok_inj (hA i j hi hj) hx
  have h2 : B i j = x := Res_ok_inj (hB i j hi hj) hy
  have hneg : (-1 : T) ≤ 0 := by
    have : (0 : T) ≤ 1 := zero_le_one
    exact neg_nonpos.mpr this
  simp [cell_test, hneg, h1, h2]

/-- The two ways of bracketing a triple sum of products. -/
theorem sum_assoc [Semiring T] (a b c : Nat → Nat → T) (n p i j : Nat) :
    ∑ l in Finset.range p, (∑ k in Finset.range n, a i k * b k l) * c l j
      = ∑ k in Finset.range n, a i k * ∑ l in Finset.range p, b k l * c l j := by
  simp only [Finset.sum_mul, Finset.mul_sum]
  rw [Finset.sum_comm]
  simp only [mul_assoc]

/-- The product has undefined behaviour when the first cell read from the left operand is
outside its data. -/
theorem op_times_undefined [Zero T] [Add T] [Mul T] (lhs rhs : Matrix T)
    (hnp : lhs.columns = rhs.rows) (hm : 0 < lhs.rows) (hq : 0 < rhs.columns)
    (hp : 0 < rhs.rows) (h0 : lhs.call 0 0 = .undefined) :
    op_times lhs rhs = .undefined := by
  unfold op_times
  simp only [hnp, ne_eq, not_true_eq_false, if_false]
  rw [forLoop_undefined_first _ _ _ hm]
  rw [forLoop_undefined_first _ _ _ hq]
  rw [forLoop_undefined_first _ _ _ hp]
  simp only [mul_cell, h0]

/-- C12: for matrices `A` (m × n), `B` (n × p) and `C` (p × q) that each hold exactly
rows × columns cells, over an ordered ring, when the cell counts m × p, n × q and m × q of the
products are below `2 ^ 64`: `A * B`, `(A * B) * C`, `B * C` and `A * (B * C)` all return, both
triple products have m rows and q columns, and `equal` and `operator==` return `true` on
them. -/
theorem op_times_assoc [LinearOrderedRing T] (A B C : Matrix T) (hA : A.WellFormed)
    (hB : B.WellFormed) (hC : C.WellFormed) (hAB : A.columns = B.rows)
    (hBC : B.columns = C.rows) (hmp : A.rows * B.columns < SIZE_MOD)
    (hnq : B.rows * C.columns < SIZE_MOD) (hmq : A.rows * C.columns < SIZE_MOD) :
    ∃ AB BC L R : Matrix T,
      op_times A B = .ok AB ∧ op_times AB C = .ok L ∧
      op_times B C = .ok BC ∧ op_times A BC = .ok R ∧
      L.rows = A.rows ∧ L.columns = C.columns ∧ R.rows = A.rows ∧ R.columns = C.columns ∧
      equal_default L R = .ok true ∧ op_eq L R = .ok true := by
  have ha : ∀ i k, i < A.rows → k < A.columns →
      A.call i k = .ok (A.data_.getD (i * A.num_cols_ + k) 0) :=
    fun i k hi hk => (call_ok A hA hi hk 0).2
  have hb : ∀ k l, k < B.rows → l < B.columns →
      B.call k l = .ok (B.data_.getD (k * B.num_cols_ + l) 0) :=
    fun k l hk hl => (call_ok B hB hk hl 0).2
  have hc : ∀ l j, l < C.rows → j < C.columns →
      C.call l j = .ok (C.data_.getD (l * C.num_cols_ + j) 0) :=
    fun l j hl hj => (call_ok C hC hl hj 0).2
  obtain ⟨AB, hAB', hABr, hABc, hABwf, hABcells⟩ := op_times_cells A B hAB hmp _ _ ha hb
  obtain ⟨BC, hBC', hBCr, hBCc, hBCwf, hBCcells⟩ := op_times_cells B C hBC hnq _ _ hb hc
  obtain ⟨L, hL, hLr, hLc, hLwf, hLcells⟩ := op_times_cells AB C (by rw [hABc, hBC])
    (by rw [hABr]; exact hmq) _ _
    (fun i l hi hl => hABcells i l (hABr ▸ hi) (hABc ▸ hl)) hc
  obtain ⟨R, hR, hRr, hRc, hRwf, hRcells⟩ := op_times_cells A BC (by rw [hBCr, hAB])
    (by rw [hBCc]; exact hmq) _ _ ha
    (fun k j hk hj => hBCcells k j (hBCr ▸ hk) (hBCc ▸ hj))
  have heq : equal_default L R = .ok true := by
    refine equal_default_of_cells L R hLwf hRwf (by rw [hLr, hRr, hABr])
      (by rw [hLc, hRc, hBCc]) ?_
    intro i j hi hj
    rw [hLr, hABr] at hi
    rw [hLc] at hj
    refine ⟨_, hLcells i j (hABr ▸ hi) hj, ?_⟩
    rw [hRcells i j hi (hBCc ▸ hj), hABc]
    exact congrArg Res.ok (sum_assoc (fun i k => A.data_.getD (i * A.num_cols_ + k) 0)
      (fun k l => B.data_.getD (k * B.num_cols_ + l) 0)
      (fun l j => C.data_.getD (l * C.num_cols_ + j) 0) A.columns B.columns i j).symm
  exact ⟨AB, BC, L, R, hAB', hL, hBC', hR, by rw [hLr, hABr], hLc, hRr, by rw [hRc, hBCc],
    heq, heq⟩

/-- C12, applied to the test matrices: `A` (2 × 3), `B` (3 × 2) and again `A` (2 × 3). -/
theorem op_times_assoc_witness :
    (ofList 2 3 [1, 2, 3, 4, 5, 6] : Matrix ℤ).WellFormed ∧
    (ofList 3 2 [1, 2, 3, 4, 5, 6] : Matrix ℤ).WellFormed ∧
    ∃ AB BC L R : Matrix ℤ,
      op_times (ofList 2 3 [1, 2, 3, 4, 5, 6]) (ofList 3 2 [1, 2, 3, 4, 5, 6]) = .ok AB ∧
      op_times AB (ofList 2 3 [1, 2, 3, 4, 5, 6]) = .ok L ∧
      op_times (ofList 3 2 [1, 2, 3, 4, 5, 6]) (ofList 2 3 [1, 2, 3, 4, 5, 6]) = .ok BC ∧
      op_times (ofList 2 3 [1, 2, 3, 4, 5, 6]) BC = .ok R ∧
      L.rows = (ofList 2 3 [1, 2, 3, 4, 5, 6] : Matrix ℤ).rows ∧
      L.columns = (ofList 2 3 [1, 2, 3, 4, 5, 6] : Matrix ℤ).columns ∧
      R.rows = (ofList 2 3 [1, 2, 3, 4, 5, 6] : Matrix ℤ).rows ∧
      R.columns = (ofList 2 3 [1, 2, 3, 4, 5, 6] : Matrix ℤ).columns ∧
      equal_default L R = .ok true ∧ op_eq L R = .ok true :=
  ⟨by decide, by decide,
    op_times_assoc (ofList 2 3 [1, 2, 3, 4, 5, 6]) (ofList 3 2 [1, 2, 3, 4, 5, 6])
      (ofList 2 3 [1, 2, 3, 4, 5, 6]) (by decide) (by decide) (by decide) (by decide)
      (by decide) (by decide) (by decide) (by decide)⟩

/-- C12 as stated fails when the cell count of `A * B` wraps: `A = Matrix(4294967296, 0, 0)`,
`B = Matrix(0, 4294967296, 0)` and `C = Matrix(4294967296, 1, 0)` hold exactly
rows × columns cells and have matching inner dimensions, `A * B` has `4294967296` rows and
columns and no cell, and `(A * B) * C` reads the cell `(0, 0)` of `A * B` through the
unchecked `operator()`: it does not return a matrix. -/
theorem op_times_assoc_counterexample :
    (fill 4294967296 0 (0 : ℤ)).WellFormed ∧ (fill 0 4294967296 (0 : ℤ)).WellFormed ∧
    (fill 4294967296 1 (0 : ℤ)).WellFormed ∧
    (fill 4294967296 0 (0 : ℤ)).columns = (fill 0 4294967296 (0 : ℤ)).rows ∧
    (fill 0 4294967296 (0 : ℤ)).columns = (fill 4294967296 1 (0 : ℤ)).rows ∧
    op_times (fill 4294967296 0 (0 : ℤ)) (fill 0 4294967296 0)
      = .ok { num_rows_ := 4294967296, num_cols_ := 4294967296, data_ := [] } ∧
    op_times ({ num_rows_ := 4294967296, num_cols_ := 4294967296, data_ := [] } : Matrix ℤ)
      (fill 4294967296 1 0) = .undefined ∧
    ¬ ∃ AB L : Matrix ℤ, op_times (fill 4294967296 0 (0 : ℤ)) (fill 0 4294967296 0) = .ok AB ∧
        op_times AB (fill 4294967296 1 0) = .ok L := by
  have h : op_times (fill 4294967296 0 (0 : ℤ)) (fill 0 4294967296 0)
      = .ok { num_rows_ := 4294967296, num_cols_ := 4294967296, data_ := [] } := by
    rw [op_times_inner_zero (fill 4294967296 0 (0 : ℤ)) (fill 0 4294967296 0) rfl rfl]
    rfl
  have hu : op_times ({ num_rows_ := 4294967296, num_cols_ := 4294967296, data_ := [] } :
      Matrix ℤ) (fill 4294967296 1 0) = .undefined := by
    exact op_times_undefined _ _ rfl (by decide) (by decide) (by decide) rfl
  refine ⟨by decide, by decide, ?_, rfl, rfl, h, hu, ?_⟩
  · exact fill_wellFormed 4294967296 1 0 (by decide)
  · rintro ⟨AB, L, h1, h2⟩
    rw [h] at h1
    cases h1
    rw [hu] at h2
    cases h2

end Matrix
end libselnm

/-! ## C13: commutativity of matrix addition -/

namespace libselnm
namespace Matrix
variable {T : Type}

/-- C13: for matrices `A` and `B` of one shape that each hold exactly rows × columns cells,
over an ordered ring, `A + B` and `B + A` both return and `equal` and `operator==` return
`true` on the two sums. -/
theorem op_plus_comm [LinearOrderedRing T] (A B : Matrix T) (hA : A.WellFormed)
    (hB : B.WellFormed) (hrows : A.rows = B.rows) (hcols : A.columns = B.columns) :
    ∃ X Y : Matrix T, op_plus A B = .ok X ∧ op_plus B A = .ok Y ∧
      equal_default X Y = .ok true ∧ op_eq X Y = .ok true := by
  obtain ⟨d, hd, hdl, hcells⟩ := op_plus_eq_cells A B hA hB hrows hcols
  obtain ⟨e, he, hel, hcells'⟩ := op_plus_eq_cells B A hB hA hrows.symm hcols.symm
  have hX : ({ A with data_ := d } : Matrix T).WellFormed := ⟨hdl, hA.2⟩
  have hY : ({ B with data_ := e } : Matrix T).WellFormed := ⟨hel, hB.2⟩
  have heq : equal_default ({ A with data_ := d } : Matrix T) { B with data_ := e }
      = .ok true := by
    refine equal_default_of_cells _ _ hX hY hrows hcols ?_
    intro i j hi hj
    obtain ⟨x, y, hx, hy, hxy⟩ := hcells i j hi hj
    obtain ⟨y', x', hy', hx', hyx⟩ := hcells' i j (hrows ▸ hi) (hcols ▸ hj)
    have hc : B.columns = A.columns := hcols.symm
    rw [hc] at hy' hx' hyx
    have e1 : y' = y := Option.some.inj (hy'.symm.trans hy)
    have e2 : x' = x := Option.some.inj (hx'.symm.trans hx)
    subst e1 e2
    refine ⟨x' + y', call_of_data { A with data_ := d } hi hj hA.2 _ hxy, ?_⟩
    refine call_of_data { B with data_ := e } (hrows ▸ hi) (hcols ▸ hj) hB.2 _ ?_
    have hc' : B.num_cols_ = A.columns := hc
    simp only [hc']
    rw [hyx, add_comm]
  refine ⟨_, _, ?_, ?_, heq, heq⟩
  · unfold op_plus; rw [hd]
  · unfold op_plus; rw [he]

/-- C13, applied to the matrices of the test `MatrixTest.MatrixAddition`. -/
theorem op_plus_comm_witness :
    (fill 5 7 (2 : ℤ)).WellFormed ∧ (fill 5 7 (4 : ℤ)).WellFormed ∧
    (fill 5 7 (2 : ℤ)).rows = (fill 5 7 (4 : ℤ)).rows ∧
    (fill 5 7 (2 : ℤ)).columns = (fill 5 7 (4 : ℤ)).columns ∧
    ∃ X Y : Matrix ℤ, op_plus (fill 5 7 (2 : ℤ)) (fill 5 7 4) = .ok X ∧
      op_plus (fill 5 7 (4 : ℤ)) (fill 5 7 2) = .ok Y ∧
      equal_default X Y = .ok true ∧ op_eq X Y = .ok true :=
  ⟨by decide, by decide, rfl, rfl,
    op_plus_comm (fill 5 7 2) (fill 5 7 4) (by decide) (by decide) rfl rfl⟩

/-- `operator+=` and `operator+` have undefined behaviour when the cell `(0, 0)` of the right
operand is outside its data. -/
theorem op_plus_undefined [Add T] (a b : Matrix T) (hrows : a.rows = b.rows)
    (hcols : a.columns = b.columns) (hm : 0 < a.rows) (hc : 0 < a.columns)
    (h0 : b.call 0 0 = .undefined) :
    op_plus_eq a b = .undefined ∧ op_plus a b = .undefined := by
  have h : op_plus_eq a b = .undefined := by
    unfold op_plus_eq
    rw [if_neg (by simp [hrows, hcols]), forLoop_undefined_first _ _ _ hm]
    rw [forLoop_undefined_first _ _ _ hc]
    simp only [plus_eq_cell, h0]
  refine ⟨h, ?_⟩
  unfold op_plus
  rw [h]

/-- C13 as stated fails on matrices of one shape that do not hold rows × columns cells.
`Matrix(4294967296, 4294967296, 0)` holds no cell, the product of the constructor wrapping to
0, and `A + A` reads the cell `(0, 0)` through the unchecked `operator()`: it does not return
a matrix.  The same happens at the cell `(0, 1)` of `Matrix(2, 2, {1})`. -/
theorem op_plus_comm_counterexample :
    (fill 4294967296 4294967296 (0 : ℤ)).data_ = [] ∧
    op_plus (fill 4294967296 4294967296 (0 : ℤ)) (fill 4294967296 4294967296 0)
      = .undefined ∧
    op_plus (ofList 2 2 [1] : Matrix ℤ) (ofList 2 2 [1]) = .undefined ∧
    ¬ ∃ X : Matrix ℤ,
      op_plus (fill 4294967296 4294967296 (0 : ℤ)) (fill 4294967296 4294967296 0) = .ok X := by
  have h := (op_plus_undefined (fill 4294967296 4294967296 (0 : ℤ))
    (fill 4294967296 4294967296 0) rfl rfl (by decide) (by decide) (by decide)).2
  refine ⟨by decide, h, by decide, ?_⟩
  rintro ⟨X, hX⟩
  rw [h] at hX
  cases hX

/-! ## C14 and C15: scalar round trips -/

/-- On a matrix that holds exactly rows × columns cells, `equal` with the default tolerance
and `operator==` return `true` when both arguments are that matrix. -/
theorem equal_default_self [LinearOrderedRing T] (M : Matrix T) (hM : M.WellFormed) :
    equal_default M M = .ok true ∧ op_eq M M = .ok true := by
  have h : equal_default M M = .ok true := by
    refine equal_default_of_cells M M hM hM rfl rfl ?_
    intro i j hi hj
    obtain ⟨x, -, hx⟩ := call_some M hM hi hj
    exact ⟨x, hx, hx⟩
  exact ⟨h, h⟩

/-- What a binary scalar operator returns. -/
theorem binary_scalar (op : T → T → T) (M : Matrix T) (s : T) :
    returned (scalar_result M (for_each_cell op (.outside s) M.data_))
      = .ok { M with data_ := M.data_.map (fun x => op x s) } := by
  rw [for_each_cell_outside]
  rfl

/-- C14: for a matrix `M` that holds exactly rows × columns cells and a scalar `s`, over an
ordered ring, `M + s` and `(M + s) - s` return, the second is `M` itself, rows, columns and
every cell, and `operator==` returns `true` on it and `M`.  The operators take `M` by
value. -/
theorem plus_minus_round_trip [LinearOrderedRing T] (M : Matrix T) (s : T)
    (hM : M.WellFormed) :
    ∃ X Y : Matrix T, M.op_plus_scalar s = .ok X ∧ X.op_minus_scalar s = .ok Y ∧
      Y = M ∧ op_eq Y M = .ok true := by
  refine ⟨_, _, binary_scalar _ M s, binary_scalar _ _ s, ?_, ?_⟩
  · cases M with
    | mk r c d =>
      simp only [List.map_map, Matrix.mk.injEq, true_and]
      have hf : ((fun x => x - s) ∘ fun x => x + s) = (fun x : T => x) := by
        funext x
        simp
      rw [hf, List.map_id']
  · have h : ({ { M with data_ := M.data_.map (fun x => x + s) } with
        data_ := (M.data_.map (fun x => x + s)).map (fun x => x - s) } : Matrix T) = M := by
      cases M with
      | mk r c d =>
        simp only [List.map_map, Matrix.mk.injEq, true_and]
        have hf : ((fun x => x - s) ∘ fun x => x + s) = (fun x : T => x) := by
          funext x
          simp
        rw [hf, List.map_id']
    rw [h]
    exact (equal_default_self M hM).2

/-- C14, applied to the 5 × 7 matrix of 2 and the scalar 4 of the tests. -/
theorem plus_minus_round_trip_witness :
    (fill 5 7 (2 : ℚ)).WellFormed ∧
    ∃ X Y : Matrix ℚ, (fill 5 7 (2 : ℚ)).op_plus_scalar 4 = .ok X ∧
      X.op_minus_scalar 4 = .ok Y ∧ Y = fill 5 7 2 ∧ op_eq Y (fill 5 7 2) = .ok true :=
  ⟨by decide, plus_minus_round_trip (fill 5 7 2) 4 (by decide)⟩

/-- C14 as stated fails on a matrix that does not hold rows × columns cells.
`M = Matrix(4294967296, 4294967296, 0)` holds no cell, the product of the constructor wrapping
to 0; `(M + 1) - 1` returns `M`, and `operator==` on it and `M` reads the cell `(0, 0)`
through the unchecked `operator()`: it does not return `true`.  The same happens at the cell
`(0, 1)` of `Matrix(2, 2, {1})`. -/
theorem plus_minus_counterexample :
    (fill 4294967296 4294967296 (0 : ℤ)).data_ = [] ∧
    (fill 4294967296 4294967296 (0 : ℤ)).op_plus_scalar 1
      = .ok (fill 4294967296 4294967296 0) ∧
    (fill 4294967296 4294967296 (0 : ℤ)).op_minus_scalar 1
      = .ok (fill 4294967296 4294967296 0) ∧
    op_eq (fill 4294967296 4294967296 (0 : ℤ)) (fill 4294967296 4294967296 0)
      = .undefined ∧
    (ofList 2 2 [1] : Matrix ℤ).op_plus_scalar 1 = .ok (ofList 2 2 [2]) ∧
    (ofList 2 2 [2] : Matrix ℤ).op_minus_scalar 1 = .ok (ofList 2 2 [1]) ∧
    op_eq (ofList 2 2 [1] : Matrix ℤ) (ofList 2 2 [1]) = .undefined := by
  refine ⟨by decide, ?_, ?_, ?_, by decide, by decide, by decide⟩
  · simp only [op_plus_scalar, op_plus_eq_scalar, for_each_cell_outside]
    decide
  · simp only [op_minus_scalar, op_minus_eq_scalar, for_each_cell_outside]
    decide
  · unfold op_eq equal_default
    exact equal_undefined (fill 4294967296 4294967296 (0 : ℤ)) (fill 4294967296 4294967296 0)
      (-1) rfl rfl (by decide) (by decide) (by decide)

/-- C15: for a matrix `M` that holds exactly rows × columns cells and a scalar `s` other than
zero, over an ordered field, `M * s` and `(M * s) / s` return, the second is `M` itself, rows,
columns and every cell, and `operator==` returns `true` on it and `M`. -/
theorem times_over_round_trip [LinearOrderedField T] (M : Matrix T) (s : T)
    (hM : M.WellFormed) (hs : s ≠ 0) :
    ∃ X Y : Matrix T, M.op_times_scalar s = .ok X ∧ X.op_over_scalar s = .ok Y ∧
      Y = M ∧ op_eq Y M = .ok true := by
  have h : ({ { M with data_ := M.data_.map (fun x => x * s) } with
      data_ := (M.data_.map (fun x => x * s)).map (fun x => x / s) } : Matrix T) = M := by
    cases M with
    | mk r c d =>
      simp only [List.map_map, Matrix.mk.injEq, true_and]
      have hf : ((fun x => x / s) ∘ fun x => x * s) = (fun x : T => x) := by
        funext x
        simp [hs]
      rw [hf, List.map_id']
  refine ⟨_, _, binary_scalar _ M s, binary_scalar _ _ s, h, ?_⟩
  rw [h]
  exact (equal_default_self M hM).2

/-- C15, applied to the 5 × 7 matrix of 2 and the scalar 4 of the tests. -/
theorem times_over_round_trip_witness :
    (fill 5 7 (2 : ℚ)).WellFormed ∧ (4 : ℚ) ≠ 0 ∧
    ∃ X Y : Matrix ℚ, (fill 5 7 (2 : ℚ)).op_times_scalar 4 = .ok X ∧
      X.op_over_scalar 4 = .ok Y ∧ Y = fill 5 7 2 ∧ op_eq Y (fill 5 7 2) = .ok true :=
  ⟨by decide, by norm_num, times_over_round_trip (fill 5 7 2) 4 (by decide) (by norm_num)⟩

/-- With the scalar zero the round trip of C15 fails whatever the element type makes of a
division by zero: on the 1 × 2 matrix `[1, 2]`, `(M * 0) / 0` holds the same value `0 / 0` in
both cells, which cannot be both 1 and 2, so `operator==` returns `false`. -/
theorem times_over_zero [LinearOrderedRing T] [Div T] :
    ∃ X Y : Matrix T, (ofList 1 2 [1, 2] : Matrix T).op_times_scalar 0 = .ok X ∧
      X.op_over_scalar 0 = .ok Y ∧ op_eq Y (ofList 1 2 [1, 2]) = .ok false := by
  refine ⟨_, _, binary_scalar _ _ 0, binary_scalar _ _ 0, ?_⟩
  have hY : ({ { (ofList 1 2 [1, 2] : Matrix T) with
        data_ := (ofList 1 2 [1, 2] : Matrix T).data_.map (fun x => x * 0) } with
      data_ := ((ofList 1 2 [1, 2] : Matrix T).data_.map (fun x => x * 0)).map
        (fun x => x / 0) } : Matrix T) = ofList 1 2 [(0 : T) / 0, (0 : T) / 0] := by
    simp [ofList, vector_assign]
  rw [hY]
  have h01 : (0 : Nat) < 1 := Nat.zero_lt_one
  have h02 : (0 : Nat) < 2 := Nat.zero_lt_two
  have h12 : (1 : Nat) < 2 := Nat.one_lt_two
  have hsz : 1 * 2 < SIZE_MOD := by decide
  obtain ⟨A, B, b, hA, hB, hb, hiff⟩ := equal_same_shape
    (ofList 1 2 [(0 : T) / 0, (0 : T) / 0]) (ofList 1 2 [1, 2]) (-1)
    ⟨rfl, hsz⟩ ⟨rfl, hsz⟩ rfl rfl
  have hbf : b = false := by
    cases hbt : b with
    | false => rfl
    | true =>
      exfalso
      have hall := hiff.mp hbt
      have hneg : (-1 : T) ≤ 0 := neg_nonpos.mpr zero_le_one
      have c0 := hall 0 h01 0 h02
      have c1 := hall 0 h01 1 h12
      simp only [cell_test, if_pos hneg, decide_eq_true_eq] at c0 c1
      have a0 : A 0 0 = (0 : T) / 0 := Res_ok_inj (hA 0 0 h01 h02) rfl
      have a1 : A 0 1 = (0 : T) / 0 := Res_ok_inj (hA 0 1 h01 h12) rfl
      have b0 : B 0 0 = 1 := Res_ok_inj (hB 0 0 h01 h02) rfl
      have b1 : B 0 1 = 2 := Res_ok_inj (hB 0 1 h01 h12) rfl
      rw [a0, b0] at c0
      rw [a1, b1, c0] at c1
      exact absurd c1 (ne_of_lt one_lt_two)
  unfold op_eq equal_default
  rw [hb, hbf]

/-- C15 as stated fails for the scalar zero and on a matrix that does not hold
rows × columns cells.  On the 1 × 2 matrix `[1, 2]`, `M * 0` and `(M * 0) / 0` return and
`operator==` returns `false` on the result and `M`.  `M = Matrix(4294967296, 4294967296, 0)`
holds no cell; `(M * 1) / 1` returns `M`, and `operator==` on it and `M` reads the cell
`(0, 0)` through the unchecked `operator()`: it does not return `true`. -/
theorem times_over_counterexample :
    (ofList 1 2 [1, 2] : Matrix ℚ).WellFormed ∧
    (∃ X Y : Matrix ℚ, (ofList 1 2 [1, 2] : Matrix ℚ).op_times_scalar 0 = .ok X ∧
      X.op_over_scalar 0 = .ok Y ∧ op_eq Y (ofList 1 2 [1, 2]) = .ok false) ∧
    (fill 4294967296 4294967296 (0 : ℚ)).data_ = [] ∧
    (fill 4294967296 4294967296 (0 : ℚ)).op_times_scalar 1
      = .ok (fill 4294967296 4294967296 0) ∧
    (fill 4294967296 4294967296 (0 : ℚ)).op_over_scalar 1
      = .ok (fill 4294967296 4294967296 0) ∧
    op_eq (fill 4294967296 4294967296 (0 : ℚ)) (fill 4294967296 4294967296 0)
      = .undefined := by
  refine ⟨by decide, times_over_zero, by decide, ?_, ?_, ?_⟩
  · simp only [op_times_scalar, op_times_eq_scalar, for_each_cell_outside]
    decide
  · simp only [op_over_scalar, op_over_eq_scalar, for_each_cell_outside]
    decide
  · unfold op_eq equal_default
    exact equal_undefined (fill 4294967296 4294967296 (0 : ℚ)) (fill 4294967296 4294967296 0)
      (-1) rfl rfl (by decide) (by decide) (by decide)

end Matrix
end libselnm

/-! ## C16: tolerance equality -/

namespace libselnm
namespace Matrix
variable {T : Type}

/-- C16: on matrices that hold exactly rows × columns cells, `equal(A, B, tol)` always returns
a boolean.  For every tolerance `tol >= 0` it returns `true` exactly when `A` and `B` have the
same rows and columns and every cell pair satisfies `|A(i, j) - B(i, j)| <= tol`; for every
tolerance `tol < 0` it returns `true` exactly when `A` and `B` have the same rows and columns
and every cell pair is equal. -/
theorem equal_tolerance_iff [LinearOrderedRing T] (A B : Matrix T) (tol : T)
    (hA : A.WellFormed) (hB : B.WellFormed) :
    (∃ b, equal A B tol = .ok b) ∧
    (0 ≤ tol →
      (equal A B tol = .ok true ↔
        A.rows = B.rows ∧ A.columns = B.columns ∧
        ∀ i j, i < A.rows → j < A.columns →
          ∃ a b, A.call i j = .ok a ∧ B.call i j = .ok b ∧ |a - b| ≤ tol)) ∧
    (tol < 0 →
      (equal A B tol = .ok true ↔
        A.rows = B.rows ∧ A.columns = B.columns ∧
        ∀ i j, i < A.rows → j < A.columns →
          ∃ a, A.call i j = .ok a ∧ B.call i j = .ok a)) := by
  by_cases hshape : A.rows = B.rows ∧ A.columns = B.columns
  · obtain ⟨hrows, hcols⟩ := hshape
    obtain ⟨a, b, r, ha, hb, hr, hiff⟩ := equal_same_shape A B tol hA hB hrows hcols
    have htrue : equal A B tol = .ok true ↔ r = true := by
      rw [hr]
      constructor
      · intro h; cases h; rfl
      · intro h; rw [h]
    refine ⟨⟨r, hr⟩, fun ht => ?_, fun ht => ?_⟩
    · rw [htrue, hiff]
      constructor
      · intro h
        refine ⟨hrows, hcols, fun i j hi hj => ⟨a i j, b i j, ha i j hi hj, hb i j hi hj, ?_⟩⟩
        have hc := h i hi j hj
        unfold cell_test at hc
        by_cases h0 : tol ≤ 0
        · rw [if_pos h0] at hc
          have hab : a i j = b i j := of_decide_eq_true hc
          rw [hab, sub_self, abs_zero]
          exact ht
        · rw [if_neg h0] at hc
          exact of_decide_eq_true hc
      · rintro ⟨-, -, h⟩ i hi j hj
        obtain ⟨x, y, hx, hy, hxy⟩ := h i j hi hj
        have e1 : a i j = x := Res_ok_inj (ha i j hi hj) hx
        have e2 : b i j = y := Res_ok_inj (hb i j hi hj) hy
        unfold cell_test
        by_cases h0 : tol ≤ 0
        · rw [if_pos h0]
          have hz : tol = 0 := le_antisymm h0 ht
          rw [hz] at hxy
          have : x - y = 0 := abs_eq_zero.mp (le_antisymm hxy (abs_nonneg _))
          exact decide_eq_true (by rw [e1, e2]; exact sub_eq_zero.mp this)
        · rw [if_neg h0]
          exact decide_eq_true (by rw [e1, e2]; exact hxy)
    · rw [htrue, hiff]
      constructor
      · intro h
        refine ⟨hrows, hcols, fun i j hi hj => ⟨a i j, ha i j hi hj, ?_⟩⟩
        have hc := h i hi j hj
        unfold cell_test at hc
        rw [if_pos (le_of_lt ht)] at hc
        have hab : a i j = b i j := of_decide_eq_true hc
        rw [hab]
        exact hb i j hi hj
      · rintro ⟨-, -, h⟩ i hi j hj
        obtain ⟨x, hx, hy⟩ := h i j hi hj
        have e1 : a i j = x := Res_ok_inj (ha i j hi hj) hx
        have e2 : b i j = x := Res_ok_inj (hb i j hi hj) hy
        unfold cell_test
        rw [if_pos (le_of_lt ht)]
        exact decide_eq_true (by rw [e1, e2])
  · have hfalse : equal A B tol = .ok false := by
      unfold equal
      by_cases hc : A.columns = B.columns
      · have hr : A.rows ≠ B.rows := fun h => hshape ⟨h, hc⟩
        simp [hr]
      · simp [hc]
    refine ⟨⟨false, hfalse⟩, fun _ => ?_, fun _ => ?_⟩
    · rw [hfalse]
      constructor
      · intro h; cases h
      · rintro ⟨h1, h2, -⟩; exact absurd ⟨h1, h2⟩ hshape
    · rw [hfalse]
      constructor
      · intro h; cases h
      · rintro ⟨h1, h2, -⟩; exact absurd ⟨h1, h2⟩ hshape

/-- C16, applied to the matrices `m` and `q` of the test `MatrixTest.Equality` with
tolerance 1. -/
theorem equal_tolerance_iff_witness :
    (fill 5 7 (0 : ℤ)).WellFormed ∧ (ofList 5 7 ((1 : ℤ) :: List.replicate 34 0)).WellFormed ∧
    ((∃ b, equal (fill 5 7 (0 : ℤ)) (ofList 5 7 ((1 : ℤ) :: List.replicate 34 0)) 1 = .ok b) ∧
    ((0 : ℤ) ≤ 1 →
      (equal (fill 5 7 (0 : ℤ)) (ofList 5 7 ((1 : ℤ) :: List.replicate 34 0)) 1 = .ok true ↔
        (fill 5 7 (0 : ℤ)).rows = (ofList 5 7 ((1 : ℤ) :: List.replicate 34 0)).rows ∧
        (fill 5 7 (0 : ℤ)).columns
          = (ofList 5 7 ((1 : ℤ) :: List.replicate 34 0)).columns ∧
        ∀ i j, i < (fill 5 7 (0 : ℤ)).rows → j < (fill 5 7 (0 : ℤ)).columns →
          ∃ a b, (fill 5 7 (0 : ℤ)).call i j = .ok a ∧
            (ofList 5 7 ((1 : ℤ) :: List.replicate 34 0)).call i j = .ok b ∧
            |a - b| ≤ 1)) ∧
    ((1 : ℤ) < 0 →
      (equal (fill 5 7 (0 : ℤ)) (ofList 5 7 ((1 : ℤ) :: List.replicate 34 0)) 1 = .ok true ↔
        (fill 5 7 (0 : ℤ)).rows = (ofList 5 7 ((1 : ℤ) :: List.replicate 34 0)).rows ∧
        (fill 5 7 (0 : ℤ)).columns
          = (ofList 5 7 ((1 : ℤ) :: List.replicate 34 0)).columns ∧
        ∀ i j, i < (fill 5 7 (0 : ℤ)).rows → j < (fill 5 7 (0 : ℤ)).columns →
          ∃ a, (fill 5 7 (0 : ℤ)).call i j = .ok a ∧
            (ofList 5 7 ((1 : ℤ) :: List.replicate 34 0)).call i j = .ok a))) :=
  ⟨by decide, by decide, equal_tolerance_iff _ _ 1 (by decide) (by decide)⟩

/-- C16 as stated fails for a negative tolerance: two 1 × 1 matrices of 0 are `equal` with
tolerance `-1`, the code comparing the cells with `==`, although `|0 - 0| <= -1` is false. -/
theorem equal_tolerance_counterexample :
    (fill 1 1 (0 : ℤ)).WellFormed ∧
    equal (fill 1 1 (0 : ℤ)) (fill 1 1 0) (-1) = .ok true ∧
    (fill 1 1 (0 : ℤ)).call 0 0 = .ok 0 ∧
    ¬ (|(0 : ℤ) - 0| ≤ -1) ∧
    ¬ (equal (fill 1 1 (0 : ℤ)) (fill 1 1 0) (-1) = .ok true ↔
      (fill 1 1 (0 : ℤ)).rows = (fill 1 1 (0 : ℤ)).rows ∧
      (fill 1 1 (0 : ℤ)).columns = (fill 1 1 (0 : ℤ)).columns ∧
      ∀ i j, i < (fill 1 1 (0 : ℤ)).rows → j < (fill 1 1 (0 : ℤ)).columns →
        ∃ a b, (fill 1 1 (0 : ℤ)).call i j = .ok a ∧ (fill 1 1 (0 : ℤ)).call i j = .ok b ∧
          |a - b| ≤ -1) := by
  refine ⟨by decide, by decide, by decide, by decide, ?_⟩
  intro h
  obtain ⟨-, -, hc⟩ := h.mp (by decide)
  obtain ⟨a, b, ha, hb, hab⟩ := hc 0 0 (by decide) (by decide)
  have ha0 : (fill 1 1 (0 : ℤ)).call 0 0 = .ok 0 := by decide
  have e1 : a = 0 := Res_ok_inj ha ha0
  have e2 : b = 0 := Res_ok_inj hb ha0
  subst e1 e2
  exact absurd hab (by decide)

end Matrix
end libselnm

/-! ## C17: element write/read law -/

namespace libselnm
namespace Matrix
variable {T : Type}

/-- Row-major flattening is injective on in-bounds columns. -/
theorem flat_inj {c i j i' j' : Nat} (hj : j < c) (hj' : j' < c)
    (h : i * c + j = i' * c + j') : i = i' ∧ j = j' := by
  rcases Nat.lt_trichotomy i i' with hlt | heq | hgt
  · have := flat_lt (r := i') hlt hj
    omega
  · subst heq
    exact ⟨rfl, by omega⟩
  · have := flat_lt (r := i) hgt hj'
    omega

/-- C17: on a matrix that holds exactly rows × columns cells, for an in-bounds `(i, j)` and a
value `v`, the store of `v` through `at(i, j)`, `at(i * columns + j)`,
`operator[](i * columns + j)` or `operator()(i, j)` returns, each time with the same matrix;
in it rows and columns are unchanged, all four accessors read `v` at the cell, and all four
read what they read before at every other in-bounds cell. -/
theorem write_read_frame (M : Matrix T) (hM : M.WellFormed) (i j : Nat) (hi : i < M.rows)
    (hj : j < M.columns) (v : T) :
    ∃ M' : Matrix T,
      M.set_at_ij i j v = .done M' ∧ M.set_at_flat (i * M.columns + j) v = .done M' ∧
      M.set_index (i * M.columns + j) v = .done M' ∧ M.set_call i j v = .done M' ∧
      M'.rows = M.rows ∧ M'.columns = M.columns ∧
      M'.at_ij i j = .ok v ∧ M'.at_flat (i * M.columns + j) = .ok v ∧
      M'.index (i * M.columns + j) = .ok v ∧ M'.call i j = .ok v ∧
      ∀ i' j', i' < M.rows → j' < M.columns → (i', j') ≠ (i, j) →
        M'.at_ij i' j' = M.at_ij i' j' ∧
        M'.at_flat (i' * M.columns + j') = M.at_flat (i' * M.columns + j') ∧
        M'.index (i' * M.columns + j') = M.index (i' * M.columns + j') ∧
        M'.call i' j' = M.call i' j' := by
  have hlt : i * M.columns + j < M.data_.length := by rw [hM.1]; exact flat_lt hi hj
  have hF : M.Flatten i j = i * M.columns + j := Flatten_eq M hi hj hM.2
  have hget : (M.data_.set (i * M.columns + j) v)[i * M.columns + j]? = some v :=
    List.getElem?_set_self hlt
  have hF' : ∀ i' j', i' < M.rows → j' < M.columns →
      Flatten { M with data_ := M.data_.set (i * M.columns + j) v } i' j'
        = i' * M.columns + j' :=
    fun i' j' hi' hj' => Flatten_eq M hi' hj' hM.2
  refine ⟨{ M with data_ := M.data_.set (i * M.columns + j) v }, ?_, ?_, ?_, ?_, rfl, rfl,
    ?_, ?_, ?_, ?_, ?_⟩
  · unfold set_at_ij store_at
    rw [if_neg (by omega), hF, if_pos hlt]
  · unfold set_at_flat store_at
    rw [if_pos hlt]
  · unfold set_index store_index
    rw [if_pos hlt]
  · unfold set_call store_index
    rw [hF, if_pos hlt]
  · unfold at_ij vector_at
    rw [if_neg (by simp only [rows, columns] at hi hj ⊢; omega), hF' i j hi hj, hget]
  · unfold at_flat vector_at
    rw [hget]
  · unfold index vector_index
    rw [hget]
  · unfold call vector_index
    rw [hF' i j hi hj, hget]
  · intro i' j' hi' hj' hne
    have hk : i * M.columns + j ≠ i' * M.columns + j' := by
      intro h
      obtain ⟨h1, h2⟩ := flat_inj hj hj' h
      exact hne (by rw [h1, h2])
    have hsame : (M.data_.set (i * M.columns + j) v)[i' * M.columns + j']?
        = M.data_[i' * M.columns + j']? := List.getElem?_set_ne hk
    refine ⟨?_, ?_, ?_, ?_⟩
    · unfold at_ij vector_at
      by_cases hb : i' ≥ M.rows ∨ j' ≥ M.columns
      · have hb' : i' ≥ rows { M with data_ := M.data_.set (i * M.columns + j) v } ∨
            j' ≥ columns { M with data_ := M.data_.set (i * M.columns + j) v } := hb
        rw [if_pos hb, if_pos hb']
      · have hb' : ¬ (i' ≥ rows { M with data_ := M.data_.set (i * M.columns + j) v } ∨
            j' ≥ columns { M with data_ := M.data_.set (i * M.columns + j) v }) := hb
        rw [if_neg hb, if_neg hb', hF' i' j' hi' hj', Flatten_eq M hi' hj' hM.2]
        have hsame' : (M.data_.set (i * M.columns + j) v)[i' * M.num_cols_ + j']?
            = M.data_[i' * M.num_cols_ + j']? := hsame
        simp only [columns] at *
        rw [hsame']
    · unfold at_flat vector_at
      rw [hsame]
    · unfold index vector_index
      rw [hsame]
    · unfold call vector_index
      rw [hF' i' j' hi' hj', Flatten_eq M hi' hj' hM.2]
      have hsame' : (M.data_.set (i * M.columns + j) v)[i' * M.num_cols_ + j']?
          = M.data_[i' * M.num_cols_ + j']? := hsame
      simp only [columns] at *
      rw [hsame']

/-- C17, the first store of the loop of `MatrixTest.Accessors` read through
`write_read_frame`: the value 1 stored at the cell `(4, 6)` of the 5 × 7 zero matrix. -/
theorem write_read_frame_witness :
    (fill 5 7 (0 : ℤ)).WellFormed ∧ 4 < (fill 5 7 (0 : ℤ)).rows ∧
    6 < (fill 5 7 (0 : ℤ)).columns ∧
    ∃ M' : Matrix ℤ,
      (fill 5 7 (0 : ℤ)).set_at_ij 4 6 1 = .done M' ∧
      (fill 5 7 (0 : ℤ)).set_at_flat (4 * (fill 5 7 (0 : ℤ)).columns + 6) 1 = .done M' ∧
      (fill 5 7 (0 : ℤ)).set_index (4 * (fill 5 7 (0 : ℤ)).columns + 6) 1 = .done M' ∧
      (fill 5 7 (0 : ℤ)).set_call 4 6 1 = .done M' ∧
      M'.rows = (fill 5 7 (0 : ℤ)).rows ∧ M'.columns = (fill 5 7 (0 : ℤ)).columns ∧
      M'.at_ij 4 6 = .ok 1 ∧ M'.at_flat (4 * (fill 5 7 (0 : ℤ)).columns + 6) = .ok 1 ∧
      M'.index (4 * (fill 5 7 (0 : ℤ)).columns + 6) = .ok 1 ∧ M'.call 4 6 = .ok 1 ∧
      ∀ i' j', i' < (fill 5 7 (0 : ℤ)).rows → j' < (fill 5 7 (0 : ℤ)).columns →
        (i', j') ≠ (4, 6) →
        M'.at_ij i' j' = (fill 5 7 (0 : ℤ)).at_ij i' j' ∧
        M'.at_flat (i' * (fill 5 7 (0 : ℤ)).columns + j')
          = (fill 5 7 (0 : ℤ)).at_flat (i' * (fill 5 7 (0 : ℤ)).columns + j') ∧
        M'.index (i' * (fill 5 7 (0 : ℤ)).columns + j')
          = (fill 5 7 (0 : ℤ)).index (i' * (fill 5 7 (0 : ℤ)).columns + j') ∧
        M'.call i' j' = (fill 5 7 (0 : ℤ)).call i' j' :=
  ⟨by decide, by decide, by decide,
    write_read_frame (fill 5 7 0) (by decide) 4 6 (by decide) (by decide) 1⟩

/-- C17, the values of the loop of `MatrixTest.Accessors` at the cell `(0, 0)`: the stores of
1, 2, 3 and 4 through the four accessors in turn, each read back through the accessor of the
next store. -/
theorem write_read_test :
    ∃ m₁ m₂ m₃ m₄ : Matrix ℤ,
      (fill 5 7 (0 : ℤ)).at_ij 0 0 = .ok 0 ∧
      (fill 5 7 (0 : ℤ)).set_at_ij 0 0 1 = .done m₁ ∧ m₁.at_ij 0 0 = .ok 1 ∧
      m₁.at_flat 0 = .ok 1 ∧
      m₁.set_at_flat 0 2 = .done m₂ ∧ m₂.at_flat 0 = .ok 2 ∧ m₂.index 0 = .ok 2 ∧
      m₂.set_index 0 3 = .done m₃ ∧ m₃.index 0 = .ok 3 ∧ m₃.call 0 0 = .ok 3 ∧
      m₃.set_call 0 0 4 = .done m₄ ∧ m₄.call 0 0 = .ok 4 ∧ m₄.call 0 1 = .ok 0 :=
  ⟨ofList 5 7 (1 :: List.replicate 34 0), ofList 5 7 (2 :: List.replicate 34 0),
    ofList 5 7 (3 :: List.replicate 34 0), ofList 5 7 (4 :: List.replicate 34 0), by decide⟩

/-! ## C19: fill construction -/

/-- C19: `Matrix(r, c, v)` with `r * c` below `2 ^ 64`, so that the product of the constructor
does not wrap, reports `rows() = r` and `columns() = c`, holds exactly `r * c` cells, and
`at(i, j)` returns `v` for every `i < r` and `j < c`. -/
theorem fill_spec (r c : Nat) (v : T) (hsz : r * c < SIZE_MOD) :
    (fill r c v).rows = r ∧ (fill r c v).columns = c ∧
    (fill r c v).data_.length = r * c ∧
    ∀ i j, i < r → j < c → (fill r c v).at_ij i j = .ok v := by
  have hlen : (fill r c v).data_.length = r * c := (fill_wellFormed r c v hsz).1
  refine ⟨rfl, rfl, hlen, ?_⟩
  intro i j hi hj
  have hF : (fill r c v).Flatten i j = i * c + j :=
    Flatten_eq (fill r c v) hi hj hsz
  unfold at_ij vector_at
  rw [if_neg (by simp only [rows, columns, fill]; omega), hF]
  have hget : (fill r c v).data_[i * c + j]? = some v := by
    simp only [fill, Nat.mod_eq_of_lt hsz]
    exact List.getElem?_replicate_of_lt (flat_lt hi hj)
  rw [hget]

/-- C19, the test `MatrixTest.InitializeConstant` read through `fill_spec`: the 13 × 8 matrix
filled with -1.37e-4. -/
theorem fill_spec_witness :
    13 * 8 < SIZE_MOD ∧
    (fill 13 8 (-137 / 1000000 : ℚ)).rows = 13 ∧
    (fill 13 8 (-137 / 1000000 : ℚ)).columns = 8 ∧
    (fill 13 8 (-137 / 1000000 : ℚ)).data_.length = 13 * 8 ∧
    ∀ i j, i < 13 → j < 8 →
      (fill 13 8 (-137 / 1000000 : ℚ)).at_ij i j = .ok (-137 / 1000000) :=
  ⟨by decide, fill_spec 13 8 (-137 / 1000000) (by decide)⟩

/-- C19 as stated fails when `r * c` wraps: `Matrix(4294967296, 4294967296, 1)` reports
4294967296 rows and columns and holds `4294967296 * 4294967296 mod 2 ^ 64 = 0` cells, and
`at(0, 0)` throws `std::out_of_range`. -/
theorem fill_counterexample :
    (fill 4294967296 4294967296 (1 : ℤ)).rows = 4294967296 ∧
    (fill 4294967296 4294967296 (1 : ℤ)).columns = 4294967296 ∧
    (fill 4294967296 4294967296 (1 : ℤ)).data_.length = 0 ∧
    (fill 4294967296 4294967296 (1 : ℤ)).data_.length ≠ 4294967296 * 4294967296 ∧
    (fill 4294967296 4294967296 (1 : ℤ)).at_ij 0 0 = .throws .out_of_range ∧
    ¬ (∀ i j, i < 4294967296 → j < 4294967296 →
      (fill 4294967296 4294967296 (1 : ℤ)).at_ij i j = .ok 1) := by
  refine ⟨rfl, rfl, by decide, by decide, by decide, ?_⟩
  intro h
  have h0 := h 0 0 (by decide) (by decide)
  have h1 : (fill 4294967296 4294967296 (1 : ℤ)).at_ij 0 0 = .throws .out_of_range := by
    decide
  rw [h1] at h0
  cases h0

end Matrix
end libselnm

/-! ## C11: rendering of a non-empty collection -/

namespace libselnm
namespace MappedList
variable {T : Type}

/-- On a reachable collection `max_id_width_` is the largest byte length of an identifier. -/
theorem reachable_width [SizeCast T] (h : List String) (l : MappedList T)
    (hr : Reachable h l) :
    l.max_id_width_ = (l.ids_.map String.utf8ByteSize).foldl max 0 := by
  induction hr with
  | new name description => rfl
  | @add_done h l l' id value _ hadd ih =>
    unfold add at hadd
    split at hadd
    · cases hadd
    · cases hadd
      simp only [List.map_append, List.map_cons, List.map_nil, List.foldl_append,
        List.foldl_cons, List.foldl_nil, ih]
  | @add_throws h l l' id value e _ hadd ih =>
    unfold add at hadd
    split at hadd
    · cases hadd
      exact ih
    · cases hadd
  | @store h l i value _ hi ih => exact ih

/-- A digit character below 16 takes one byte. -/
theorem digitChar_utf8Size (n : Nat) (h : n < 16) : (Nat.digitChar n).utf8Size = 1 := by
  interval_cases n <;> rfl

/-- The digits of a number in a base from 1 to 16 take one byte each. -/
theorem toDigitsCore_utf8Size (base fuel n : Nat) (ds : List Char) (hb : 0 < base)
    (hb16 : base ≤ 16) (h : ∀ c ∈ ds, c.utf8Size = 1) :
    ∀ c ∈ Nat.toDigitsCore base fuel n ds, c.utf8Size = 1 := by
  induction fuel generalizing n ds with
  | zero => simpa [Nat.toDigitsCore] using h
  | succ fuel ih =>
    have hcons : ∀ c ∈ Nat.digitChar (n % base) :: ds, c.utf8Size = 1 := by
      intro c hc
      rcases List.mem_cons.mp hc with rfl | hc
      · exact digitChar_utf8Size _ (lt_of_lt_of_le (Nat.mod_lt n hb) hb16)
      · exact h c hc
    unfold Nat.toDigitsCore
    simp only
    split
    · exact hcons
    · exact ih _ _ hcons

/-- A text of one-byte characters has as many bytes as characters. -/
theorem utf8ByteSize_of_ascii (cs : List Char) (h : ∀ c ∈ cs, c.utf8Size = 1) :
    (String.mk cs).utf8ByteSize = cs.length := by
  induction cs with
  | nil => rfl
  | cons c cs ih =>
    have h1 := h c (List.mem_cons_self c cs)
    have h2 := ih (fun x hx => h x (List.mem_cons_of_mem c hx))
    simp only [String.utf8ByteSize, String.utf8ByteSize.go, List.length_cons] at *
    omega

/-- The decimal text of a number has as many bytes as digits. -/
theorem repr_utf8ByteSize (n : Nat) : (Nat.repr n).utf8ByteSize = (Nat.repr n).length :=
  utf8ByteSize_of_ascii _
    (toDigitsCore_utf8Size 10 (n + 1) n [] (by decide) (by decide) (by simp))

/-- On a stream that adjusts right and fills with spaces, a string in a field of width `w` is
written after `w - length` spaces. -/
theorem put_string_right (t : String) (b : Base) (w : Nat) (s : String) :
    (OStream.mk t false ' ' b).put_string w s
      = OStream.mk (t ++ String.mk (List.replicate (w - s.utf8ByteSize) ' ') ++ s) false ' ' b := by
  unfold OStream.put_string OStream.write
  simp only [Bool.false_eq_true, if_false, String.append_assoc]

/-- On a decimal stream that adjusts right and fills with spaces, a number in a field of
width `w` is written as its decimal digits after `w - digits` spaces. -/
theorem put_size_right (t : String) (w n : Nat) :
    (OStream.mk t false ' ' .dec).put_size w n
      = OStream.mk (t ++ String.mk (List.replicate (w - (Nat.repr n).length) ' ') ++ Nat.repr n)
          false ' ' .dec := by
  have e : (OStream.mk t false ' ' .dec).put_size w n
      = (OStream.mk t false ' ' .dec).put_string w (Nat.repr n) := rfl
  rw [e, put_string_right, repr_utf8ByteSize]

/-- One pass of the loop of `operator<<` on a stream in the default formatting state. -/
theorem insert_row_right (text : T → String) (wi wd : Nat) (l : MappedList T) (i : Nat)
    (t : String) (id : String) (value : T) (hid : l.id i = .ok id)
    (hv : l.index_pos i = .ok value) :
    insert_row text wi wd l i (OStream.mk t false ' ' .dec)
      = .next (OStream.mk (t ++ (String.mk (List.replicate (wi - (Nat.repr i).length) ' ')
          ++ Nat.repr i ++ "  " ++ String.mk (List.replicate (wd - id.utf8ByteSize) ' ') ++ id
          ++ "  " ++ text value) ++ "\n") false ' ' .dec) := by
  simp only [insert_row, hid, hv]
  rw [put_size_right]
  simp only [OStream.write]
  rw [put_string_right]
  simp only [String.append_assoc]

/-- The loop of `operator<<` on a stream in the default formatting state writes one line for
each position. -/
theorem insert_rows (text : T → String) (wi wd : Nat) (l : MappedList T)
    (hlen : l.ids_.length = l.data_.length) (t : String) (k : Nat) (hk : k ≤ l.size) :
    ∃ rows : List String, rows.length = k ∧
      forLoop k (fun i os => insert_row text wi wd l i os) (OStream.mk t false ' ' .dec)
        = .next (OStream.mk (rows.foldl (fun out row => out ++ row ++ "\n") t) false ' ' .dec) ∧
      ∀ i, i < k → ∃ id value, l.id i = .ok id ∧ l.index_pos i = .ok value ∧
        rows[i]? = some (String.mk (List.replicate (wi - (Nat.repr i).length) ' ') ++ Nat.repr i
          ++ "  " ++ String.mk (List.replicate (wd - id.utf8ByteSize) ' ') ++ id ++ "  "
          ++ text value) := by
  induction k with
  | zero => exact ⟨[], rfl, by simp [forLoop_zero], by simp⟩
  | succ k ih =>
    obtain ⟨rows, hrl, hloop, hrows⟩ := ih (by omega)
    have hkd : k < l.data_.length := hk
    have hki : k < l.ids_.length := by rw [hlen]; exact hkd
    have hid : l.id k = .ok (l.ids_[k]) := by
      unfold MappedList.id vector_index
      rw [List.getElem?_eq_getElem hki]
    have hv : l.index_pos k = .ok (l.data_[k]) := by
      unfold index_pos vector_index
      rw [List.getElem?_eq_getElem hkd]
    refine ⟨rows ++ [String.mk (List.replicate (wi - (Nat.repr k).length) ' ') ++ Nat.repr k
      ++ "  " ++ String.mk (List.replicate (wd - (l.ids_[k]).utf8ByteSize) ' ') ++ l.ids_[k]
      ++ "  " ++ text (l.data_[k])], by simp [hrl], ?_, ?_⟩
    · rw [forLoop_succ, hloop]
      simp only []
      rw [insert_row_right text wi wd l k _ _ _ hid hv]
      simp only [List.foldl_append, List.foldl_cons, List.foldl_nil, String.append_assoc]
    · intro i hi
      by_cases hik : i = k
      · subst hik
        refine ⟨_, _, hid, hv, ?_⟩
        rw [List.getElem?_append_right (by omega), hrl]
        simp
      · obtain ⟨id, value, h1, h2, h3⟩ := hrows i (by omega)
        refine ⟨id, value, h1, h2, ?_⟩
        rw [List.getElem?_append_left (by omega)]
        exact h3

/-- The text of `largest_index` is the decimal text of the number inserted. -/
theorem largest_index_text (n : Nat) :
    ((OStream.fresh "").put_size 0 n).text = Nat.repr n := by
  unfold OStream.fresh
  rw [put_size_right]
  simp only [Nat.zero_sub, List.replicate_zero]
  show "" ++ "" ++ Nat.repr n = Nat.repr n
  simp only [String.append_empty, String.empty_append]

/-- The header line of `operator<<` on a stream in the default formatting state. -/
theorem insert_header (t description : String) (wi wd : Nat) :
    ((((((OStream.mk t false ' ' .dec).put_string wi "Index").write "  ").put_string wd
      "ID").write "  ").write description).write "\n"
      = OStream.mk (t ++ (String.mk (List.replicate (wi - 5) ' ') ++ "Index" ++ "  "
          ++ String.mk (List.replicate (wd - 2) ' ') ++ "ID" ++ "  " ++ description) ++ "\n")
          false ' ' .dec := by
  rw [put_string_right]
  simp only [OStream.write]
  rw [put_string_right]
  have h5 : "Index".utf8ByteSize = 5 := by decide
  have h2 : "ID".utf8ByteSize = 2 := by decide
  simp only [h5, h2, String.append_assoc]

/-- C11 holds on a stream in the default formatting state: for a reachable collection with
`n >= 1` elements (`n` a `std::size_t`) and a stream that adjusts right, fills with spaces and
writes integers in decimal, `operator<<` appends `n + 1` lines, each ended by one line feed,
and leaves the formatting state as it was.  With `wi` the larger of 5 and the number of
decimal digits of `n - 1`, and `wd` the larger of 2 and the byte length of the longest
identifier, the header line is `wi - 5` spaces, `Index`, two spaces, `wd - 2` spaces, `ID`, two
spaces and the description; the line for position `i` is the decimal digits of `i` after as
many spaces as fill the width `wi`, two spaces, the identifier at `i` after as many spaces as
fill the width `wd`, two spaces and the text form of the value at `i`. -/
theorem insert_format [SizeCast T] (text : T → String) (h : List String) (l : MappedList T)
    (hr : Reachable h l) (hn : 1 ≤ l.size) (hsz : l.size < SIZE_MOD) (os : OStream)
    (hleft : os.left = false) (hfill : os.fill = ' ') (hbase : os.base = .dec) :
    ∃ lines : List String, lines.length = l.size + 1 ∧
      op_insert text os l
        = .ok { os with text := lines.foldl (fun out line => out ++ line ++ "\n") os.text } ∧
      lines[0]? = some (String.mk (List.replicate
          (max 5 (Nat.repr (l.size - 1)).length - 5) ' ') ++ "Index" ++ "  "
        ++ String.mk (List.replicate
          (max 2 ((l.ids_.map String.utf8ByteSize).foldl max 0) - 2) ' ') ++ "ID" ++ "  "
        ++ l.description) ∧
      ∀ i, i < l.size → ∃ id value, l.id i = .ok id ∧ l.index_pos i = .ok value ∧
        lines[i + 1]? = some (String.mk (List.replicate
            (max 5 (Nat.repr (l.size - 1)).length - (Nat.repr i).length) ' ') ++ Nat.repr i
          ++ "  " ++ String.mk (List.replicate
            (max 2 ((l.ids_.map String.utf8ByteSize).foldl max 0) - id.utf8ByteSize) ' ') ++ id
          ++ "  " ++ text value) := by
  obtain ⟨t, lf, fl, b⟩ := os
  simp only at hleft hfill hbase
  subst hleft hfill hbase
  have hc := reachable_consistent h l hr
  have hlen : l.ids_.length = l.data_.length := by rw [hc.1, hc.2.2.1]
  have hlast : (l.size + SIZE_MOD - 1) % SIZE_MOD = l.size - 1 := by
    have e : l.size + SIZE_MOD - 1 = (l.size - 1) + SIZE_MOD := by omega
    rw [e, Nat.add_mod_right, Nat.mod_eq_of_lt (by omega)]
  obtain ⟨rows, hrl, hloop, hrows⟩ := insert_rows text
    (max 5 (Nat.repr (l.size - 1)).length)
    (max 2 ((l.ids_.map String.utf8ByteSize).foldl max 0)) l hlen
    (t ++ (String.mk (List.replicate (max 5 (Nat.repr (l.size - 1)).length - 5) ' ') ++ "Index"
      ++ "  " ++ String.mk (List.replicate
        (max 2 ((l.ids_.map String.utf8ByteSize).foldl max 0) - 2) ' ') ++ "ID" ++ "  "
      ++ l.description) ++ "\n") l.size (le_refl _)
  refine ⟨(String.mk (List.replicate (max 5 (Nat.repr (l.size - 1)).length - 5) ' ')
    ++ "Index" ++ "  " ++ String.mk (List.replicate
      (max 2 ((l.ids_.map String.utf8ByteSize).foldl max 0) - 2) ' ') ++ "ID" ++ "  "
    ++ l.description) :: rows, by simp [hrl], ?_, by simp, ?_⟩
  · unfold op_insert
    have h5 : "Index".utf8ByteSize = 5 := by decide
    have h2 : "ID".utf8ByteSize = 2 := by decide
    simp only [hlast, reachable_width h l hr, largest_index_text, repr_utf8ByteSize, h5, h2]
    rw [insert_header, hloop]
    simp only [List.foldl_cons]
  · intro i hi
    obtain ⟨id, value, h1, h2, h3⟩ := hrows i hi
    exact ⟨id, value, h1, h2, by rw [List.getElem?_cons_succ]; exact h3⟩

/-- C11, the test `MappedListTest.StreamInsertion` read through `insert_format`: the test
streams into a new `std::stringstream`. -/
theorem insert_format_witness :
    Reachable ["first thing", "second thing"] test_list ∧ 1 ≤ test_list.size ∧
    test_list.size < SIZE_MOD ∧ (OStream.fresh "").left = false ∧
    (OStream.fresh "").fill = ' ' ∧ (OStream.fresh "").base = .dec ∧
    ∃ lines : List String, lines.length = test_list.size + 1 ∧
      op_insert test_text (OStream.fresh "") test_list
        = .ok { OStream.fresh "" with
            text := lines.foldl (fun out line => out ++ line ++ "\n") (OStream.fresh "").text } ∧
      lines[0]? = some (String.mk (List.replicate
          (max 5 (Nat.repr (test_list.size - 1)).length - 5) ' ') ++ "Index" ++ "  "
        ++ String.mk (List.replicate
          (max 2 ((test_list.ids_.map String.utf8ByteSize).foldl max 0) - 2) ' ') ++ "ID" ++ "  "
        ++ test_list.description) ∧
      ∀ i, i < test_list.size → ∃ id value, test_list.id i = .ok id ∧
        test_list.index_pos i = .ok value ∧
        lines[i + 1]? = some (String.mk (List.replicate
            (max 5 (Nat.repr (test_list.size - 1)).length - (Nat.repr i).length) ' ')
          ++ Nat.repr i ++ "  " ++ String.mk (List.replicate
            (max 2 ((test_list.ids_.map String.utf8ByteSize).foldl max 0) - id.utf8ByteSize) ' ')
          ++ id ++ "  " ++ test_text value) :=
  ⟨test_list_reachable, by decide, by decide, rfl, rfl, rfl,
    insert_format test_text ["first thing", "second thing"] test_list test_list_reachable
      (by decide) (by decide) (OStream.fresh "") rfl rfl rfl⟩

/-- C11, the value of `MappedListTest.StreamInsertion`: the three lines of the test, and the
lines of `insert_format` for this collection written out. -/
theorem insert_format_test :
    op_insert test_text (OStream.fresh "") test_list
      = .ok (OStream.fresh
          "Index            ID  Test Stuff\n    0   first thing  0\n    1  second thing  1\n") ∧
    String.mk (List.replicate (max 5 (Nat.repr (2 - 1)).length - 5) ' ') ++ "Index" ++ "  "
        ++ String.mk (List.replicate (max 2 12 - 2) ' ') ++ "ID" ++ "  " ++ "Test Stuff"
      = "Index            ID  Test Stuff" ∧
    String.mk (List.replicate (max 5 (Nat.repr (2 - 1)).length - (Nat.repr 0).length) ' ')
        ++ Nat.repr 0 ++ "  "
        ++ String.mk (List.replicate (max 2 12 - "first thing".utf8ByteSize) ' ')
        ++ "first thing" ++ "  " ++ test_text 0
      = "    0   first thing  0" ∧
    String.mk (List.replicate (max 5 (Nat.repr (2 - 1)).length - (Nat.repr 1).length) ' ')
        ++ Nat.repr 1 ++ "  "
        ++ String.mk (List.replicate (max 2 12 - "second thing".utf8ByteSize) ' ')
        ++ "second thing" ++ "  " ++ test_text 1
      = "    1  second thing  1" := by
  decide

/-- C11 as stated, for any stream, fails: on a stream whose `adjustfield` is `left` (after
`os << std::left`) the fields are padded after the text, so the collection of the tests is
written with `Index`, `ID`, the positions and the identifiers at the left of their columns,
and these are not the lines that C11 gives. -/
theorem insert_format_counterexample :
    Reachable ["first thing", "second thing"] test_list ∧ test_list.size = 2 ∧
    op_insert test_text (OStream.mk "" true ' ' .dec) test_list
      = .ok (OStream.mk
          "Index  ID            Test Stuff\n0      first thing   0\n1      second thing  1\n"
          true ' ' .dec) ∧
    ¬ ∃ os : OStream, op_insert test_text
          (OStream.mk "" true ' ' .dec) test_list = .ok os ∧
        os.text
          = "Index            ID  Test Stuff\n    0   first thing  0\n    1  second thing  1\n" := by
  refine ⟨test_list_reachable, rfl, by decide, ?_⟩
  rintro ⟨os, h1, h2⟩
  have h3 : op_insert test_text (OStream.mk "" true ' ' .dec) test_list
      = .ok (OStream.mk
          "Index  ID            Test Stuff\n0      first thing   0\n1      second thing  1\n"
          true ' ' .dec) := by decide
  rw [h3] at h1
  cases h1
  revert h2
  decide

end MappedList
end libselnm
/-! ## C20: column widths and the empty collection -/

namespace libselnm
namespace MappedList
variable {T : Type}

/-- C20 fails on the code for the empty collection: `list.size() - 1` is `2 ^ 64 - 1` in
`std::size_t`, whose decimal text in `largest_index` has 20 digits, so the Index column is 20
wide and the single line written on a stream in the default formatting state starts with 15
spaces; with the description `Test Stuff` the output is not the line `Index  ID  Test Stuff`.
On no stream, whatever its formatting state, is the text written that single line. -/
theorem insert_empty_pads (text : T → String) (os name description : String) :
    ((OStream.fresh "").put_size 0 ((0 + SIZE_MOD - 1) % SIZE_MOD)).text
      = "18446744073709551615" ∧
    op_insert text (OStream.fresh os) (new name description : MappedList T)
      = .ok (OStream.fresh
          (os ++ "               Index" ++ "  " ++ "ID" ++ "  " ++ description ++ "\n")) ∧
    op_insert test_text (OStream.fresh "") (new "test_list" "Test Stuff")
      = .ok (OStream.fresh "               Index  ID  Test Stuff\n") ∧
    op_insert test_text (OStream.fresh "") (new "test_list" "Test Stuff")
      ≠ .ok (OStream.fresh "Index  ID  Test Stuff\n") ∧
    ∀ s : OStream, op_insert text s (new name description : MappedList T)
      ≠ .ok { s with text := s.text ++ "Index  ID  " ++ description ++ "\n" } := by
  have hw : ((OStream.fresh "").put_size 0 ((0 + SIZE_MOD - 1) % SIZE_MOD)).text.utf8ByteSize
      = 20 := by decide
  have h5 : "Index".utf8ByteSize = 5 := by decide
  have h2 : "ID".utf8ByteSize = 2 := by decide
  have hs : size (new name description : MappedList T) = 0 := rfl
  have hm : (new name description : MappedList T).max_id_width_ = 0 := rfl
  have hd : (new name description : MappedList T).description = description := rfl
  refine ⟨by decide, ?_, by decide, by decide, ?_⟩
  · unfold op_insert
    simp only [h5, h2, hs, hm, hd, forLoop_zero, hw]
    unfold OStream.fresh
    rw [put_string_right]
    simp only [OStream.write]
    rw [put_string_right]
    have e1 : String.mk (List.replicate (max 5 20 - "Index".utf8ByteSize) ' ')
        = "               " := by decide
    have e2 : String.mk (List.replicate (max 2 0 - "ID".utf8ByteSize) ' ') = "" := by decide
    rw [e1, e2]
    have e3 : "               Index" = "               " ++ "Index" := by decide
    rw [e3]
    simp only [String.append_assoc, String.empty_append]
  · intro s hEq
    unfold op_insert at hEq
    simp only [h5, h2, hs, hm, hd, forLoop_zero, hw] at hEq
    have ht := congrArg (fun r => match r with
      | Res.ok o => o.text.length
      | _ => 0) hEq
    simp only [OStream.put_string, OStream.write] at ht
    have happ : ∀ a b : String, a.append b = a ++ b := fun _ _ => rfl
    have h15 : max 5 20 - 5 = 15 := by decide
    have h0 : max 2 0 - 2 = 0 := by decide
    have hI : "Index".length = 5 := by decide
    have hD : "ID".length = 2 := by decide
    have hL : "Index  ID  ".length = 11 := by decide
    have hsp : "  ".length = 2 := by decide
    have hnl : "\n".length = 1 := by decide
    cases hl : s.left <;>
      simp only [hl, h5, h2, h15, h0, Bool.false_eq_true, if_false, if_true,
        String.length_append, String.length_mk, List.length_replicate, hI, hD, hL, hsp, hnl,
        happ] at ht <;> omega

end MappedList
end libselnm

/-! ## C18: checked lookups -/

namespace libselnm
namespace MappedList
variable {T : Type}

/-- `indices_.at(id)` throws on a consistent collection exactly when `id` was not added. -/
theorem map_at_absent [SizeCast T] (h : List String) (l : MappedList T)
    (hc : Consistent h l) (id : String) :
    (id ∉ h → map_at l.indices_ id = .throws .out_of_range) ∧
    (id ∈ h → ∃ i, h[i]? = some id ∧ map_at l.indices_ id = .ok (SizeCast.of_size i)) := by
  constructor
  · intro hid
    unfold map_at
    rw [hc.2.2.2, lookup_zip_none _ h 0 h.length id hid]
  · intro hid
    obtain ⟨i, hi⟩ := List.getElem?_of_mem hid
    exact ⟨i, hi, (lookup_consistent h l hc i id hi).1⟩

/-- The checked lookups of C18 for an element type whose conversion from `std::size_t` and
back is the identity on the positions in use: on a reachable collection, `at(index)` throws
`std::out_of_range` exactly when `index >= size()` and else returns the value at the position;
`at(id)` and `operator[](id)` throw `std::out_of_range` exactly when `id` was never added and
else return the value at the position of `id`. -/
theorem lookup_checked [SizeCast T] (h : List String) (l : MappedList T)
    (hr : Reachable h l)
    (hconv : ∀ k, k < l.size → SizeCast.to_size (SizeCast.of_size k : T) = k)
    (index : Nat) (id : String) :
    (l.at_pos index = .throws .out_of_range ↔ index ≥ l.size) ∧
    (index < l.size → ∃ value, l.data_[index]? = some value ∧ l.at_pos index = .ok value) ∧
    (l.at_id id = .throws .out_of_range ↔ id ∉ h) ∧
    (l.index_id id = .throws .out_of_range ↔ id ∉ h) ∧
    (id ∈ h → ∃ i value, l.id i = .ok id ∧ l.data_[i]? = some value ∧
      l.at_id id = .ok value ∧ l.index_id id = .ok value) := by
  have hc := reachable_consistent h l hr
  have hin : id ∈ h → ∃ i value, l.id i = .ok id ∧ l.data_[i]? = some value ∧
      l.at_id id = .ok value ∧ l.index_id id = .ok value := by
    intro hid
    obtain ⟨i, hi, -⟩ := (map_at_absent h l hc id).2 hid
    have hlt : i < l.data_.length := by
      rw [hc.2.2.1]; exact (List.getElem?_eq_some.mp hi).1
    obtain ⟨-, h₂, h₃, h₄⟩ := lookup_consistent h l hc i id hi
    rw [hconv i hlt] at h₃ h₄
    refine ⟨i, l.data_[i], h₂, List.getElem?_eq_getElem hlt, ?_, ?_⟩
    · rw [h₃]; unfold vector_at; rw [List.getElem?_eq_getElem hlt]
    · rw [h₄]; unfold vector_index; rw [List.getElem?_eq_getElem hlt]
  have hout : id ∉ h → l.at_id id = .throws .out_of_range ∧
      l.index_id id = .throws .out_of_range := by
    intro hid
    have hm := (map_at_absent h l hc id).1 hid
    constructor
    · unfold at_id; rw [hm]
    · unfold index_id; rw [hm]
  refine ⟨?_, ?_, ⟨?_, fun hid => (hout hid).1⟩, ⟨?_, fun hid => (hout hid).2⟩, hin⟩
  · unfold at_pos
    rw [Matrix.vector_at_throws_iff]
    rfl
  · intro hlt
    refine ⟨l.data_[index], List.getElem?_eq_getElem hlt, ?_⟩
    unfold at_pos vector_at
    rw [List.getElem?_eq_getElem hlt]
  · intro hthrow hid
    obtain ⟨i, value, -, -, hv, -⟩ := hin hid
    rw [hv] at hthrow
    cases hthrow
  · intro hthrow hid
    obtain ⟨i, value, -, -, -, hv⟩ := hin hid
    rw [hv] at hthrow
    cases hthrow

/-- C18, the values of `MappedListTest.AccessItem`: with two elements, `at(2)`,
`at("third thing")` and `operator[]("third thing")` throw `std::out_of_range` and the
lookups of the two elements return. -/
theorem lookup_checked_test :
    test_list.at_pos 2 = .throws .out_of_range ∧
    test_list.at_id "third thing" = .throws .out_of_range ∧
    test_list.index_id "third thing" = .throws .out_of_range ∧
    test_list.at_pos 0 = .ok 0 ∧ test_list.at_pos 1 = .ok 1 ∧
    test_list.at_id "first thing" = .ok 0 ∧ test_list.at_id "second thing" = .ok 1 := by
  decide

theorem signed_pairs_nodup : (signed_pairs.map Prod.fst).Nodup := by
  have : signed_pairs.map Prod.fst = (List.range 129).map wrap_id := by
    simp [signed_pairs, Function.comp_def]
  rw [this]
  exact List.Nodup.map wrap_id_injective (List.nodup_range 129)

/-- C18 fails on the code for `MappedList<signed char>`: after 129 `add` calls with distinct
identifiers, the identifier at position 128 was added and `at(128)` returns its value, but
`indices_` holds the position as the `signed char` -128, which converts to the
`std::size_t` `2 ^ 64 - 128`: `at(id)` throws `std::out_of_range` and `operator[](id)` reads
`data_` outside its bounds. -/
theorem lookup_checked_wraps :
    (signed_pairs.map Prod.fst).Nodup ∧ signed_pairs[128]? = some (wrap_id 128, ⟨0⟩) ∧
    SizeCast.to_size (SizeCast.of_size 128 : SChar) = 18446744073709551488 ∧
    ∃ l : MappedList SChar, (new "test_list" "Test Stuff").add_all signed_pairs = .done l ∧
      l.size = 129 ∧ l.id 128 = .ok (wrap_id 128) ∧ l.at_pos 128 = .ok ⟨0⟩ ∧
      l.at_id (wrap_id 128) = .throws .out_of_range ∧
      l.index_id (wrap_id 128) = .undefined := by
  have hp : signed_pairs[128]? = some (wrap_id 128, ⟨0⟩) := by
    unfold signed_pairs
    rw [List.getElem?_map, List.getElem?_range (by decide)]
    rfl
  obtain ⟨l, hl, hr, hd⟩ := add_all_fresh signed_pairs [] (new "test_list" "Test Stuff")
    (Reachable.new _ _) signed_pairs_nodup (by simp)
  have hd' : l.data_ = signed_pairs.map Prod.snd := by simpa [new] using hd
  have hc : Consistent (signed_pairs.map Prod.fst) l := by
    simpa using reachable_consistent _ _ hr
  have hsize : l.data_.length = 129 := by
    rw [hd', List.length_map]
    simp [signed_pairs]
  have hid : (signed_pairs.map Prod.fst)[128]? = some (wrap_id 128) := by
    rw [List.getElem?_map, hp]; rfl
  have hv : l.data_[128]? = some ⟨0⟩ := by rw [hd', List.getElem?_map, hp]; rfl
  obtain ⟨-, h₂, h₃, h₄⟩ := lookup_consistent _ l hc 128 (wrap_id 128) hid
  have hwrap : SizeCast.to_size (SizeCast.of_size 128 : SChar) = 18446744073709551488 := by
    decide
  rw [hwrap] at h₃ h₄
  have hnone : l.data_[18446744073709551488]? = none :=
    List.getElem?_eq_none (by rw [hsize]; decide)
  refine ⟨signed_pairs_nodup, hp, hwrap, l, hl, hsize, h₂, ?_, ?_, ?_⟩
  · unfold at_pos vector_at; rw [hv]
  · rw [h₃]; unfold vector_at; rw [hnone]
  · rw [h₄]; unfold vector_index; rw [hnone]

end MappedList
end libselnm
